import Mathlib

/-!
# tpms-mqtt: advertisement decoding, device cache and MQTT bridging

A shallow embedding of `main/main.c`.

* A `uint8_t` is a `Fin 256`; arithmetic on bytes is done in `Nat`/`Int` on the value.
* A byte buffer is a `List (Fin 256)`; `rd` reads one element.
* A `float` is modelled by `ℚ`: the arithmetic is exact and rounding is not modelled.
* A C string is a `String`: its characters before the terminating NUL, one per byte.
* A bounded loop is a recursive function on the number of iterations left; the loop of
  `extract_device_name`, whose step depends on the data, takes fuel and returns an `Option`.
* The publish calls made are returned as a list; the value returned by the `k`-th publish call
  of a flush is given by an arbitrary function `msg_id : Nat → Int`.
* The event handlers are taken to run one at a time, each to completion.
-/

namespace TpmsMqtt

/-! ## Constants -/

def MAX_ADV_DATA_LEN : Nat := 31
def MAX_DEVICE_NAME_LEN : Nat := 32
def MAX_JSON_BUFFER_SIZE : Nat := 512
def MAX_DEVICES : Nat := 16

def HDR_0 : Nat := 0x03
def HDR_1 : Nat := 0x08
def HDR_2 : Nat := ('B').toNat
def HDR_3 : Nat := ('R').toNat

/-- The value of `buf[i]`, for a buffer of `uint8_t`. -/
def rd (buf : List (Fin 256)) (i : Nat) : Nat := (buf.getD i 0).val

/-! ## parse_sensor_payload_app -/

structure sensor_data_t where
  voltage : ℚ
  temperature_c : ℚ
  pressure_psi : ℚ
  valid : Bool
deriving DecidableEq, Repr

/-- The test of the scanning loop at index `i`:
`payload[i] == HDR_0 && payload[i+1] == HDR_1 && payload[i+2] == HDR_2 && payload[i+3] == HDR_3`. -/
def marker_at (payload : List (Fin 256)) (i : Nat) : Bool :=
  rd payload i == HDR_0 && rd payload (i + 1) == HDR_1 &&
    rd payload (i + 2) == HDR_2 && rd payload (i + 3) == HDR_3

/-- The loop `for (int i = 0; i <= len - 4; i++) { if (...) { pos = i; break; } }`, entered at
index `i` with `n` iterations left; the value is `pos` after the loop (`-1` when no index
matched). -/
def find_marker (payload : List (Fin 256)) : Nat → Nat → Int
  | _, 0 => -1
  | i, n + 1 => if marker_at payload i then (i : Int) else find_marker payload (i + 1) n

/-- The variable `pos` of `parse_sensor_payload_app` after the scanning loop: the loop runs over
`i = 0, ..., len - 4`, that is `len - 3` iterations (the loop is reached with `11 ≤ len`). -/
def marker_pos (payload : List (Fin 256)) (len : Nat) : Int :=
  find_marker payload 0 (len - 3)

/-- The variable `pr_raw`: `(sl[9] << 8) | sl[10]` stored in a `uint16_t`, then replaced by 146
when below 148. -/
def pr_raw_clamped (hi lo : Nat) : Nat :=
  let pr_raw := ((hi <<< 8) ||| lo) % 65536
  if pr_raw < 148 then 146 else pr_raw

def parse_sensor_payload_app (payload : List (Fin 256)) (len : Nat) : sensor_data_t :=
  let result : sensor_data_t := ⟨0, 0, 0, false⟩
  if len < 11 then result
  else
    let pos : Int := marker_pos payload len
    if pos < 0 ∨ pos + 11 > (len : Int) then result
    else
      let sl : Nat → Nat := fun k => rd payload (pos.toNat + k)
      let voltage : ℚ := (sl 7 : ℚ) / 10
      let temp_c : ℚ := (sl 8 : ℚ)
      let pr_raw : Nat := pr_raw_clamped (sl 9) (sl 10)
      let pr_bar : ℚ := (((pr_raw : Int) - 145 : Int) : ℚ) / 145
      let pr_psi : ℚ := pr_bar * 14.5038
      ⟨voltage, temp_c, pr_psi, true⟩

/-- The marker occurs at offset `p` and at no lower offset. -/
def first_marker (payload : List (Fin 256)) (p : Nat) : Prop :=
  marker_at payload p = true ∧ ∀ q, q < p → marker_at payload q = false

/-- The big-endian 16-bit value of `payload[p+9], payload[p+10]`. -/
def raw_pressure (payload : List (Fin 256)) (p : Nat) : Nat :=
  256 * rd payload (p + 9) + rd payload (p + 10)

/-- The sample advertisement of the specification: `03 08 42 52 00 00 00 32 21 00 98`. -/
def sample_payload : List (Fin 256) :=
  [0x03, 0x08, 0x42, 0x52, 0x00, 0x00, 0x00, 0x32, 0x21, 0x00, 0x98]

/-! ## C strings and formatting -/

/-- The C string left in a `char[n + 1]` buffer by a bounded copy of `src` (`strncpy` followed by
a NUL stored in the last element, or `snprintf` with size `n + 1`): the first `n` characters. -/
def strn (n : Nat) (src : String) : String := String.mk (src.data.take n)

/-- The C string held by a buffer with the given bytes followed by a NUL: the bytes before the
first NUL, as characters. -/
def cstring (bytes : List (Fin 256)) : String :=
  String.mk ((bytes.takeWhile (fun b => b != 0)).map (fun b => Char.ofNat b.val))

def hex_digit (n : Nat) : Char :=
  ['0', '1', '2', '3', '4', '5', '6', '7', '8', '9', 'A', 'B', 'C', 'D', 'E', 'F'].getD n '?'

/-- The output of `%02X` for a value below 256. -/
def fmt_02X (b : Nat) : String := String.mk [hex_digit (b / 16), hex_digit (b % 16)]

/-- The decimal digits of `n`, most significant first (`fuel` bounds the number of digits). -/
def dec_digits : Nat → Nat → List Char
  | 0, _ => []
  | fuel + 1, n =>
    if n < 10 then [hex_digit n] else dec_digits fuel (n / 10) ++ [hex_digit (n % 10)]

/-- The nearest integer to a non-negative rational, ties to even. -/
def round_half_even (y : ℚ) : Nat :=
  let f : Nat := (Rat.floor y).toNat
  let r : ℚ := y - (f : ℚ)
  if r < 1 / 2 then f else if 1 / 2 < r then f + 1 else if f % 2 = 0 then f else f + 1

/-- The output of `%.<prec>f` (with `prec` at least 1) for the value `x`, on the exact rational
value: sign, integer part, point, `prec` decimals. -/
def fmt_f (prec : Nat) (x : ℚ) : String :=
  let scaled : Nat := round_half_even (|x| * (10 : ℚ) ^ prec)
  let ip : Nat := scaled / 10 ^ prec
  let fp : Nat := scaled % 10 ^ prec
  let fdigits : List Char := dec_digits prec fp
  String.mk ((if x < 0 then ['-'] else []) ++ dec_digits (ip + 1) ip ++ ['.'] ++
    List.replicate (prec - fdigits.length) '0' ++ fdigits)

def format_mac_address (mac : List (Fin 256)) : String :=
  strn 17 (fmt_02X (rd mac 5) ++ ":" ++ fmt_02X (rd mac 4) ++ ":" ++ fmt_02X (rd mac 3) ++ ":" ++
    fmt_02X (rd mac 2) ++ ":" ++ fmt_02X (rd mac 1) ++ ":" ++ fmt_02X (rd mac 0))

/-- The loop of `bin_to_hex_string`, entered at index `i` with `n` iterations left. -/
def hex_loop (data : List (Fin 256)) : Nat → Nat → String
  | _, 0 => ""
  | i, n + 1 => fmt_02X (rd data i) ++ hex_loop data (i + 1) n

def bin_to_hex_string (data : List (Fin 256)) (len : Nat) : String :=
  let count := if len > MAX_ADV_DATA_LEN then MAX_ADV_DATA_LEN else len
  hex_loop data 0 count

/-! ## extract_device_name -/

/-- The bytes `buf[i], ..., buf[i + n - 1]` read by a `memcpy` of `n` bytes from `&buf[i]`. -/
def memcpy_bytes (buf : List (Fin 256)) (i n : Nat) : List (Fin 256) :=
  (List.range n).map (fun k => buf.getD (i + k) 0)

/-- The loop of `extract_device_name` at cursor `i`. The value is the returned C string together
with the indices of `adv_data` that were read, in order; `none` when `fuel` iterations did not
finish the loop. `adv_data` lists the memory from the pointer on: the buffer is its first
`data_len` bytes. -/
def extract_loop (adv_data : List (Fin 256)) (data_len : Nat) :
    Nat → Nat → Option (String × List Nat)
  | 0, _ => none
  | fuel + 1, i =>
    if i < data_len then
      let ad_length : Nat := rd adv_data i
      if ad_length = 0 then some ("", [i])
      else
        let ad_type : Nat := rd adv_data (i + 1)
        let ad_data_len : Nat := (ad_length - 1) % 256
        if (ad_type = 0x08 ∨ ad_type = 0x09) ∧
            (ad_data_len > 0 ∧ ad_data_len < MAX_DEVICE_NAME_LEN) then
          some (cstring (memcpy_bytes adv_data (i + 2) ad_data_len),
            [i, i + 1] ++ (List.range ad_data_len).map (fun k => i + 2 + k))
        else
          (extract_loop adv_data data_len fuel (i + ad_length + 1)).map
            (fun r => (r.1, [i, i + 1] ++ r.2))
    else some ("", [])

/-- The run of `extract_device_name`: returned string and indices read. Every iteration moves
the cursor forward, so `data_len + 1` iterations are enough. -/
def extract_device_name_run (adv_data : List (Fin 256)) (data_len : Nat) :
    Option (String × List Nat) :=
  extract_loop adv_data data_len (data_len + 1) 0

def extract_device_name (adv_data : List (Fin 256)) (data_len : Nat) : Option String :=
  (extract_device_name_run adv_data data_len).map (fun r => r.1)

/-- The indices of `adv_data` read by `extract_device_name`. -/
def extract_device_name_reads (adv_data : List (Fin 256)) (data_len : Nat) : Option (List Nat) :=
  (extract_device_name_run adv_data data_len).map (fun r => r.2)

/-! ## The device cache -/

structure device_cache_t where
  mac : String
  json : String
  valid : Bool
deriving DecidableEq, Repr

instance : Inhabited device_cache_t := ⟨⟨"", "", false⟩⟩

/-- The first loop of `cache_update` at index `i` with `n` iterations left: the cache after the
update of an existing entry, or `none` when the loop ends without a match. -/
def update_existing (mac json : String) (cache : List device_cache_t) :
    Nat → Nat → Option (List device_cache_t)
  | _, 0 => none
  | i, n + 1 =>
    if (cache.getD i default).valid = true ∧ (cache.getD i default).mac = mac then
      some (cache.set i { cache.getD i default with json := strn 511 json })
    else update_existing mac json cache (i + 1) n

/-- The second loop of `cache_update` at index `i` with `n` iterations left: the cache after the
insertion into an unoccupied slot, or `none` when the loop ends without one. -/
def insert_new (mac json : String) (cache : List device_cache_t) :
    Nat → Nat → Option (List device_cache_t)
  | _, 0 => none
  | i, n + 1 =>
    if (cache.getD i default).valid = false then
      some (cache.set i ⟨strn 17 mac, strn 511 json, true⟩)
    else insert_new mac json cache (i + 1) n

def cache_update (cache : List device_cache_t) (mac json : String) : List device_cache_t :=
  match update_existing mac json cache 0 MAX_DEVICES with
  | some c => c
  | none =>
    match insert_new mac json cache 0 MAX_DEVICES with
    | some c => c
    | none => cache.set 0 ⟨strn 17 mac, strn 511 json, true⟩

/-! ## The bridging controller -/

/-- A call `esp_mqtt_client_publish(mqtt_client, topic, data, len, qos, retain)`. -/
structure publish_call where
  topic : String
  data : String
  len : Nat
  qos : Nat
  retain : Nat
deriving DecidableEq, Repr

/-- The global variables: `mqtt_client` is true when the handle is not NULL. -/
structure State where
  mqtt_client : Bool
  mqtt_connected : Bool
  wifi_connected : Bool
  led_state : Bool
  last_blink_time_us : Int
  device_cache : List device_cache_t
deriving DecidableEq, Repr

/-- The globals at start: zero-initialised statics. -/
def init_state : State :=
  ⟨false, false, false, false, 0, List.replicate MAX_DEVICES default⟩

def update_led_state (st : State) : State :=
  if st.wifi_connected = true ∧ st.mqtt_connected = true then { st with led_state := false }
  else { st with led_state := true }

def led_toggle (st : State) : State :=
  if st.led_state = true then { st with led_state := false } else { st with led_state := true }

/-- The text written by the `snprintf` of `send_advertisement_to_mqtt`, before truncation. -/
def json_document (mac_str device_name adv_data_str : String) (sensor : sensor_data_t) : String :=
  "\x7b\"mac\":\"" ++ mac_str ++ "\",\"name\":\"" ++ device_name ++ "\",\"data\":\"" ++
    adv_data_str ++ "\",\"voltage\":" ++ fmt_f 1 sensor.voltage ++ ",\"temperature_c\":" ++
    fmt_f 1 sensor.temperature_c ++ ",\"pressure_psi\":" ++ fmt_f 2 sensor.pressure_psi ++ "\x7d\n"

/-- The contents of `json_buffer` in `send_advertisement_to_mqtt`. -/
def json_buffer (mac_address : List (Fin 256)) (device_name : String)
    (adv_data : List (Fin 256)) (adv_data_len : Nat) : String :=
  strn 511 (json_document (format_mac_address mac_address) device_name
    (bin_to_hex_string adv_data adv_data_len) (parse_sensor_payload_app adv_data adv_data_len))

/-- The contents of `topic_buffer` in `send_advertisement_to_mqtt`. -/
def live_topic (mac_str : String) : String := strn 127 ("ble/scanner/data/" ++ mac_str)

/-- The contents of `topic_buffer` in `send_all_cached_to_mqtt`. -/
def debug_topic (mac : String) : String := strn 127 ("ble/scanner/data/" ++ mac ++ "/debug")

/-- The new globals and the publish calls made. `device_name` is a C string (the pointer is not
NULL: the caller passes the result of `extract_device_name`). -/
def send_advertisement_to_mqtt (st : State) (mac_address : List (Fin 256))
    (device_name : String) (adv_data : List (Fin 256)) (adv_data_len : Nat) :
    State × List publish_call :=
  let sensor := parse_sensor_payload_app adv_data adv_data_len
  if sensor.valid = false then (st, [])
  else
    let mac_str := format_mac_address mac_address
    let adv_data_str := bin_to_hex_string adv_data adv_data_len
    let json_len := (json_document mac_str device_name adv_data_str sensor).length
    let json_buf := json_buffer mac_address device_name adv_data adv_data_len
    let topic_buffer := live_topic mac_str
    if st.mqtt_client = false ∨ st.mqtt_connected = false then
      if device_name = "BR" then
        ({ st with device_cache := cache_update st.device_cache mac_str json_buf }, [])
      else (st, [])
    else (st, [⟨topic_buffer, json_buf, json_len, 1, 0⟩])

/-- The publish call made by `send_all_cached_to_mqtt` for an entry. -/
def debug_call (e : device_cache_t) : publish_call :=
  ⟨debug_topic e.mac, e.json, e.json.length, 1, 0⟩

/-- The loop of `send_all_cached_to_mqtt` at index `i` with `n` iterations left; `k` publish
calls were made before, and `msg_id j` is the value returned by the `j`-th publish call of the
flush (counted from 0). The value is the cache after the loop and the publish calls made. -/
def flush_loop (msg_id : Nat → Int) :
    Nat → Nat → Nat → List device_cache_t → List device_cache_t × List publish_call
  | _, 0, _, cache => (cache, [])
  | i, n + 1, k, cache =>
    if (cache.getD i default).valid = false then flush_loop msg_id (i + 1) n k cache
    else
      let cache2 :=
        if msg_id k ≥ 0 then cache.set i { cache.getD i default with valid := false } else cache
      let r := flush_loop msg_id (i + 1) n (k + 1) cache2
      (r.1, debug_call (cache.getD i default) :: r.2)

def send_all_cached_to_mqtt (msg_id : Nat → Int) (st : State) : State × List publish_call :=
  if st.mqtt_client = false ∨ st.mqtt_connected = false then (st, [])
  else
    let r := flush_loop msg_id 0 MAX_DEVICES 0 st.device_cache
    ({ st with device_cache := r.1 }, r.2)

/-- The event ids `mqtt_event_handler` distinguishes; `OTHER` is the `default` case. -/
inductive mqtt_event_id
  | MQTT_EVENT_CONNECTED
  | MQTT_EVENT_DISCONNECTED
  | MQTT_EVENT_SUBSCRIBED
  | MQTT_EVENT_UNSUBSCRIBED
  | MQTT_EVENT_PUBLISHED
  | MQTT_EVENT_DATA
  | MQTT_EVENT_ERROR
  | OTHER
deriving DecidableEq, Repr

def mqtt_event_handler (msg_id : Nat → Int) (st : State) (event_id : mqtt_event_id) :
    State × List publish_call :=
  match event_id with
  | mqtt_event_id.MQTT_EVENT_CONNECTED =>
    let r := send_all_cached_to_mqtt msg_id { st with mqtt_connected := true }
    (update_led_state r.1, r.2)
  | mqtt_event_id.MQTT_EVENT_DISCONNECTED =>
    (update_led_state { st with mqtt_connected := false }, [])
  | _ => (update_led_state st, [])

/-- The events `wifi_event_handler` distinguishes. -/
inductive wifi_event
  | WIFI_EVENT_STA_START
  | WIFI_EVENT_STA_CONNECTED
  | IP_EVENT_STA_GOT_IP
  | WIFI_EVENT_STA_DISCONNECTED
  | OTHER
deriving DecidableEq, Repr

def wifi_event_handler (st : State) (ev : wifi_event) : State :=
  match ev with
  | wifi_event.WIFI_EVENT_STA_CONNECTED => update_led_state { st with wifi_connected := true }
  | wifi_event.WIFI_EVENT_STA_DISCONNECTED => update_led_state { st with wifi_connected := false }
  | _ => update_led_state st

/-- The case `BLE_GAP_EVENT_DISC` of `ble_gap_event_listener`, at time `now` (microseconds);
`none` only if `extract_device_name` does not return. -/
def ble_gap_event_disc (st : State) (mac_address adv_data : List (Fin 256)) (adv_data_len : Nat)
    (now : Int) : Option (State × List publish_call) :=
  match extract_device_name adv_data adv_data_len with
  | none => none
  | some device_name =>
    let r := send_advertisement_to_mqtt st mac_address device_name adv_data adv_data_len
    if now - r.1.last_blink_time_us ≥ 1000000 then
      some (led_toggle { r.1 with last_blink_time_us := now }, r.2)
    else some r

/-- The client handle stored by `init_mqtt` (which aborts on NULL). -/
def init_mqtt (st : State) : State := { st with mqtt_client := true }

/-- The states the globals go through: from the start, by `init_mqtt`, the MQTT and WiFi event
handlers and the advertisement listener, in any order and with any publish results, each
handler running to completion before the next one starts. -/
inductive Reachable : State → Prop
  | init : Reachable init_state
  | mqtt_init (st : State) : Reachable st → Reachable (init_mqtt st)
  | mqtt_event (st : State) (msg_id : Nat → Int) (ev : mqtt_event_id) :
    Reachable st → Reachable (mqtt_event_handler msg_id st ev).1
  | wifi (st : State) (ev : wifi_event) : Reachable st → Reachable (wifi_event_handler st ev)
  | advertisement (st st2 : State) (calls : List publish_call)
      (mac_address adv_data : List (Fin 256)) (adv_data_len : Nat) (now : Int) :
    Reachable st → mac_address.length = 6 → adv_data.length = adv_data_len →
    adv_data_len ≤ 255 →
    ble_gap_event_disc st mac_address adv_data adv_data_len now = some (st2, calls) →
    Reachable st2

/-- The cache is an array of `MAX_DEVICES` entries whose `mac` and `json` fields hold C strings
of at most 17 and 511 characters (`char mac[18]`, `char json[512]`). -/
def cache_wf (cache : List device_cache_t) : Prop :=
  cache.length = MAX_DEVICES ∧ ∀ e ∈ cache, e.mac.length ≤ 17 ∧ e.json.length ≤ 511

/-- No two occupied slots hold the same address. -/
def no_dup_mac (cache : List device_cache_t) : Prop :=
  ∀ i j, i < cache.length → j < cache.length →
    (cache.getD i default).valid = true → (cache.getD j default).valid = true →
    (cache.getD i default).mac = (cache.getD j default).mac → i = j

/-- The number of occupied slots. -/
def occupied_count (cache : List device_cache_t) : Nat :=
  (cache.filter (fun e => e.valid)).length

/-- Slot `i` is occupied and holds the address `mac`. -/
def slot_matches (cache : List device_cache_t) (mac : String) (i : Nat) : Prop :=
  (cache.getD i default).valid = true ∧ (cache.getD i default).mac = mac

/-- Slot `i` is unoccupied. -/
def slot_free (cache : List device_cache_t) (i : Nat) : Prop :=
  (cache.getD i default).valid = false

/-- A cache with three occupied slots (0, 1 and 3) and slot 2 free among the first four. -/
def sample_cache : List device_cache_t :=
  [⟨"FF:EE:DD:0C:BB:AA", "a", true⟩, ⟨"11:22:33:44:55:66", "b", true⟩, ⟨"", "", false⟩,
    ⟨"77:88:99:AA:BB:CC", "c", true⟩] ++ List.replicate 12 default

/-- The number of occupied slots among the `m` slots `i, ..., i + m - 1`. -/
def occ_range (cache : List device_cache_t) (i m : Nat) : Nat :=
  ((List.range m).filter (fun t => (cache.getD (i + t) default).valid)).length

/-- The number of occupied slots below slot `j`: the position, among the publish calls of a
flush, of the call made for slot `j`. -/
def occupied_before (cache : List device_cache_t) (j : Nat) : Nat := occ_range cache 0 j

/-- The publish calls for the occupied slots among `i, ..., i + m - 1`, in slot order. -/
def calls_range (cache : List device_cache_t) (i m : Nat) : List publish_call :=
  ((List.range m).filter (fun t => (cache.getD (i + t) default).valid)).map
    (fun t => debug_call (cache.getD (i + t) default))

/-- The globals with the client created, the link down and `sample_cache` as cache. -/
def sample_state : State := ⟨true, false, false, false, 0, sample_cache⟩

/-- The globals with the client created, the link up and `sample_cache` as cache. -/
def sample_state_up : State := ⟨true, true, false, false, 0, sample_cache⟩

/-- Publish results: the call number 1 is rejected, every other call is accepted. -/
def reject_second (k : Nat) : Int := if k = 1 then -1 else 5

/-- The cache invariant: 16 slots, and no two occupied slots hold the same address. -/
def cache_inv (cache : List device_cache_t) : Prop :=
  cache.length = MAX_DEVICES ∧ no_dup_mac cache

/-- A sample 6-byte source address. -/
def sample_addr : List (Fin 256) := [0xAA, 0xBB, 0x0C, 0xDD, 0xEE, 0xFF]

/-- An advertisement record: its type byte and its data bytes. -/
structure ad_record where
  ad_type : Fin 256
  data : List (Fin 256)

/-- The bytes of a record: the length byte (one more than the number of data bytes), the type
byte, the data bytes. -/
def record_bytes (r : ad_record) : List (Fin 256) :=
  ⟨(r.data.length + 1) % 256, Nat.mod_lt _ (by decide)⟩ :: r.ad_type :: r.data

/-- The bytes of a sequence of records, left to right. -/
def records_bytes : List ad_record → List (Fin 256)
  | [] => []
  | r :: rs => record_bytes r ++ records_bytes rs

/-- The record is a name record: type `0x08` or `0x09` and data length in (0, 32). -/
def is_name_record (r : ad_record) : Prop :=
  (r.ad_type.val = 0x08 ∨ r.ad_type.val = 0x09) ∧ 0 < r.data.length ∧ r.data.length < 32

/-- The data bytes as characters, one per byte. -/
def bytes_string (bytes : List (Fin 256)) : String :=
  String.mk (bytes.map (fun b => Char.ofNat b.val))

/-- A flags record `02 01 06`. -/
def sample_flags : ad_record := ⟨0x01, [0x06]⟩

/-- A complete-name record `03 09 42 52` ("BR"). -/
def sample_name : ad_record := ⟨0x09, [0x42, 0x52]⟩

/-- A shortened-name record `03 08 43 44` ("CD"). -/
def sample_name2 : ad_record := ⟨0x08, [0x43, 0x44]⟩

/-- The value of an uppercase hexadecimal digit (16 for any other character). -/
def hex_value (c : Char) : Nat :=
  if 48 ≤ c.toNat ∧ c.toNat ≤ 57 then c.toNat - 48
  else if 65 ≤ c.toNat ∧ c.toNat ≤ 70 then c.toNat - 55 else 16

/-- The string `s` is the two-digit uppercase hexadecimal rendering of `b`. -/
def is_hex_pair (s : String) (b : Nat) : Prop :=
  ∃ c1 c0, s = String.mk [c1, c0] ∧ hex_value c1 < 16 ∧ hex_value c0 < 16 ∧
    16 * hex_value c1 + hex_value c0 = b

/-- The two-digit uppercase hexadecimal renderings of the bytes, one after the other. -/
def hex_of_bytes : List (Fin 256) → String
  | [] => ""
  | b :: bs => fmt_02X b.val ++ hex_of_bytes bs

/-- A second sample address, differing from `sample_addr` in its last byte only. -/
def sample_addr2 : List (Fin 256) := [0xAA, 0xBB, 0x0C, 0xDD, 0xEE, 0xFE]

/-- An advertisement of 11 bytes without the marker. -/
def sample_no_marker : List (Fin 256) :=
  [0x02, 0x01, 0x06, 0x03, 0x09, 0x42, 0x52, 0x03, 0x08, 0x43, 0x44]

/-- The document rendered for `sample_addr`, the name "BR" and `sample_payload`. -/
def sample_document : String :=
  "\x7b\"mac\":\"FF:EE:DD:0C:BB:AA\",\"name\":\"BR\",\"data\":\"0308425200000032210098\"," ++
    "\"voltage\":5.0,\"temperature_c\":33.0,\"pressure_psi\":0.70\x7d\n"

/-- The JSON object text of the specification, from its six rendered fields: the six keys in the
fixed order, from the opening brace to the closing brace. -/
def json_object (mac name hex v t p : String) : String :=
  "\x7b\"mac\":\"" ++ mac ++ "\",\"name\":\"" ++ name ++ "\",\"data\":\"" ++ hex ++
    "\",\"voltage\":" ++ v ++ ",\"temperature_c\":" ++ t ++ ",\"pressure_psi\":" ++ p ++ "\x7d"

/-- The globals after `init_mqtt` and, link down, one advertisement `sample_payload` from
`sample_addr`: the reading is cached in slot 0. -/
def cached_state : State :=
  ⟨true, false, false, false, 0,
    ⟨"FF:EE:DD:0C:BB:AA", sample_document, true⟩ :: List.replicate 15 default⟩

/-- The globals after `cached_state` and an `MQTT_EVENT_CONNECTED` whose publish call was
rejected: the link is up and slot 0 is still occupied. -/
def up_state_occupied : State :=
  ⟨true, true, false, true, 0,
    ⟨"FF:EE:DD:0C:BB:AA", sample_document, true⟩ :: List.replicate 15 default⟩

/-- The cache after `cache_update` was called for each (address, payload) pair, in order. -/
def apply_updates (cache : List device_cache_t) : List (String × String) → List device_cache_t
  | [] => cache
  | p :: ps => apply_updates (cache_update cache p.1 p.2) ps

/-- The entry `cache_update` writes for a pair whose address has at most 17 characters: the
address, the first 511 characters of the payload, occupied. -/
def stored_entry (p : String × String) : device_cache_t := ⟨p.1, strn 511 p.2, true⟩

/-- A payload of 512 characters. -/
def long_payload : String := String.mk (List.replicate 512 'x')

/-- The 17 one-letter addresses `a` to `q`, the first 16 with the payload `x` and the 17th with
`long_payload`. -/
def sample_updates : List (String × String) :=
  (List.range 16).map (fun i => (String.mk [Char.ofNat (97 + i)], "x")) ++ [("q", long_payload)]

/-- An ASCII character that may stand unescaped inside a JSON string: printable (`0x20` to
`0x7E`), neither the quotation mark nor the backslash. -/
def json_plain_char (c : Char) : Prop :=
  0x20 ≤ c.toNat ∧ c.toNat < 0x7f ∧ c ≠ '\x22' ∧ c ≠ '\x5c'

/-- A string that is the body of a JSON string as it stands: every character is plain. -/
def json_plain_string (s : String) : Prop := ∀ c ∈ s.data, json_plain_char c

/-- A decimal digit. -/
def is_digit (c : Char) : Prop := 48 ≤ c.toNat ∧ c.toNat ≤ 57

/-- A JSON number with a fraction and no exponent: an optional minus sign, an integer part
without a superfluous leading zero, a point, at least one decimal. -/
def json_number (s : String) : Prop :=
  ∃ sign ip fp : List Char, s.data = sign ++ ip ++ ['.'] ++ fp ∧ (sign = [] ∨ sign = ['-']) ∧
    ip ≠ [] ∧ (∀ c ∈ ip, is_digit c) ∧ (ip.length = 1 ∨ ip.head? ≠ some '0') ∧
    fp ≠ [] ∧ ∀ c ∈ fp, is_digit c

/-- The text is a JSON object of the shape of the specification: the six keys in the fixed
order, the first three values JSON strings and the last three JSON numbers. -/
def is_json_reading_object (s : String) : Prop :=
  ∃ mac name hex v t p : String, s = json_object mac name hex v t p ∧
    json_plain_string mac ∧ json_plain_string name ∧ json_plain_string hex ∧
    json_number v ∧ json_number t ∧ json_number p

/-- An advertisement of 16 bytes: a complete-name record `04 09 41 22 42` (the name `A"B`)
followed by the sensor bytes of `sample_payload`. -/
def quote_payload : List (Fin 256) :=
  [0x04, 0x09, 0x41, 0x22, 0x42, 0x03, 0x08, 0x42, 0x52, 0x00, 0x00, 0x00, 0x32, 0x21, 0x00, 0x98]

/-! ## Specification-side definitions -/

/-- The replacement of a raw pressure below 148 by 146, as the specification words it. -/
def clamp_raw (r : Nat) : Nat := if r < 148 then 146 else r

/-- The two's-complement reading of a byte (range -128..127), as the specification words the
temperature field. -/
def int8_of_byte (b : Nat) : Int := if b < 128 then (b : Int) else (b : Int) - 256

/-- The sample advertisement with the temperature byte set to `0xFF`. -/
def sample_payload_ff : List (Fin 256) :=
  [0x03, 0x08, 0x42, 0x52, 0x00, 0x00, 0x00, 0x32, 0xFF, 0x00, 0x98]

/-- The sample advertisement with raw pressure `0x0000`. -/
def sample_payload_raw0 : List (Fin 256) :=
  [0x03, 0x08, 0x42, 0x52, 0x00, 0x00, 0x00, 0x32, 0x21, 0x00, 0x00]

/-- The sample advertisement with raw pressure `0x0093` (147). -/
def sample_payload_raw147 : List (Fin 256) :=
  [0x03, 0x08, 0x42, 0x52, 0x00, 0x00, 0x00, 0x32, 0x21, 0x00, 0x93]

/-! ## Theorems -/

theorem rd_lt (buf : List (Fin 256)) (i : Nat) : rd buf i < 256 := (buf.getD i 0).isLt

theorem find_marker_neg (payload : List (Fin 256)) (n i : Nat) :
    find_marker payload i n < 0 ↔ ∀ q, i ≤ q → q < i + n → marker_at payload q = false := by
  induction n generalizing i with
  | zero =>
    simp only [find_marker]
    constructor
    · intro _ q h1 h2; omega
    · intro _; decide
  | succ n ih =>
    simp only [find_marker]
    by_cases hm : marker_at payload i = true
    · simp only [hm, if_true]
      constructor
      · intro h; omega
      · intro h
        have := h i (le_refl _) (by omega)
        rw [hm] at this
        cases this
    · simp only [hm, if_false, Bool.false_eq_true]
      rw [ih (i + 1)]
      constructor
      · intro h q h1 h2
        by_cases hq : q = i
        · subst hq; simpa using hm
        · exact h q (by omega) (by omega)
      · intro h q h1 h2
        exact h q (by omega) (by omega)

theorem find_marker_found (payload : List (Fin 256)) (n i : Nat)
    (h : ¬ find_marker payload i n < 0) :
    ∃ p : Nat, find_marker payload i n = (p : Int) ∧ i ≤ p ∧ p < i + n ∧
      marker_at payload p = true ∧ ∀ q, i ≤ q → q < p → marker_at payload q = false := by
  induction n generalizing i with
  | zero => exact absurd (by simp [find_marker]) h
  | succ n ih =>
    simp only [find_marker] at h ⊢
    by_cases hm : marker_at payload i = true
    · refine ⟨i, by simp [hm], le_refl _, by omega, hm, ?_⟩
      intro q h1 h2; omega
    · simp only [hm, if_false, Bool.false_eq_true] at h ⊢
      obtain ⟨p, hp, h1, h2, h3, h4⟩ := ih (i + 1) h
      refine ⟨p, hp, by omega, by omega, h3, ?_⟩
      intro q hq1 hq2
      by_cases hq : q = i
      · subst hq; simpa using hm
      · exact h4 q (by omega) hq2

theorem marker_pos_eq (payload : List (Fin 256)) (len p : Nat)
    (hf : first_marker payload p) (hp : p + 4 ≤ len) : marker_pos payload len = (p : Int) := by
  unfold marker_pos
  have hnn : ¬ find_marker payload 0 (len - 3) < 0 := by
    rw [find_marker_neg]
    intro h
    have := h p (Nat.zero_le _) (by omega)
    rw [hf.1] at this
    cases this
  obtain ⟨p1, hp1, _, _, hm, hlow⟩ := find_marker_found payload (len - 3) 0 hnn
  rw [hp1]
  have h1 : ¬ p1 < p := by
    intro hlt
    have := hf.2 p1 hlt
    rw [hm] at this
    cases this
  have h2 : ¬ p < p1 := by
    intro hlt
    have := hlow p (Nat.zero_le _) hlt
    rw [hf.1] at this
    cases this
  have : p1 = p := by omega
  rw [this]

theorem marker_pos_first (payload : List (Fin 256)) (len : Nat)
    (h : ¬ marker_pos payload len < 0) :
    ∃ p : Nat, marker_pos payload len = (p : Int) ∧ p + 3 < len ∧ first_marker payload p := by
  obtain ⟨p, hp, _, h2, hm, hlow⟩ := find_marker_found payload (len - 3) 0 h
  exact ⟨p, hp, by omega, hm, fun q hq => hlow q (Nat.zero_le _) hq⟩

theorem exists_first_marker (payload : List (Fin 256)) (p : Nat)
    (h : marker_at payload p = true) : ∃ p0, p0 ≤ p ∧ first_marker payload p0 := by
  induction p using Nat.strong_induction_on with
  | _ p ih =>
    by_cases hex : ∃ q, q < p ∧ marker_at payload q = true
    · obtain ⟨q, hq, hmq⟩ := hex
      obtain ⟨p0, hle, hf⟩ := ih q hq hmq
      exact ⟨p0, by omega, hf⟩
    · refine ⟨p, le_refl _, h, ?_⟩
      intro q hq
      by_contra hc
      exact hex ⟨q, hq, by simpa using hc⟩

theorem pr_raw_bytes (hi lo : Nat) (hhi : hi < 256) (hlo : lo < 256) :
    ((hi <<< 8) ||| lo) % 65536 = 256 * hi + lo := by
  have h := Nat.mul_add_lt_is_or (i := 8) (b := lo) (by simpa using hlo) hi
  rw [Nat.shiftLeft_eq, Nat.mul_comm hi (2 ^ 8), ← h]
  have : (2 : Nat) ^ 8 = 256 := by norm_num
  rw [this]
  exact Nat.mod_eq_of_lt (by omega)

theorem parse_invalid_iff (payload : List (Fin 256)) (len : Nat) :
    (parse_sensor_payload_app payload len).valid = false ↔
      (len < 11 ∨ marker_pos payload len < 0 ∨ marker_pos payload len + 11 > (len : Int)) := by
  unfold parse_sensor_payload_app
  by_cases h1 : len < 11
  · simp [h1]
  · by_cases h2 : marker_pos payload len < 0 ∨ marker_pos payload len + 11 > (len : Int)
    · simp only [h1, if_false, h2, if_true, false_or]
    · simp only [h1, if_false, h2, false_or]
      simp

theorem parse_at_first (payload : List (Fin 256)) (len p : Nat)
    (hf : first_marker payload p) (hp : p + 11 ≤ len) :
    parse_sensor_payload_app payload len =
      ⟨(rd payload (p + 7) : ℚ) / 10, (rd payload (p + 8) : ℚ),
        (((pr_raw_clamped (rd payload (p + 9)) (rd payload (p + 10)) : Int) - 145 : Int) : ℚ)
          / 145 * 14.5038, true⟩ := by
  have hpos := marker_pos_eq payload len p hf (by omega)
  unfold parse_sensor_payload_app
  have h1 : ¬ len < 11 := by omega
  have h2 : ¬ ((p : Int) < 0 ∨ (p : Int) + 11 > (len : Int)) := by omega
  simp only [h1, if_false, hpos, h2, Int.toNat_ofNat]

theorem parse_valid_first (payload : List (Fin 256)) (len : Nat)
    (h : (parse_sensor_payload_app payload len).valid = true) :
    ∃ p : Nat, first_marker payload p ∧ p + 11 ≤ len ∧ marker_pos payload len = (p : Int) := by
  have hne : ¬ (parse_sensor_payload_app payload len).valid = false := by simp [h]
  rw [parse_invalid_iff] at hne
  push_neg at hne
  obtain ⟨_, h2, h3⟩ := hne
  obtain ⟨p, hp, _, hf⟩ := marker_pos_first payload len (by omega)
  exact ⟨p, hf, by omega, hp⟩

theorem pr_raw_clamped_eq (payload : List (Fin 256)) (p : Nat) :
    pr_raw_clamped (rd payload (p + 9)) (rd payload (p + 10)) =
      clamp_raw (raw_pressure payload p) := by
  unfold pr_raw_clamped clamp_raw raw_pressure
  simp only [pr_raw_bytes _ _ (rd_lt payload (p + 9)) (rd_lt payload (p + 10))]

theorem sample_first_marker : first_marker sample_payload 0 :=
  ⟨by decide, fun q hq => absurd hq (Nat.not_lt_zero q)⟩

/-- C1: for a payload of length `len` (0..255), the result is valid exactly when the marker
`03 08 42 52` occurs at some offset `p` with `p + 11 ≤ len`; when it is valid, the offset `pos`
the fields are read from is the lowest offset at which the marker occurs; and a payload shorter
than 11 bytes is never valid. -/
theorem parse_valid_iff_marker (payload : List (Fin 256)) (len : Nat)
    (_hlen : payload.length = len) (_h255 : len ≤ 255) :
    ((parse_sensor_payload_app payload len).valid = true ↔
        ∃ p, p + 11 ≤ len ∧ marker_at payload p = true) ∧
      ((parse_sensor_payload_app payload len).valid = true →
        ∃ p : Nat, marker_pos payload len = (p : Int) ∧ p + 11 ≤ len ∧
          marker_at payload p = true ∧
          ∀ q, q < p → marker_at payload q = false) ∧
      (len < 11 → (parse_sensor_payload_app payload len).valid = false) := by
  refine ⟨⟨?_, ?_⟩, ?_, ?_⟩
  · intro h
    obtain ⟨p, hf, hp, _⟩ := parse_valid_first payload len h
    exact ⟨p, hp, hf.1⟩
  · rintro ⟨p, hp, hm⟩
    obtain ⟨p0, hle, hf⟩ := exists_first_marker payload p hm
    rw [parse_at_first payload len p0 hf (by omega)]
  · intro h
    obtain ⟨p, hf, hp, hpos⟩ := parse_valid_first payload len h
    exact ⟨p, hpos, hp, hf.1, hf.2⟩
  · intro h
    rw [parse_invalid_iff]
    exact Or.inl h

theorem parse_valid_iff_marker_witness :
    sample_payload.length = 11 ∧ 11 ≤ 255 ∧
      ((parse_sensor_payload_app sample_payload 11).valid = true ↔
        ∃ p, p + 11 ≤ 11 ∧ marker_at sample_payload p = true) :=
  ⟨rfl, by decide, (parse_valid_iff_marker sample_payload 11 rfl (by decide)).1⟩

/-- C2: when the first occurrence of the marker is at offset `p` with `p + 11 ≤ len`, the result
is valid, `voltage = payload[p+7] / 10` and
`pressure_psi = ((r - 145) / 145) * 14.5038` with `r` the big-endian 16-bit value of
`payload[p+9], payload[p+10]` after clamping, in exact rational arithmetic; and the bytes
`03 08 42 52 00 00 00 32 21 00 98` give voltage 5, temperature 33, raw pressure 152 and pressure
`7 / 145 * 14.5038`. -/
theorem parse_voltage_pressure :
    (∀ (payload : List (Fin 256)) (len p : Nat), payload.length = len → len ≤ 255 →
        first_marker payload p → p + 11 ≤ len →
        (parse_sensor_payload_app payload len).valid = true ∧
        (parse_sensor_payload_app payload len).voltage = (rd payload (p + 7) : ℚ) / 10 ∧
        (parse_sensor_payload_app payload len).pressure_psi =
          (((clamp_raw (raw_pressure payload p) : ℚ) - 145) / 145) * 14.5038) ∧
      (first_marker sample_payload 0 ∧ raw_pressure sample_payload 0 = 152 ∧
        parse_sensor_payload_app sample_payload 11 = ⟨5, 33, 7 / 145 * 14.5038, true⟩) := by
  refine ⟨?_, sample_first_marker, by decide, ?_⟩
  · intro payload len p _ _ hf hp
    rw [parse_at_first payload len p hf hp, pr_raw_clamped_eq]
    refine ⟨rfl, rfl, ?_⟩
    push_cast
    rfl
  · rw [parse_at_first sample_payload 11 0 sample_first_marker (by decide)]
    have h7 : rd sample_payload (0 + 7) = 50 := by decide
    have h8 : rd sample_payload (0 + 8) = 33 := by decide
    have h9 : pr_raw_clamped (rd sample_payload (0 + 9)) (rd sample_payload (0 + 10)) = 152 := by
      decide
    rw [h7, h8, h9]
    norm_num

theorem parse_voltage_pressure_witness :
    (parse_sensor_payload_app sample_payload 11).valid = true ∧
      (parse_sensor_payload_app sample_payload 11).voltage =
        (rd sample_payload (0 + 7) : ℚ) / 10 ∧
      (parse_sensor_payload_app sample_payload 11).pressure_psi =
        (((clamp_raw (raw_pressure sample_payload 0) : ℚ) - 145) / 145) * 14.5038 :=
  parse_voltage_pressure.1 sample_payload 11 0 rfl (by decide) sample_first_marker (by decide)

theorem sample_raw0_first_marker : first_marker sample_payload_raw0 0 :=
  ⟨by decide, fun q hq => absurd hq (Nat.not_lt_zero q)⟩

theorem sample_raw147_first_marker : first_marker sample_payload_raw147 0 :=
  ⟨by decide, fun q hq => absurd hq (Nat.not_lt_zero q)⟩

theorem sample_ff_first_marker : first_marker sample_payload_ff 0 :=
  ⟨by decide, fun q hq => absurd hq (Nat.not_lt_zero q)⟩

/-- C3: in a valid decode (first marker at `p`, `p + 11 ≤ len`) the variable `pr_raw` is 146
when the raw 16-bit pressure is below 148 and the raw value itself otherwise; so every raw value
in 0..147 gives `pressure_psi = (1 / 145) * 14.5038`, the output of raw 146, every raw value from
148 on gives `((raw - 145) / 145) * 14.5038`, and two valid decodes with raw values below 148
(such as 0 and 147) have the same `pressure_psi`. -/
theorem pressure_clamp (payload : List (Fin 256)) (len p : Nat)
    (_hlen : payload.length = len) (_h255 : len ≤ 255)
    (hf : first_marker payload p) (hp : p + 11 ≤ len) :
    (parse_sensor_payload_app payload len).valid = true ∧
      (raw_pressure payload p < 148 →
        pr_raw_clamped (rd payload (p + 9)) (rd payload (p + 10)) = 146 ∧
        (parse_sensor_payload_app payload len).pressure_psi = (1 / 145) * 14.5038 ∧
        (parse_sensor_payload_app payload len).pressure_psi =
          (((146 : ℚ) - 145) / 145) * 14.5038) ∧
      (148 ≤ raw_pressure payload p →
        pr_raw_clamped (rd payload (p + 9)) (rd payload (p + 10)) = raw_pressure payload p ∧
        (parse_sensor_payload_app payload len).pressure_psi =
          (((raw_pressure payload p : ℚ) - 145) / 145) * 14.5038) ∧
      (∀ (payload2 : List (Fin 256)) (len2 p2 : Nat), payload2.length = len2 → len2 ≤ 255 →
        first_marker payload2 p2 → p2 + 11 ≤ len2 →
        raw_pressure payload p < 148 → raw_pressure payload2 p2 < 148 →
        (parse_sensor_payload_app payload len).pressure_psi =
          (parse_sensor_payload_app payload2 len2).pressure_psi) := by
  have hlow : ∀ (pl : List (Fin 256)) (l q : Nat), first_marker pl q → q + 11 ≤ l →
      raw_pressure pl q < 148 →
      (parse_sensor_payload_app pl l).pressure_psi = (1 / 145) * 14.5038 := by
    intro pl l q hq hl hr
    rw [parse_at_first pl l q hq hl, pr_raw_clamped_eq]
    simp only [clamp_raw, hr, if_true]
    norm_num
  refine ⟨?_, ?_, ?_, ?_⟩
  · rw [parse_at_first payload len p hf hp]
  · intro hr
    refine ⟨?_, hlow payload len p hf hp hr, ?_⟩
    · rw [pr_raw_clamped_eq]
      simp only [clamp_raw, hr, if_true]
    · rw [hlow payload len p hf hp hr]
      norm_num
  · intro hr
    have hnot : ¬ raw_pressure payload p < 148 := by omega
    refine ⟨?_, ?_⟩
    · rw [pr_raw_clamped_eq]
      simp only [clamp_raw, hnot, if_false]
    · rw [parse_at_first payload len p hf hp, pr_raw_clamped_eq]
      simp only [clamp_raw, hnot, if_false]
      push_cast
      rfl
  · intro payload2 len2 p2 _ _ hf2 hp2 hr hr2
    rw [hlow payload len p hf hp hr, hlow payload2 len2 p2 hf2 hp2 hr2]

theorem pressure_clamp_witness :
    raw_pressure sample_payload_raw0 0 = 0 ∧ raw_pressure sample_payload_raw147 0 = 147 ∧
      (parse_sensor_payload_app sample_payload_raw0 11).pressure_psi =
        (parse_sensor_payload_app sample_payload_raw147 11).pressure_psi :=
  ⟨by decide, by decide,
    (pressure_clamp sample_payload_raw0 11 0 rfl (by decide) sample_raw0_first_marker
      (by decide)).2.2.2 sample_payload_raw147 11 0 rfl (by decide) sample_raw147_first_marker
      (by decide) (by decide) (by decide)⟩

/-- C10, as stated, fails: for the valid advertisement `03 08 42 52 00 00 00 32 FF 00 98` the
temperature byte is `0xFF`, whose two's-complement reading is -1, and `temperature_c` is 255. -/
theorem temperature_signed_counterexample :
    (parse_sensor_payload_app sample_payload_ff 11).valid = true ∧
      first_marker sample_payload_ff 0 ∧
      rd sample_payload_ff (0 + 8) = 0xFF ∧
      int8_of_byte (rd sample_payload_ff (0 + 8)) = -1 ∧
      (parse_sensor_payload_app sample_payload_ff 11).temperature_c = 255 ∧
      (parse_sensor_payload_app sample_payload_ff 11).temperature_c ≠
        ((int8_of_byte (rd sample_payload_ff (0 + 8)) : Int) : ℚ) := by
  have h8 : rd sample_payload_ff (0 + 8) = 255 := by decide
  have hi : int8_of_byte 255 = -1 := by decide
  rw [parse_at_first sample_payload_ff 11 0 sample_ff_first_marker (by decide), h8, hi]
  refine ⟨rfl, sample_ff_first_marker, rfl, rfl, ?_, ?_⟩ <;> norm_num

/-- C10, amended: in a valid decode with the first marker at offset `p`, `temperature_c` is the
byte `payload[p+8]` read as an unsigned integer (range 0..255) with no scaling; it is the
two's-complement reading of the byte exactly when the byte is below 128; byte `0x21` gives 33
and byte `0xFF` gives 255. -/
theorem temperature_unsigned :
    (∀ (payload : List (Fin 256)) (len p : Nat), payload.length = len → len ≤ 255 →
        first_marker payload p → p + 11 ≤ len →
        (parse_sensor_payload_app payload len).valid = true ∧
        (parse_sensor_payload_app payload len).temperature_c = (rd payload (p + 8) : ℚ) ∧
        0 ≤ (parse_sensor_payload_app payload len).temperature_c ∧
        (parse_sensor_payload_app payload len).temperature_c ≤ 255 ∧
        ((parse_sensor_payload_app payload len).temperature_c =
            ((int8_of_byte (rd payload (p + 8)) : Int) : ℚ) ↔ rd payload (p + 8) < 128)) ∧
      (rd sample_payload (0 + 8) = 0x21 ∧
        (parse_sensor_payload_app sample_payload 11).temperature_c = 33) ∧
      (rd sample_payload_ff (0 + 8) = 0xFF ∧
        (parse_sensor_payload_app sample_payload_ff 11).temperature_c = 255) := by
  refine ⟨?_, ⟨by decide, ?_⟩, ⟨by decide, ?_⟩⟩
  · intro payload len p _ _ hf hp
    rw [parse_at_first payload len p hf hp]
    have hb := rd_lt payload (p + 8)
    refine ⟨rfl, rfl, ?_, ?_, ?_⟩
    · exact Nat.cast_nonneg _
    · show ((rd payload (p + 8) : ℕ) : ℚ) ≤ 255
      exact_mod_cast Nat.le_of_lt_succ hb
    · show ((rd payload (p + 8) : ℕ) : ℚ) = ((int8_of_byte (rd payload (p + 8)) : Int) : ℚ) ↔ _
      unfold int8_of_byte
      constructor
      · intro h
        by_contra hc
        simp only [hc, if_false] at h
        have h2 : ((rd payload (p + 8) : ℕ) : Int) = (rd payload (p + 8) : Int) - 256 := by
          exact_mod_cast h
        omega
      · intro h
        simp only [h, if_true]
        norm_cast
  · rw [parse_at_first sample_payload 11 0 sample_first_marker (by decide)]
    have h8 : rd sample_payload (0 + 8) = 33 := by decide
    rw [h8]
    norm_num
  · rw [parse_at_first sample_payload_ff 11 0 sample_ff_first_marker (by decide)]
    have h8 : rd sample_payload_ff (0 + 8) = 255 := by decide
    rw [h8]
    norm_num

theorem temperature_unsigned_witness :
    (parse_sensor_payload_app sample_payload_ff 11).valid = true ∧
      (parse_sensor_payload_app sample_payload_ff 11).temperature_c =
        (rd sample_payload_ff (0 + 8) : ℚ) :=
  ⟨(temperature_unsigned.1 sample_payload_ff 11 0 rfl (by decide) sample_ff_first_marker
      (by decide)).1,
    (temperature_unsigned.1 sample_payload_ff 11 0 rfl (by decide) sample_ff_first_marker
      (by decide)).2.1⟩

/-! ### cache_update -/

theorem strn_of_le (n : Nat) (s : String) (h : s.length ≤ n) : strn n s = s := by
  cases s with
  | mk l =>
    unfold strn
    simp only [String.length] at h
    rw [List.take_of_length_le h]

theorem strn_length_le (n : Nat) (s : String) : (strn n s).length ≤ n := by
  unfold strn
  simp only [String.length, List.length_take]
  omega

theorem update_existing_none (mac json : String) (cache : List device_cache_t) (n i : Nat)
    (h : ∀ q, i ≤ q → q < i + n → ¬ slot_matches cache mac q) :
    update_existing mac json cache i n = none := by
  induction n generalizing i with
  | zero => rfl
  | succ n ih =>
    have hi : ¬ ((cache.getD i default).valid = true ∧ (cache.getD i default).mac = mac) :=
      h i (le_refl _) (by omega)
    simp only [update_existing, hi, if_false]
    exact ih (i + 1) (fun q h1 h2 => h q (by omega) (by omega))

theorem update_existing_first (mac json : String) (cache : List device_cache_t) (n i p : Nat)
    (h1 : i ≤ p) (h2 : p < i + n) (hm : slot_matches cache mac p)
    (hlow : ∀ q, i ≤ q → q < p → ¬ slot_matches cache mac q) :
    update_existing mac json cache i n =
      some (cache.set p { cache.getD p default with json := strn 511 json }) := by
  induction n generalizing i with
  | zero => omega
  | succ n ih =>
    by_cases hip : i = p
    · subst hip
      have hi : (cache.getD i default).valid = true ∧ (cache.getD i default).mac = mac := hm
      simp only [update_existing, hi, and_self, if_true]
    · have hi : ¬ ((cache.getD i default).valid = true ∧ (cache.getD i default).mac = mac) :=
        hlow i (le_refl _) (by omega)
      simp only [update_existing, hi, if_false]
      exact ih (i + 1) (by omega) (by omega) (fun q h3 h4 => hlow q (by omega) h4)

theorem insert_new_none (mac json : String) (cache : List device_cache_t) (n i : Nat)
    (h : ∀ q, i ≤ q → q < i + n → ¬ slot_free cache q) :
    insert_new mac json cache i n = none := by
  induction n generalizing i with
  | zero => rfl
  | succ n ih =>
    have hi : ¬ ((cache.getD i default).valid = false) := h i (le_refl _) (by omega)
    simp only [insert_new, hi, if_false]
    exact ih (i + 1) (fun q h1 h2 => h q (by omega) (by omega))

theorem insert_new_first (mac json : String) (cache : List device_cache_t) (n i p : Nat)
    (h1 : i ≤ p) (h2 : p < i + n) (hm : slot_free cache p)
    (hlow : ∀ q, i ≤ q → q < p → ¬ slot_free cache q) :
    insert_new mac json cache i n = some (cache.set p ⟨strn 17 mac, strn 511 json, true⟩) := by
  induction n generalizing i with
  | zero => omega
  | succ n ih =>
    by_cases hip : i = p
    · subst hip
      have hi : (cache.getD i default).valid = false := hm
      simp only [insert_new, hi, if_true]
    · have hi : ¬ ((cache.getD i default).valid = false) := hlow i (le_refl _) (by omega)
      simp only [insert_new, hi, if_false]
      exact ih (i + 1) (by omega) (by omega) (fun q h3 h4 => hlow q (by omega) h4)

/-- The three cases of `cache_update`, as replacements of one slot. -/
theorem cache_update_eq (cache : List device_cache_t) (mac json : String) :
    (∀ p, p < MAX_DEVICES → slot_matches cache mac p →
        (∀ q, q < p → ¬ slot_matches cache mac q) →
        cache_update cache mac json =
          cache.set p { cache.getD p default with json := strn 511 json }) ∧
      ((∀ q, q < MAX_DEVICES → ¬ slot_matches cache mac q) →
        ∀ p, p < MAX_DEVICES → slot_free cache p → (∀ q, q < p → ¬ slot_free cache q) →
        cache_update cache mac json = cache.set p ⟨strn 17 mac, strn 511 json, true⟩) ∧
      ((∀ q, q < MAX_DEVICES → ¬ slot_matches cache mac q) →
        (∀ q, q < MAX_DEVICES → ¬ slot_free cache q) →
        cache_update cache mac json = cache.set 0 ⟨strn 17 mac, strn 511 json, true⟩) := by
  refine ⟨?_, ?_, ?_⟩
  · intro p hp hm hlow
    unfold cache_update
    rw [update_existing_first mac json cache MAX_DEVICES 0 p (Nat.zero_le _) (by omega) hm
      (fun q _ hq => hlow q hq)]
  · intro hno p hp hm hlow
    unfold cache_update
    rw [update_existing_none mac json cache MAX_DEVICES 0 (fun q _ hq => hno q (by omega)),
      insert_new_first mac json cache MAX_DEVICES 0 p (Nat.zero_le _) (by omega) hm
        (fun q _ hq => hlow q hq)]
  · intro hno hfull
    unfold cache_update
    rw [update_existing_none mac json cache MAX_DEVICES 0 (fun q _ hq => hno q (by omega)),
      insert_new_none mac json cache MAX_DEVICES 0 (fun q _ hq => hfull q (by omega))]

theorem getD_set_self (cache : List device_cache_t) (p : Nat) (e : device_cache_t)
    (hp : p < cache.length) : (cache.set p e).getD p default = e := by
  simp [List.getD_eq_getElem?_getD, List.getElem?_set, hp]

theorem getD_set_other (cache : List device_cache_t) (p j : Nat) (e : device_cache_t)
    (hj : j ≠ p) : (cache.set p e).getD j default = cache.getD j default := by
  simp [List.getD_eq_getElem?_getD, List.getElem?_set, Ne.symm hj]

theorem cache_update_length (cache : List device_cache_t) (mac json : String) :
    (cache_update cache mac json).length = cache.length := by
  have hu : ∀ n i c, update_existing mac json cache i n = some c → c.length = cache.length := by
    intro n
    induction n with
    | zero => intro i c h; simp [update_existing] at h
    | succ n ih =>
      intro i c h
      simp only [update_existing] at h
      split at h
      · cases h; simp
      · exact ih (i + 1) c h
  have hi : ∀ n i c, insert_new mac json cache i n = some c → c.length = cache.length := by
    intro n
    induction n with
    | zero => intro i c h; simp [insert_new] at h
    | succ n ih =>
      intro i c h
      simp only [insert_new] at h
      split at h
      · cases h; simp
      · exact ih (i + 1) c h
  unfold cache_update
  split
  · next c h => exact hu _ _ c h
  · split
    · next c h => exact hi _ _ c h
    · simp

/-- C4: for a cache of 16 slots, an address of at most 17 characters and a payload of at most
511 characters, `cache_update` does the first that applies of: (1) when some occupied slot holds
`mac`, the lowest such slot gets the payload `json`, keeps its address and its occupied flag, and
every other slot is unchanged; (2) otherwise, when some slot is unoccupied, the lowest unoccupied
slot becomes `(mac, json, occupied)` and every other slot is unchanged; (3) otherwise (all 16
slots occupied) slot 0 becomes `(mac, json, occupied)` and slots 1..15 are unchanged. -/
theorem cache_update_priority (cache : List device_cache_t) (mac json : String)
    (hlen : cache.length = MAX_DEVICES) (hmac : mac.length ≤ 17) (hjson : json.length ≤ 511) :
    (cache_update cache mac json).length = MAX_DEVICES ∧
      (∀ p, p < MAX_DEVICES → slot_matches cache mac p →
        (∀ q, q < p → ¬ slot_matches cache mac q) →
        ((cache_update cache mac json).getD p default).json = json ∧
        ((cache_update cache mac json).getD p default).mac = (cache.getD p default).mac ∧
        ((cache_update cache mac json).getD p default).valid = (cache.getD p default).valid ∧
        ∀ j, j ≠ p → (cache_update cache mac json).getD j default = cache.getD j default) ∧
      ((∀ q, q < MAX_DEVICES → ¬ slot_matches cache mac q) →
        ∀ p, p < MAX_DEVICES → slot_free cache p → (∀ q, q < p → ¬ slot_free cache q) →
        (cache_update cache mac json).getD p default = ⟨mac, json, true⟩ ∧
        ∀ j, j ≠ p → (cache_update cache mac json).getD j default = cache.getD j default) ∧
      ((∀ q, q < MAX_DEVICES → ¬ slot_matches cache mac q) →
        (∀ q, q < MAX_DEVICES → ¬ slot_free cache q) →
        (cache_update cache mac json).getD 0 default = ⟨mac, json, true⟩ ∧
        ∀ j, j ≠ 0 → (cache_update cache mac json).getD j default = cache.getD j default) := by
  obtain ⟨h1, h2, h3⟩ := cache_update_eq cache mac json
  rw [strn_of_le 17 mac hmac, strn_of_le 511 json hjson] at h2 h3
  rw [strn_of_le 511 json hjson] at h1
  refine ⟨by rw [cache_update_length, hlen], ?_, ?_, ?_⟩
  · intro p hp hm hlow
    rw [h1 p hp hm hlow, getD_set_self cache p _ (by omega)]
    exact ⟨rfl, rfl, rfl, fun j hj => getD_set_other cache p j _ hj⟩
  · intro hno p hp hf hlow
    rw [h2 hno p hp hf hlow, getD_set_self cache p _ (by omega)]
    exact ⟨rfl, fun j hj => getD_set_other cache p j _ hj⟩
  · intro hno hfull
    have h0 : 0 < MAX_DEVICES := by decide
    rw [h3 hno hfull, getD_set_self cache 0 _ (by omega)]
    exact ⟨rfl, fun j hj => getD_set_other cache 0 j _ hj⟩

theorem cache_update_priority_witness :
    sample_cache.length = MAX_DEVICES ∧ ("11:22:33:44:55:66" : String).length ≤ 17 ∧
      ("new" : String).length ≤ 511 ∧ slot_matches sample_cache "11:22:33:44:55:66" 1 ∧
      ((cache_update sample_cache "11:22:33:44:55:66" "new").getD 1 default).json = "new" :=
  ⟨by decide, by decide, by decide, ⟨by decide, by decide⟩,
    ((cache_update_priority sample_cache "11:22:33:44:55:66" "new" (by decide) (by decide)
      (by decide)).2.1 1 (by decide) ⟨by decide, by decide⟩
      (fun q hq hm => by
        have hq0 : q = 0 := by omega
        subst hq0
        exact absurd hm.2 (by decide))).1⟩

/-! ### send_all_cached_to_mqtt -/

theorem occ_range_succ (cache : List device_cache_t) (i m : Nat) :
    occ_range cache i (m + 1) =
      (if (cache.getD i default).valid = true then 1 else 0) + occ_range cache (i + 1) m := by
  unfold occ_range
  have hfun : ((fun t => (cache.getD (i + t) default).valid) ∘ Nat.succ) =
      (fun t => (cache.getD (i + 1 + t) default).valid) := by
    funext t
    simp only [Function.comp, Nat.succ_eq_add_one]
    rw [show i + (t + 1) = i + 1 + t by omega]
  rw [List.range_succ_eq_map, List.filter_cons, List.filter_map, hfun]
  by_cases hv : (cache.getD i default).valid = true
  · simp only [Nat.add_zero, hv, if_true, List.length_cons, List.length_map]
    omega
  · simp only [Nat.add_zero, hv, if_false, Bool.false_eq_true, List.length_map]
    omega

theorem occ_range_congr (c1 c2 : List device_cache_t) (i m : Nat)
    (h : ∀ j, i ≤ j → c1.getD j default = c2.getD j default) :
    occ_range c1 i m = occ_range c2 i m := by
  unfold occ_range
  have hfun : (fun t => (c1.getD (i + t) default).valid) =
      (fun t => (c2.getD (i + t) default).valid) := by
    funext t
    rw [h (i + t) (by omega)]
  rw [hfun]

theorem getD_valid_lt (cache : List device_cache_t) (i : Nat)
    (h : (cache.getD i default).valid = true) : i < cache.length := by
  by_contra hc
  rw [List.getD_eq_default _ _ (by omega)] at h
  cases h

theorem calls_range_succ (cache : List device_cache_t) (i m : Nat) :
    calls_range cache i (m + 1) =
      (if (cache.getD i default).valid = true then [debug_call (cache.getD i default)] else []) ++
        calls_range cache (i + 1) m := by
  unfold calls_range
  have hfun : ((fun t => (cache.getD (i + t) default).valid) ∘ Nat.succ) =
      (fun t => (cache.getD (i + 1 + t) default).valid) := by
    funext t
    simp only [Function.comp, Nat.succ_eq_add_one]
    rw [show i + (t + 1) = i + 1 + t by omega]
  have hfun2 : ((fun t => debug_call (cache.getD (i + t) default)) ∘ Nat.succ) =
      (fun t => debug_call (cache.getD (i + 1 + t) default)) := by
    funext t
    simp only [Function.comp, Nat.succ_eq_add_one]
    rw [show i + (t + 1) = i + 1 + t by omega]
  rw [List.range_succ_eq_map, List.filter_cons, List.filter_map, hfun]
  by_cases hv : (cache.getD i default).valid = true
  · simp only [Nat.add_zero, hv, if_true, List.map_cons, List.map_map, hfun2, List.singleton_append]
  · simp only [Nat.add_zero, hv, if_false, Bool.false_eq_true, List.map_map, hfun2,
      List.nil_append]

theorem calls_range_congr (c1 c2 : List device_cache_t) (i m : Nat)
    (h : ∀ j, i ≤ j → c1.getD j default = c2.getD j default) :
    calls_range c1 i m = calls_range c2 i m := by
  unfold calls_range
  have hfun : (fun t => (c1.getD (i + t) default).valid) =
      (fun t => (c2.getD (i + t) default).valid) := by
    funext t
    rw [h (i + t) (by omega)]
  have hfun2 : (fun t => debug_call (c1.getD (i + t) default)) =
      (fun t => debug_call (c2.getD (i + t) default)) := by
    funext t
    rw [h (i + t) (by omega)]
  rw [hfun, hfun2]

/-- What the loop of `send_all_cached_to_mqtt` does: lengths, addresses and payloads are kept,
slots outside the range are untouched, an occupied slot of the range stays occupied exactly when
its publish call returned a negative id, and the calls are those of the occupied slots. -/
theorem flush_loop_spec (msg_id : Nat → Int) (n : Nat) :
    ∀ (i k : Nat) (cache : List device_cache_t),
      (flush_loop msg_id i n k cache).1.length = cache.length ∧
      (∀ j, ((flush_loop msg_id i n k cache).1.getD j default).mac = (cache.getD j default).mac ∧
        ((flush_loop msg_id i n k cache).1.getD j default).json =
          (cache.getD j default).json) ∧
      (∀ j, j < i ∨ i + n ≤ j →
        (flush_loop msg_id i n k cache).1.getD j default = cache.getD j default) ∧
      (∀ j, i ≤ j → j < i + n →
        (((flush_loop msg_id i n k cache).1.getD j default).valid = true ↔
          (cache.getD j default).valid = true ∧
            msg_id (k + occ_range cache i (j - i)) < 0)) ∧
      (flush_loop msg_id i n k cache).2 = calls_range cache i n := by
  induction n with
  | zero =>
    intro i k cache
    refine ⟨rfl, fun j => ⟨rfl, rfl⟩, fun j _ => rfl, ?_, rfl⟩
    intro j h1 h2
    omega
  | succ n ih =>
    intro i k cache
    by_cases hv : (cache.getD i default).valid = false
    · have hstep : flush_loop msg_id i (n + 1) k cache = flush_loop msg_id (i + 1) n k cache := by
        simp only [flush_loop, hv, if_true]
      rw [hstep]
      obtain ⟨ha, hb, hc, hd, he⟩ := ih (i + 1) k cache
      refine ⟨ha, hb, fun j hj => hc j (by omega), ?_, ?_⟩
      · intro j h1 h2
        by_cases hji : j = i
        · subst hji
          rw [hc j (by omega), hv]
          simp
        · rw [hd j (by omega) (by omega)]
          have hsub : j - i = (j - (i + 1)) + 1 := by omega
          rw [hsub, occ_range_succ]
          simp only [hv, Bool.false_eq_true, if_false, Nat.zero_add]
      · rw [he, calls_range_succ]
        simp only [hv, Bool.false_eq_true, if_false, List.nil_append]
    · have hv1 : (cache.getD i default).valid = true := by
        cases hb : (cache.getD i default).valid
        · exact absurd hb hv
        · rfl
      have hil : i < cache.length := getD_valid_lt cache i hv1
      have hstep : flush_loop msg_id i (n + 1) k cache =
          ((flush_loop msg_id (i + 1) n (k + 1)
              (if msg_id k ≥ 0 then cache.set i { cache.getD i default with valid := false }
                else cache)).1,
            debug_call (cache.getD i default) ::
              (flush_loop msg_id (i + 1) n (k + 1)
                (if msg_id k ≥ 0 then cache.set i { cache.getD i default with valid := false }
                  else cache)).2) := by
        simp only [flush_loop, hv1, Bool.true_eq_false, if_false]
      rw [hstep]
      generalize hc2 : (if msg_id k ≥ 0 then
        cache.set i { cache.getD i default with valid := false } else cache) = cache2
      have hlen2 : cache2.length = cache.length := by
        rw [← hc2]; split <;> simp
      have hother : ∀ j, j ≠ i → cache2.getD j default = cache.getD j default := by
        intro j hj
        rw [← hc2]
        split
        · exact getD_set_other cache i j _ hj
        · rfl
      have hself : (cache2.getD i default).mac = (cache.getD i default).mac ∧
          (cache2.getD i default).json = (cache.getD i default).json ∧
          ((cache2.getD i default).valid = true ↔ msg_id k < 0) := by
        rw [← hc2]
        split
        · next hk =>
          rw [getD_set_self cache i _ hil]
          refine ⟨rfl, rfl, ?_⟩
          simp only [Bool.false_eq_true, false_iff]
          omega
        · next hk =>
          refine ⟨rfl, rfl, ?_⟩
          simp only [hv1, true_iff]
          omega
      obtain ⟨ha, hb, hc, hd, he⟩ := ih (i + 1) (k + 1) cache2
      refine ⟨by rw [ha, hlen2], ?_, ?_, ?_, ?_⟩
      · intro j
        by_cases hji : j = i
        · subst hji
          exact ⟨by rw [(hb j).1, hself.1], by rw [(hb j).2, hself.2.1]⟩
        · rw [(hb j).1, (hb j).2, hother j hji]
          exact ⟨rfl, rfl⟩
      · intro j hj
        rw [hc j (by omega), hother j (by omega)]
      · intro j h1 h2
        by_cases hji : j = i
        · subst hji
          rw [hc j (by omega), hself.2.2]
          simp only [hv1, true_and, Nat.sub_self, occ_range, List.range_zero, List.filter_nil,
            List.length_nil, Nat.add_zero]
        · rw [hd j (by omega) (by omega), hother j hji]
          have hsub : j - i = (j - (i + 1)) + 1 := by omega
          rw [hsub, occ_range_succ, occ_range_congr cache2 cache (i + 1) _
            (fun t ht => hother t (by omega))]
          simp only [hv1, if_true]
          rw [show k + 1 + occ_range cache (i + 1) (j - (i + 1)) =
            k + (1 + occ_range cache (i + 1) (j - (i + 1))) by omega]
      · show debug_call (cache.getD i default) :: (flush_loop msg_id (i + 1) n (k + 1) cache2).2 =
          calls_range cache i (n + 1)
        rw [he, calls_range_succ, calls_range_congr cache2 cache (i + 1) _
          (fun t ht => hother t (by omega))]
        simp only [hv1, if_true, List.singleton_append]

theorem occ_range_add (cache : List device_cache_t) (a : Nat) :
    ∀ (i b : Nat), occ_range cache i (a + b) = occ_range cache i a + occ_range cache (i + a) b := by
  induction a with
  | zero =>
    intro i b
    simp [occ_range]
  | succ a ih =>
    intro i b
    rw [show a + 1 + b = (a + b) + 1 by omega, occ_range_succ, occ_range_succ, ih (i + 1) b,
      show i + 1 + a = i + (a + 1) by omega]
    omega

theorem calls_range_add (cache : List device_cache_t) (a : Nat) :
    ∀ (i b : Nat),
      calls_range cache i (a + b) = calls_range cache i a ++ calls_range cache (i + a) b := by
  induction a with
  | zero =>
    intro i b
    simp [calls_range]
  | succ a ih =>
    intro i b
    rw [show a + 1 + b = (a + b) + 1 by omega, calls_range_succ, calls_range_succ, ih (i + 1) b,
      show i + 1 + a = i + (a + 1) by omega, List.append_assoc]

theorem calls_range_length (cache : List device_cache_t) (i m : Nat) :
    (calls_range cache i m).length = occ_range cache i m := by
  simp [calls_range, occ_range]

theorem map_getD_range (l : List device_cache_t) :
    (List.range l.length).map (fun t => l.getD (0 + t) default) = l := by
  apply List.ext_getElem
  · simp
  · intro n h1 h2
    simp [List.getD_eq_getElem?_getD, List.getElem?_eq_getElem h2]

theorem calls_range_all (cache : List device_cache_t) :
    calls_range cache 0 cache.length = (cache.filter (fun e => e.valid)).map debug_call := by
  have h := map_getD_range cache
  conv_rhs => rw [← h]
  unfold calls_range
  rw [List.filter_map, List.map_map]
  rfl

theorem occ_range_all (cache : List device_cache_t) :
    occ_range cache 0 cache.length = occupied_count cache := by
  rw [← calls_range_length, calls_range_all, List.length_map]
  rfl

/-- The call made for an occupied slot `j` stands at position `occupied_before cache j` among
the calls of the flush. -/
theorem calls_range_index (cache : List device_cache_t) (j m : Nat) (hj : j < m)
    (hv : (cache.getD j default).valid = true) :
    (calls_range cache 0 m)[occupied_before cache j]? = some (debug_call (cache.getD j default)) ∧
      occupied_before cache j < occ_range cache 0 m := by
  have hm : m = j + ((m - j - 1) + 1) := by omega
  constructor
  · rw [hm, calls_range_add, calls_range_succ,
      List.getElem?_append_right (by rw [calls_range_length]; exact le_refl _)]
    simp only [calls_range_length, occupied_before, Nat.sub_self, Nat.zero_add, hv, if_true,
      List.singleton_append, List.getElem?_cons_zero]
  · rw [hm, occ_range_add, occ_range_succ]
    simp only [occupied_before, Nat.zero_add, hv, if_true]
    omega

theorem update_led_state_cache (st : State) :
    (update_led_state st).device_cache = st.device_cache := by
  unfold update_led_state
  split <;> rfl

theorem debug_topic_eq (mac : String) (h : mac.length ≤ 17) :
    debug_topic mac = "ble/scanner/data/" ++ mac ++ "/debug" := by
  unfold debug_topic
  apply strn_of_le
  rw [String.length_append, String.length_append]
  have h1 : ("ble/scanner/data/" : String).length = 17 := by decide
  have h2 : ("/debug" : String).length = 6 := by decide
  omega

theorem send_all_connected (msg_id : Nat → Int) (st : State) (hclient : st.mqtt_client = true)
    (hconn : st.mqtt_connected = true) :
    send_all_cached_to_mqtt msg_id st =
      ({ st with device_cache := (flush_loop msg_id 0 MAX_DEVICES 0 st.device_cache).1 },
        (flush_loop msg_id 0 MAX_DEVICES 0 st.device_cache).2) := by
  unfold send_all_cached_to_mqtt
  simp [hclient, hconn]

theorem sample_cache_wf : cache_wf sample_cache := ⟨by decide, by decide⟩

/-- C6: for a cache of 16 entries with N occupied ones, handling `MQTT_EVENT_CONNECTED` with a
non-null client makes exactly N publish calls, one per occupied entry in slot order, each to the
topic `ble/scanner/data/<entry address>/debug` with the entry's payload; and when every one of
these N calls is accepted (returns a non-negative id), no entry is occupied afterwards. -/
theorem connected_flushes_cache (msg_id : Nat → Int) (st : State)
    (hclient : st.mqtt_client = true) (hwf : cache_wf st.device_cache) :
    (mqtt_event_handler msg_id st mqtt_event_id.MQTT_EVENT_CONNECTED).2.length =
        occupied_count st.device_cache ∧
      (mqtt_event_handler msg_id st mqtt_event_id.MQTT_EVENT_CONNECTED).2 =
        (st.device_cache.filter (fun e => e.valid)).map
          (fun e => (⟨"ble/scanner/data/" ++ e.mac ++ "/debug", e.json, e.json.length, 1, 0⟩ :
            publish_call)) ∧
      ((∀ k, k < occupied_count st.device_cache → msg_id k ≥ 0) →
        occupied_count
            (mqtt_event_handler msg_id st mqtt_event_id.MQTT_EVENT_CONNECTED).1.device_cache = 0 ∧
          ∀ j, ((mqtt_event_handler msg_id st
            mqtt_event_id.MQTT_EVENT_CONNECTED).1.device_cache.getD j default).valid = false) := by
  have hrun : mqtt_event_handler msg_id st mqtt_event_id.MQTT_EVENT_CONNECTED =
      (update_led_state { ({ st with mqtt_connected := true } : State) with
          device_cache := (flush_loop msg_id 0 MAX_DEVICES 0 st.device_cache).1 },
        (flush_loop msg_id 0 MAX_DEVICES 0 st.device_cache).2) := by
    unfold mqtt_event_handler
    simp only []
    rw [send_all_connected msg_id { st with mqtt_connected := true } hclient rfl]
  obtain ⟨ha, _, hc, hd, he⟩ := flush_loop_spec msg_id MAX_DEVICES 0 0 st.device_cache
  have hcalls : (flush_loop msg_id 0 MAX_DEVICES 0 st.device_cache).2 =
      (st.device_cache.filter (fun e => e.valid)).map debug_call := by
    rw [he, ← hwf.1, calls_range_all]
  rw [hrun]
  simp only [update_led_state_cache]
  refine ⟨?_, ?_, ?_⟩
  · rw [hcalls, List.length_map]
    rfl
  · rw [hcalls]
    apply List.map_congr_left
    intro e he
    have hmem : e ∈ st.device_cache := (List.mem_filter.mp he).1
    unfold debug_call
    rw [debug_topic_eq e.mac (hwf.2 e hmem).1]
  · intro hacc
    have hall : ∀ j, ((flush_loop msg_id 0 MAX_DEVICES 0 st.device_cache).1.getD j
        default).valid = false := by
      intro j
      by_cases hj : j < MAX_DEVICES
      · cases hb : ((flush_loop msg_id 0 MAX_DEVICES 0 st.device_cache).1.getD j default).valid
        · rfl
        · exfalso
          have hiff := (hd j (Nat.zero_le _) (by omega)).mp hb
          have hidx := (calls_range_index st.device_cache j MAX_DEVICES hj hiff.1).2
          rw [← hwf.1, occ_range_all] at hidx
          have hge := hacc _ hidx
          have hneg := hiff.2
          simp only [Nat.zero_add, Nat.sub_zero] at hneg
          unfold occupied_before at hge
          omega
      · rw [List.getD_eq_default _ _ (by rw [ha, hwf.1]; omega)]
        rfl
    refine ⟨?_, hall⟩
    unfold occupied_count
    rw [List.length_eq_zero, List.filter_eq_nil_iff]
    intro e hmem
    obtain ⟨j, hj, hje⟩ := List.getElem_of_mem hmem
    have := hall j
    rw [List.getD_eq_getElem _ _ hj, hje] at this
    simp [this]

theorem connected_flushes_cache_witness :
    sample_state.mqtt_client = true ∧ cache_wf sample_state.device_cache ∧
      occupied_count sample_state.device_cache = 3 ∧
      (mqtt_event_handler (fun _ => 0) sample_state mqtt_event_id.MQTT_EVENT_CONNECTED).2.length =
        occupied_count sample_state.device_cache :=
  ⟨rfl, sample_cache_wf, by decide,
    (connected_flushes_cache (fun _ => 0) sample_state rfl sample_cache_wf).1⟩

/-- C7: in a flush (client present, link up, cache of 16 slots), whatever the publish calls
return, a slot is occupied afterwards exactly when it was occupied before and its publish call
(the call number `occupied_before` of the flush, which carries the slot's address and payload)
returned a negative id; the address and the payload of every slot are unchanged; so an entry
whose call was rejected is published again, with the same topic and payload, by the next
flush. -/
theorem flush_keeps_rejected (msg_id msg_id2 : Nat → Int) (st : State)
    (hclient : st.mqtt_client = true) (hconn : st.mqtt_connected = true)
    (hlen : st.device_cache.length = MAX_DEVICES) :
    (∀ j, j < MAX_DEVICES →
        (((send_all_cached_to_mqtt msg_id st).1.device_cache.getD j default).valid = true ↔
          (st.device_cache.getD j default).valid = true ∧
            msg_id (occupied_before st.device_cache j) < 0)) ∧
      (∀ j, j < MAX_DEVICES → (st.device_cache.getD j default).valid = true →
        (send_all_cached_to_mqtt msg_id st).2[occupied_before st.device_cache j]? =
          some (debug_call (st.device_cache.getD j default))) ∧
      (∀ j, ((send_all_cached_to_mqtt msg_id st).1.device_cache.getD j default).mac =
            (st.device_cache.getD j default).mac ∧
          ((send_all_cached_to_mqtt msg_id st).1.device_cache.getD j default).json =
            (st.device_cache.getD j default).json) ∧
      (∀ j, j < MAX_DEVICES → (st.device_cache.getD j default).valid = true →
        msg_id (occupied_before st.device_cache j) < 0 →
        debug_call (st.device_cache.getD j default) ∈
          (send_all_cached_to_mqtt msg_id2 (send_all_cached_to_mqtt msg_id st).1).2) := by
  obtain ⟨ha, hb, _, hd, he⟩ := flush_loop_spec msg_id MAX_DEVICES 0 0 st.device_cache
  have hiff : ∀ j, j < MAX_DEVICES →
      (((flush_loop msg_id 0 MAX_DEVICES 0 st.device_cache).1.getD j default).valid = true ↔
        (st.device_cache.getD j default).valid = true ∧
          msg_id (occupied_before st.device_cache j) < 0) := by
    intro j hj
    have := hd j (Nat.zero_le _) (by omega)
    simp only [Nat.zero_add, Nat.sub_zero] at this
    exact this
  rw [send_all_connected msg_id st hclient hconn]
  refine ⟨hiff, ?_, hb, ?_⟩
  · intro j hj hv
    show (flush_loop msg_id 0 MAX_DEVICES 0 st.device_cache).2[occupied_before st.device_cache j]?
      = _
    rw [he]
    exact (calls_range_index st.device_cache j MAX_DEVICES hj hv).1
  · intro j hj hv hrej
    rw [send_all_connected msg_id2
      { st with device_cache := (flush_loop msg_id 0 MAX_DEVICES 0 st.device_cache).1 }
      hclient hconn]
    obtain ⟨_, _, _, _, he2⟩ := flush_loop_spec msg_id2 MAX_DEVICES 0 0
      (flush_loop msg_id 0 MAX_DEVICES 0 st.device_cache).1
    show debug_call (st.device_cache.getD j default) ∈
      (flush_loop msg_id2 0 MAX_DEVICES 0 (flush_loop msg_id 0 MAX_DEVICES 0 st.device_cache).1).2
    rw [he2]
    have hv2 := (hiff j hj).mpr ⟨hv, hrej⟩
    have hidx := (calls_range_index _ j MAX_DEVICES hj hv2).1
    have hsame : debug_call ((flush_loop msg_id 0 MAX_DEVICES 0 st.device_cache).1.getD j default)
        = debug_call (st.device_cache.getD j default) := by
      unfold debug_call
      rw [(hb j).1, (hb j).2]
    rw [hsame] at hidx
    exact List.getElem?_mem hidx

theorem flush_keeps_rejected_witness :
    sample_state_up.mqtt_client = true ∧ sample_state_up.mqtt_connected = true ∧
      sample_state_up.device_cache.length = MAX_DEVICES ∧
      occupied_before sample_state_up.device_cache 1 = 1 ∧ reject_second 1 < 0 ∧
      ((send_all_cached_to_mqtt reject_second sample_state_up).1.device_cache.getD 1
        default).valid = true ∧
      ((send_all_cached_to_mqtt reject_second sample_state_up).1.device_cache.getD 0
        default).valid = false :=
  ⟨rfl, rfl, by decide, by decide, by decide,
    ((flush_keeps_rejected reject_second reject_second sample_state_up rfl rfl (by decide)).1 1
      (by decide)).mpr ⟨by decide, by decide⟩,
    by
      cases hb : ((send_all_cached_to_mqtt reject_second sample_state_up).1.device_cache.getD 0
        default).valid
      · rfl
      · exact absurd ((flush_keeps_rejected reject_second reject_second sample_state_up rfl rfl
          (by decide)).1 0 (by decide) |>.mp hb).2 (by decide)⟩

/-! ### The cache invariant -/

theorem exists_least (P : Nat → Prop) (p : Nat) (h : P p) :
    ∃ p0, p0 ≤ p ∧ P p0 ∧ ∀ q, q < p0 → ¬ P q := by
  induction p using Nat.strong_induction_on with
  | _ p ih =>
    by_cases hex : ∃ q, q < p ∧ P q
    · obtain ⟨q, hq, hPq⟩ := hex
      obtain ⟨p0, hle, hP, hlow⟩ := ih q hq hPq
      exact ⟨p0, by omega, hP, hlow⟩
    · exact ⟨p, le_refl _, h, fun q hq hPq => hex ⟨q, hq, hPq⟩⟩

/-- The result of `cache_update` is the cache with one slot replaced: the lowest matching slot
with a new payload, or, when no slot matches, some slot with the new entry. -/
theorem cache_update_shape (cache : List device_cache_t) (mac json : String) :
    (∃ p, p < MAX_DEVICES ∧ slot_matches cache mac p ∧
        cache_update cache mac json =
          cache.set p { cache.getD p default with json := strn 511 json }) ∨
      ((∀ q, q < MAX_DEVICES → ¬ slot_matches cache mac q) ∧
        ∃ p, p < MAX_DEVICES ∧
          cache_update cache mac json = cache.set p ⟨strn 17 mac, strn 511 json, true⟩) := by
  obtain ⟨h1, h2, h3⟩ := cache_update_eq cache mac json
  by_cases hm : ∃ p, p < MAX_DEVICES ∧ slot_matches cache mac p
  · obtain ⟨p, hp, hmp⟩ := hm
    obtain ⟨p0, hle, hP, hlow⟩ := exists_least (fun q => slot_matches cache mac q) p hmp
    exact Or.inl ⟨p0, by omega, hP, h1 p0 (by omega) hP hlow⟩
  · have hno : ∀ q, q < MAX_DEVICES → ¬ slot_matches cache mac q :=
      fun q hq hmq => hm ⟨q, hq, hmq⟩
    refine Or.inr ⟨hno, ?_⟩
    by_cases hf : ∃ p, p < MAX_DEVICES ∧ slot_free cache p
    · obtain ⟨p, hp, hfp⟩ := hf
      obtain ⟨p0, hle, hP, hlow⟩ := exists_least (fun q => slot_free cache q) p hfp
      exact ⟨p0, by omega, h2 hno p0 (by omega) hP hlow⟩
    · exact ⟨0, by decide, h3 hno (fun q hq hfq => hf ⟨q, hq, hfq⟩)⟩

theorem no_dup_set_json (cache : List device_cache_t) (p : Nat) (json : String)
    (h : no_dup_mac cache) :
    no_dup_mac (cache.set p { cache.getD p default with json := json }) := by
  have hget : ∀ j, ((cache.set p { cache.getD p default with json := json }).getD j default).valid
        = (cache.getD j default).valid ∧
      ((cache.set p { cache.getD p default with json := json }).getD j default).mac
        = (cache.getD j default).mac := by
    intro j
    by_cases hjp : j = p
    · subst hjp
      by_cases hjl : j < cache.length
      · rw [getD_set_self cache j _ hjl]
        exact ⟨rfl, rfl⟩
      · rw [List.getD_eq_default _ _ (by simp; omega), List.getD_eq_default _ _ (by omega)]
        exact ⟨rfl, rfl⟩
    · rw [getD_set_other cache p j _ hjp]
      exact ⟨rfl, rfl⟩
  intro i j hi hj hvi hvj hmac
  rw [List.length_set] at hi hj
  rw [(hget i).1] at hvi
  rw [(hget j).1] at hvj
  rw [(hget i).2, (hget j).2] at hmac
  exact h i j hi hj hvi hvj hmac

theorem no_dup_set_fresh (cache : List device_cache_t) (p : Nat) (mac json : String)
    (h : no_dup_mac cache) (hno : ∀ q, q < cache.length → ¬ slot_matches cache mac q) :
    no_dup_mac (cache.set p ⟨mac, json, true⟩) := by
  intro i j hi hj hvi hvj hmac
  rw [List.length_set] at hi hj
  by_cases hip : i = p
  · by_cases hjp : j = p
    · omega
    · exfalso
      rw [hip, getD_set_self cache p _ (by omega)] at hmac
      rw [getD_set_other cache p j _ hjp] at hvj hmac
      exact hno j hj ⟨hvj, hmac.symm⟩
  · by_cases hjp : j = p
    · exfalso
      rw [hjp, getD_set_self cache p _ (by omega)] at hmac
      rw [getD_set_other cache p i _ hip] at hvi hmac
      exact hno i hi ⟨hvi, hmac⟩
    · rw [getD_set_other cache p i _ hip] at hvi hmac
      rw [getD_set_other cache p j _ hjp] at hvj hmac
      exact h i j hi hj hvi hvj hmac

theorem cache_update_inv (cache : List device_cache_t) (mac json : String)
    (hmac : mac.length ≤ 17) (h : cache_inv cache) : cache_inv (cache_update cache mac json) := by
  refine ⟨by rw [cache_update_length, h.1], ?_⟩
  rcases cache_update_shape cache mac json with ⟨p, _, _, heq⟩ | ⟨hno, p, _, heq⟩
  · rw [heq]
    exact no_dup_set_json cache p _ h.2
  · rw [heq, strn_of_le 17 mac hmac]
    exact no_dup_set_fresh cache p mac _ h.2 (fun q hq => hno q (by rw [← h.1]; exact hq))

theorem flush_loop_inv (msg_id : Nat → Int) (cache : List device_cache_t) (h : cache_inv cache) :
    cache_inv (flush_loop msg_id 0 MAX_DEVICES 0 cache).1 := by
  obtain ⟨ha, hb, _, hd, _⟩ := flush_loop_spec msg_id MAX_DEVICES 0 0 cache
  refine ⟨by rw [ha, h.1], ?_⟩
  intro i j hi hj hvi hvj hmac
  rw [ha] at hi hj
  rw [(hb i).1, (hb j).1] at hmac
  have hi2 : i < 0 + MAX_DEVICES := by rw [← h.1]; omega
  have hj2 : j < 0 + MAX_DEVICES := by rw [← h.1]; omega
  exact h.2 i j hi hj ((hd i (Nat.zero_le _) hi2).mp hvi).1 ((hd j (Nat.zero_le _) hj2).mp hvj).1
    hmac

theorem format_mac_address_length_le (mac_address : List (Fin 256)) :
    (format_mac_address mac_address).length ≤ 17 := strn_length_le 17 _

theorem json_buffer_length_le (mac_address : List (Fin 256)) (device_name : String)
    (adv_data : List (Fin 256)) (adv_data_len : Nat) :
    (json_buffer mac_address device_name adv_data adv_data_len).length ≤ 511 :=
  strn_length_le 511 _

theorem send_advertisement_cache (st : State) (mac_address : List (Fin 256))
    (device_name : String) (adv_data : List (Fin 256)) (adv_data_len : Nat) :
    (send_advertisement_to_mqtt st mac_address device_name adv_data adv_data_len).1.device_cache
        = st.device_cache ∨
      (send_advertisement_to_mqtt st mac_address device_name adv_data adv_data_len).1.device_cache
        = cache_update st.device_cache (format_mac_address mac_address)
            (json_buffer mac_address device_name adv_data adv_data_len) := by
  unfold send_advertisement_to_mqtt
  simp only []
  split
  · exact Or.inl rfl
  · split
    · split
      · exact Or.inr rfl
      · exact Or.inl rfl
    · exact Or.inl rfl

theorem init_cache_valid (i : Nat) :
    (init_state.device_cache.getD i default).valid = false := by
  unfold init_state
  simp only [List.getD_eq_getElem?_getD, List.getElem?_replicate]
  split <;> rfl

theorem init_cache_inv : cache_inv init_state.device_cache := by
  refine ⟨by simp [init_state], ?_⟩
  intro i j _ _ hvi
  rw [init_cache_valid i] at hvi
  cases hvi

/-- Every state the program reaches satisfies the cache invariant. -/
theorem reachable_cache_inv (st : State) (h : Reachable st) : cache_inv st.device_cache := by
  induction h with
  | init => exact init_cache_inv
  | mqtt_init st _ ih => exact ih
  | mqtt_event st msg_id ev _ ih =>
    cases ev
    case MQTT_EVENT_CONNECTED =>
      unfold mqtt_event_handler send_all_cached_to_mqtt
      simp only [update_led_state_cache]
      split
      · exact ih
      · exact flush_loop_inv msg_id st.device_cache ih
    all_goals
      unfold mqtt_event_handler
      simp only [update_led_state_cache]
      exact ih
  | wifi st ev _ ih =>
    cases ev <;> (unfold wifi_event_handler; simp only [update_led_state_cache]; exact ih)
  | advertisement st st2 calls mac_address adv_data adv_data_len now _ _ _ _ hstep ih =>
    have hsend : cache_inv (send_advertisement_to_mqtt st mac_address
        ((extract_device_name adv_data adv_data_len).getD "") adv_data
        adv_data_len).1.device_cache := by
      rcases send_advertisement_cache st mac_address
        ((extract_device_name adv_data adv_data_len).getD "") adv_data adv_data_len with h | h
      · rw [h]; exact ih
      · rw [h]
        exact cache_update_inv _ _ _ (format_mac_address_length_le mac_address) ih
    unfold ble_gap_event_disc at hstep
    cases hname : extract_device_name adv_data adv_data_len with
    | none => rw [hname] at hstep; cases hstep
    | some device_name =>
      rw [hname] at hstep hsend
      simp only [Option.getD_some] at hsend
      simp only [] at hstep
      split at hstep
      · have h2 := congrArg Prod.fst (Option.some.inj hstep)
        simp only [] at h2
        rw [← h2]
        unfold led_toggle
        split <;> exact hsend
      · have h2 := congrArg Prod.fst (Option.some.inj hstep)
        simp only [] at h2
        rw [← h2]
        exact hsend

/-! ### send_advertisement_to_mqtt with the link down -/

theorem send_advertisement_down (st : State) (mac_address : List (Fin 256))
    (device_name : String) (adv_data : List (Fin 256)) (adv_data_len : Nat)
    (hdown : st.mqtt_connected = false)
    (hvalid : (parse_sensor_payload_app adv_data adv_data_len).valid = true) :
    send_advertisement_to_mqtt st mac_address device_name adv_data adv_data_len =
      if device_name = "BR" then
        ({ st with device_cache := (cache_update st.device_cache (format_mac_address mac_address)
            (json_buffer mac_address device_name adv_data adv_data_len)) }, [])
      else (st, []) := by
  unfold send_advertisement_to_mqtt
  simp only [hvalid, hdown, or_true, if_true, Bool.true_eq_false, if_false]

theorem cache_update_holds (cache : List device_cache_t) (mac json : String)
    (hlen : cache.length = MAX_DEVICES) (hmac : mac.length ≤ 17) (hjson : json.length ≤ 511) :
    ∃ i, i < MAX_DEVICES ∧ (cache_update cache mac json).getD i default = ⟨mac, json, true⟩ := by
  rcases cache_update_shape cache mac json with ⟨p, hp, hm, heq⟩ | ⟨_, p, hp, heq⟩
  · refine ⟨p, hp, ?_⟩
    rw [heq, getD_set_self cache p _ (by omega), strn_of_le 511 json hjson]
    obtain ⟨hv, hmc⟩ := hm
    cases hcp : cache.getD p default with
    | mk m j v =>
      rw [hcp] at hv hmc
      simp only at hv hmc
      rw [hv, hmc]
  · refine ⟨p, hp, ?_⟩
    rw [heq, getD_set_self cache p _ (by omega), strn_of_le 511 json hjson,
      strn_of_le 17 mac hmac]

theorem cache_update_empty (cache : List device_cache_t) (mac json : String)
    (hlen : cache.length = MAX_DEVICES) (hempty : occupied_count cache = 0) :
    occupied_count (cache_update cache mac json) = 1 := by
  have hnil : cache.filter (fun e => e.valid) = [] := List.length_eq_zero.mp hempty
  have hall : ∀ j, (cache.getD j default).valid = false := by
    intro j
    by_cases hj : j < cache.length
    · rw [List.getD_eq_getElem _ _ hj]
      have := (List.filter_eq_nil_iff.mp hnil) cache[j] (List.getElem_mem hj)
      simpa using this
    · rw [List.getD_eq_default _ _ (by omega)]
      rfl
  have hno : ∀ q, q < MAX_DEVICES → ¬ slot_matches cache mac q := by
    intro q _ hm
    have := hm.1
    rw [hall q] at this
    cases this
  have heq := (cache_update_eq cache mac json).2.1 hno 0 (by decide) (hall 0)
    (fun q hq => absurd hq (Nat.not_lt_zero q))
  rw [heq]
  cases cache with
  | nil => simp [MAX_DEVICES] at hlen
  | cons c0 rest =>
    rw [List.filter_cons] at hnil
    split at hnil
    · cases hnil
    · unfold occupied_count
      rw [List.set_cons_zero, List.filter_cons]
      simp only [if_true, List.length_cons, hnil, List.length_nil]

/-- C5: in a state the program reaches, with the link down (`mqtt_connected = false`) and an
advertisement that decodes to a valid reading: when the display name is exactly "BR", no publish
call is made, the cache becomes `cache_update` of the old cache, and afterwards exactly one
occupied entry carries the sender's formatted address, with the rendered document (the contents
of `json_buffer`) as payload, and there is exactly one occupied entry in total when there was
none before; for any other display name the globals, the cache among them, are unchanged and no
publish call is made. -/
theorem link_down_caches_only_BR (st : State) (mac_address adv_data : List (Fin 256))
    (adv_data_len : Nat) (device_name : String)
    (hreach : Reachable st) (hdown : st.mqtt_connected = false)
    (_hmac : mac_address.length = 6) (_hlen : adv_data.length = adv_data_len)
    (_h255 : adv_data_len ≤ 255)
    (hvalid : (parse_sensor_payload_app adv_data adv_data_len).valid = true) :
    (device_name = "BR" →
        (send_advertisement_to_mqtt st mac_address device_name adv_data adv_data_len).2 = [] ∧
        (send_advertisement_to_mqtt st mac_address device_name adv_data adv_data_len).1 =
          { st with device_cache := (cache_update st.device_cache
              (format_mac_address mac_address)
              (json_buffer mac_address "BR" adv_data adv_data_len)) } ∧
        (∃ i, i < MAX_DEVICES ∧
          (send_advertisement_to_mqtt st mac_address device_name adv_data
              adv_data_len).1.device_cache.getD i default =
            ⟨format_mac_address mac_address,
              json_buffer mac_address "BR" adv_data adv_data_len, true⟩ ∧
          ∀ j, j < MAX_DEVICES →
            ((send_advertisement_to_mqtt st mac_address device_name adv_data
              adv_data_len).1.device_cache.getD j default).valid = true →
            ((send_advertisement_to_mqtt st mac_address device_name adv_data
              adv_data_len).1.device_cache.getD j default).mac =
                format_mac_address mac_address →
            j = i) ∧
        (occupied_count st.device_cache = 0 →
          occupied_count (send_advertisement_to_mqtt st mac_address device_name adv_data
            adv_data_len).1.device_cache = 1)) ∧
      (device_name ≠ "BR" →
        send_advertisement_to_mqtt st mac_address device_name adv_data adv_data_len =
          (st, [])) := by
  have hinv := reachable_cache_inv st hreach
  rw [send_advertisement_down st mac_address device_name adv_data adv_data_len hdown hvalid]
  constructor
  · intro hname
    subst hname
    simp only [if_true]
    have hinv2 := cache_update_inv st.device_cache (format_mac_address mac_address)
      (json_buffer mac_address "BR" adv_data adv_data_len)
      (format_mac_address_length_le mac_address) hinv
    obtain ⟨i, hi, hget⟩ := cache_update_holds st.device_cache (format_mac_address mac_address)
      (json_buffer mac_address "BR" adv_data adv_data_len) hinv.1
      (format_mac_address_length_le mac_address) (json_buffer_length_le _ _ _ _)
    refine ⟨trivial, trivial, ⟨i, hi, hget, ?_⟩, ?_⟩
    · intro j hj hvj hmj
      apply hinv2.2 j i (by rw [hinv2.1]; exact hj) (by rw [hinv2.1]; exact hi) hvj
      · rw [hget]
      · rw [hmj, hget]
    · intro hempty
      exact cache_update_empty _ _ _ hinv.1 hempty
  · intro hname
    simp only [hname, if_false]

theorem link_down_caches_only_BR_witness :
    Reachable init_state ∧ init_state.mqtt_connected = false ∧
      (parse_sensor_payload_app sample_payload 11).valid = true ∧
      (send_advertisement_to_mqtt init_state sample_addr "BR" sample_payload 11).2 = [] ∧
      occupied_count
        (send_advertisement_to_mqtt init_state sample_addr "BR" sample_payload 11).1.device_cache
          = 1 :=
  ⟨Reachable.init, rfl, by decide,
    ((link_down_caches_only_BR init_state sample_addr sample_payload 11 "BR" Reachable.init rfl
      rfl rfl (by decide) (by decide)).1 rfl).1,
    ((link_down_caches_only_BR init_state sample_addr sample_payload 11 "BR" Reachable.init rfl
      rfl rfl (by decide) (by decide)).1 rfl).2.2.2 (by decide)⟩

/-! ### extract_device_name -/

/-- The loop of `extract_device_name` ends: with `fuel + i > data_len` the result is not
`none`. -/
theorem extract_loop_total (adv_data : List (Fin 256)) (data_len : Nat) :
    ∀ (fuel i : Nat), data_len + 1 ≤ fuel + i → 1 ≤ fuel →
      (extract_loop adv_data data_len fuel i).isSome = true := by
  intro fuel
  induction fuel with
  | zero => intro i _ h; omega
  | succ fuel ih =>
    intro i h _
    simp only [extract_loop]
    split
    · next hlt =>
      split
      · rfl
      · split
        · rfl
        · have hrec := ih (i + rd adv_data i + 1) (by omega) (by omega)
          cases hx : extract_loop adv_data data_len fuel (i + rd adv_data i + 1) with
          | none => rw [hx] at hrec; cases hrec
          | some v => rfl
    · rfl

theorem extract_device_name_total (adv_data : List (Fin 256)) (data_len : Nat) :
    ∃ name, extract_device_name adv_data data_len = some name := by
  have h := extract_loop_total adv_data data_len (data_len + 1) 0 (by omega) (by omega)
  obtain ⟨r, hr⟩ := Option.isSome_iff_exists.mp h
  exact ⟨r.1, by unfold extract_device_name extract_device_name_run; rw [hr]; rfl⟩

/-- C8 fails on the code: for the 3-byte advertisement `05 09 41` (`data_len = 3`), whose only
record announces 4 data bytes, the function reads the indices 3, 4 and 5, past the end of the
buffer whatever lies there, and returns a non-empty string; and for the 1-byte advertisement `05`
it reads index 1 (the type byte). -/
theorem extract_reads_past_end (tail : List (Fin 256)) :
    extract_device_name_reads ([0x05, 0x09, 0x41] ++ tail) 3 = some [0, 1, 2, 3, 4, 5] ∧
      (∃ name, extract_device_name ([0x05, 0x09, 0x41] ++ tail) 3 = some name ∧ name ≠ "") ∧
      extract_device_name_reads [0x05] 1 = some [0, 1] := by
  refine ⟨rfl, ⟨cstring (memcpy_bytes ([0x05, 0x09, 0x41] ++ tail) 2 4), rfl, ?_⟩, rfl⟩
  have hm : memcpy_bytes ([0x05, 0x09, 0x41] ++ tail) 2 4 =
      [0x41, tail.getD 0 0, tail.getD 1 0, tail.getD 2 0] := rfl
  have ht : List.takeWhile (fun b => b != 0)
      ((0x41 : Fin 256) :: [tail.getD 0 0, tail.getD 1 0, tail.getD 2 0]) =
      0x41 :: List.takeWhile (fun b => b != 0) [tail.getD 0 0, tail.getD 1 0, tail.getD 2 0] := by
    rw [List.takeWhile_cons]
    rfl
  intro h
  have h2 := congrArg String.length h
  rw [hm] at h2
  unfold cstring at h2
  rw [ht] at h2
  simp [String.length] at h2

theorem getD_append_offset (done xs : List (Fin 256)) (k : Nat) :
    (done ++ xs).getD (done.length + k) 0 = xs.getD k 0 := by
  simp [List.getD_eq_getElem?_getD, List.getElem?_append_right]

theorem rd_record_length (adv done rest : List (Fin 256)) (r : ad_record)
    (hadv : adv = done ++ (record_bytes r ++ rest)) (hr : r.data.length ≤ 254) :
    rd adv done.length = r.data.length + 1 := by
  have h := getD_append_offset done (record_bytes r ++ rest) 0
  rw [Nat.add_zero] at h
  unfold rd
  rw [hadv, h]
  show (r.data.length + 1) % 256 = r.data.length + 1
  exact Nat.mod_eq_of_lt (by omega)

theorem rd_record_type (adv done rest : List (Fin 256)) (r : ad_record)
    (hadv : adv = done ++ (record_bytes r ++ rest)) :
    rd adv (done.length + 1) = r.ad_type.val := by
  unfold rd
  rw [hadv, getD_append_offset done (record_bytes r ++ rest) 1]
  rfl

theorem memcpy_record_data (adv done rest : List (Fin 256)) (r : ad_record)
    (hadv : adv = done ++ (record_bytes r ++ rest)) :
    memcpy_bytes adv (done.length + 2) r.data.length = r.data := by
  unfold memcpy_bytes
  apply List.ext_getElem
  · simp
  · intro n h1 h2
    have hget : adv.getD (done.length + 2 + n) 0 = (r.data ++ rest).getD n 0 := by
      rw [hadv, show done.length + 2 + n = done.length + (n + 2) by omega,
        getD_append_offset done (record_bytes r ++ rest) (n + 2)]
      rfl
    simp only [List.getElem_map, List.getElem_range, hget]
    rw [List.getD_eq_getElem?_getD, List.getElem?_append_left h2, List.getElem?_eq_getElem h2]
    rfl

theorem record_bytes_length (r : ad_record) : (record_bytes r).length = r.data.length + 2 := by
  simp [record_bytes]

theorem extract_loop_skip (adv done rest : List (Fin 256)) (r : ad_record) (data_len fuel : Nat)
    (hadv : adv = done ++ (record_bytes r ++ rest)) (hr : r.data.length ≤ 254)
    (hn : ¬ is_name_record r) (hlt : done.length < data_len) :
    extract_loop adv data_len (fuel + 1) done.length =
      (extract_loop adv data_len fuel (done.length + (r.data.length + 2))).map
        (fun x => (x.1, [done.length, done.length + 1] ++ x.2)) := by
  have h0 := rd_record_length adv done rest r hadv hr
  have h1 := rd_record_type adv done rest r hadv
  have hd : (r.data.length + 1 - 1) % 256 = r.data.length := by
    rw [Nat.add_sub_cancel]
    exact Nat.mod_eq_of_lt (by omega)
  have hcond : ¬ ((r.ad_type.val = 0x08 ∨ r.ad_type.val = 0x09) ∧
      (r.data.length > 0 ∧ r.data.length < MAX_DEVICE_NAME_LEN)) := hn
  simp only [extract_loop, hlt, if_true, h0, h1, hd, Nat.succ_ne_zero, if_false, hcond]
  rw [show done.length + (r.data.length + 1) + 1 = done.length + (r.data.length + 2) by omega]

theorem extract_loop_hit (adv done rest : List (Fin 256)) (r : ad_record) (data_len fuel : Nat)
    (hadv : adv = done ++ (record_bytes r ++ rest)) (hn : is_name_record r)
    (hlt : done.length < data_len) :
    extract_loop adv data_len (fuel + 1) done.length =
      some (cstring r.data,
        [done.length, done.length + 1] ++
          (List.range r.data.length).map (fun k => done.length + 2 + k)) := by
  have hr : r.data.length ≤ 254 := by
    have := hn.2.2
    omega
  have h0 := rd_record_length adv done rest r hadv hr
  have h1 := rd_record_type adv done rest r hadv
  have hd : (r.data.length + 1 - 1) % 256 = r.data.length := by
    rw [Nat.add_sub_cancel]
    exact Nat.mod_eq_of_lt (by omega)
  have hcond : (r.ad_type.val = 0x08 ∨ r.ad_type.val = 0x09) ∧
      (r.data.length > 0 ∧ r.data.length < MAX_DEVICE_NAME_LEN) := hn
  simp only [extract_loop, hlt, if_true, h0, h1, hd, Nat.succ_ne_zero, if_false, hcond,
    and_self, memcpy_record_data adv done rest r hadv]

theorem records_bytes_length_ge (rs : List ad_record) :
    rs.length ≤ (records_bytes rs).length := by
  induction rs with
  | nil => simp [records_bytes]
  | cons r rs ih =>
    simp only [records_bytes, List.length_cons, List.length_append, record_bytes_length]
    omega

theorem extract_loop_found (rest : List (Fin 256)) (r : ad_record) (data_len : Nat)
    (hn : is_name_record r) :
    ∀ (pre : List ad_record) (adv done : List (Fin 256)) (fuel : Nat),
      adv = done ++ (records_bytes pre ++ (record_bytes r ++ rest)) →
      (∀ x ∈ pre, x.data.length ≤ 254 ∧ ¬ is_name_record x) →
      done.length + (records_bytes pre).length < data_len →
      pre.length + 1 ≤ fuel →
      ∃ reads, extract_loop adv data_len fuel done.length = some (cstring r.data, reads) ∧
        ∀ k ∈ reads, k < done.length + (records_bytes pre).length + (record_bytes r).length := by
  intro pre
  induction pre with
  | nil =>
    intro adv done fuel hadv _ hlt hfuel
    obtain ⟨f, rfl⟩ : ∃ f, fuel = f + 1 := ⟨fuel - 1, by omega⟩
    simp only [records_bytes, List.nil_append, List.length_nil, Nat.add_zero] at hadv hlt ⊢
    refine ⟨_, extract_loop_hit adv done rest r data_len f hadv hn hlt, ?_⟩
    intro k hk
    rw [record_bytes_length]
    simp only [List.mem_append, List.mem_cons, List.mem_singleton, List.mem_map, List.mem_range,
      List.not_mem_nil, or_false] at hk
    rcases hk with (h | h) | ⟨a, ha, h⟩ <;> omega
  | cons x pre ih =>
    intro adv done fuel hadv hpre hlt hfuel
    obtain ⟨f, rfl⟩ : ∃ f, fuel = f + 1 := ⟨fuel - 1, by simp at hfuel; omega⟩
    have hx := hpre x (List.mem_cons_self _ _)
    simp only [records_bytes, List.length_append, record_bytes_length] at hlt
    have hadv1 : adv = done ++ (record_bytes x ++
        (records_bytes pre ++ (record_bytes r ++ rest))) := by
      rw [hadv]
      simp only [records_bytes, List.append_assoc]
    have hadv2 : adv = (done ++ record_bytes x) ++
        (records_bytes pre ++ (record_bytes r ++ rest)) := by
      rw [hadv1, List.append_assoc]
    have hlen2 : (done ++ record_bytes x).length = done.length + (x.data.length + 2) := by
      rw [List.length_append, record_bytes_length]
    rw [extract_loop_skip adv done _ x data_len f hadv1 hx.1 hx.2 (by omega), ← hlen2]
    obtain ⟨reads, hrun, hreads⟩ := ih adv (done ++ record_bytes x) f hadv2
      (fun y hy => hpre y (List.mem_cons_of_mem _ hy)) (by rw [hlen2]; omega)
      (by simp at hfuel; omega)
    rw [hrun]
    refine ⟨[done.length, done.length + 1] ++ reads, rfl, ?_⟩
    intro k hk
    simp only [records_bytes, List.length_append, record_bytes_length]
    simp only [List.mem_append, List.mem_cons, List.mem_singleton, List.not_mem_nil,
      or_false] at hk
    rcases hk with (h | h) | h
    · omega
    · omega
    · have := hreads k h
      rw [hlen2, record_bytes_length] at this
      omega

theorem extract_loop_no_name (tail : List (Fin 256)) (htail : tail = [] ∨ ∃ t, tail = 0 :: t) :
    ∀ (records : List ad_record) (adv done : List (Fin 256)) (fuel : Nat),
      adv = done ++ (records_bytes records ++ tail) →
      (∀ x ∈ records, x.data.length ≤ 254 ∧ ¬ is_name_record x) →
      records.length + 1 ≤ fuel →
      ∃ reads, extract_loop adv adv.length fuel done.length = some ("", reads) ∧
        ∀ k ∈ reads, k < adv.length := by
  intro records
  induction records with
  | nil =>
    intro adv done fuel hadv _ hfuel
    obtain ⟨f, rfl⟩ : ∃ f, fuel = f + 1 := ⟨fuel - 1, by omega⟩
    simp only [records_bytes, List.nil_append] at hadv
    rcases htail with h | ⟨t, h⟩
    · subst h
      have hlen : ¬ done.length < adv.length := by rw [hadv]; simp
      refine ⟨[], by simp only [extract_loop, hlen, if_false], ?_⟩
      intro k hk
      cases hk
    · subst h
      have hlen : done.length < adv.length := by rw [hadv]; simp
      have h0 : rd adv done.length = 0 := by
        have h := getD_append_offset done (0 :: t) 0
        rw [Nat.add_zero] at h
        unfold rd
        rw [hadv, h]
        rfl
      refine ⟨[done.length], by simp only [extract_loop, hlen, if_true, h0], ?_⟩
      intro k hk
      simp only [List.mem_singleton] at hk
      omega
  | cons x records ih =>
    intro adv done fuel hadv hrec hfuel
    obtain ⟨f, rfl⟩ : ∃ f, fuel = f + 1 := ⟨fuel - 1, by simp at hfuel; omega⟩
    have hx := hrec x (List.mem_cons_self _ _)
    have hadv1 : adv = done ++ (record_bytes x ++ (records_bytes records ++ tail)) := by
      rw [hadv]
      simp only [records_bytes, List.append_assoc]
    have hadv2 : adv = (done ++ record_bytes x) ++ (records_bytes records ++ tail) := by
      rw [hadv1, List.append_assoc]
    have hlen2 : (done ++ record_bytes x).length = done.length + (x.data.length + 2) := by
      rw [List.length_append, record_bytes_length]
    have hlt : done.length < adv.length := by
      rw [hadv1]
      simp only [List.length_append, record_bytes_length]
      omega
    have hlt2 : done.length + 1 < adv.length := by
      rw [hadv1]
      simp only [List.length_append, record_bytes_length]
      omega
    rw [extract_loop_skip adv done _ x adv.length f hadv1 hx.1 hx.2 hlt, ← hlen2]
    obtain ⟨reads, hrun, hreads⟩ := ih adv (done ++ record_bytes x) f hadv2
      (fun y hy => hrec y (List.mem_cons_of_mem _ hy)) (by simp at hfuel; omega)
    rw [hrun]
    refine ⟨[done.length, done.length + 1] ++ reads, rfl, ?_⟩
    intro k hk
    simp only [List.mem_append, List.mem_cons, List.mem_singleton, List.not_mem_nil,
      or_false] at hk
    rcases hk with (h | h) | h
    · omega
    · omega
    · exact hreads k h

theorem cstring_no_nul (bytes : List (Fin 256)) (h : ∀ b ∈ bytes, b ≠ 0) :
    cstring bytes = bytes_string bytes := by
  unfold cstring bytes_string
  have : bytes.takeWhile (fun b => b != 0) = bytes := by
    rw [List.takeWhile_eq_self_iff]
    intro b hb
    simpa using h b hb
  rw [this]

/-- C9: for an advertisement made of well-formed records (length byte, type byte, data bytes)
lying inside the buffer of at most 255 bytes: (1) when the records `pre` are not name records
and the next record `r` is one (type `0x08` or `0x09`, data length in (0, 32)), the function
returns the C string of the data bytes of `r` (the data bytes themselves, one character per
byte, when none of them is NUL), and reads no index at or after the end of `r`, whatever
follows; (2) when none of the records before the end of the buffer, or before a zero length
byte, is a name record, it returns the empty string, reading only indices inside the buffer. -/
theorem extract_first_name :
    (∀ (pre : List ad_record) (r : ad_record) (rest : List (Fin 256)),
        (∀ x ∈ pre, x.data.length ≤ 254 ∧ ¬ is_name_record x) → is_name_record r →
        (records_bytes pre ++ (record_bytes r ++ rest)).length ≤ 255 →
        extract_device_name (records_bytes pre ++ (record_bytes r ++ rest))
            (records_bytes pre ++ (record_bytes r ++ rest)).length = some (cstring r.data) ∧
          ((∀ b ∈ r.data, b ≠ 0) → cstring r.data = bytes_string r.data) ∧
          ∃ reads, extract_device_name_reads (records_bytes pre ++ (record_bytes r ++ rest))
              (records_bytes pre ++ (record_bytes r ++ rest)).length = some reads ∧
            ∀ k ∈ reads, k < (records_bytes pre ++ record_bytes r).length) ∧
      (∀ (records : List ad_record) (tail : List (Fin 256)),
        (∀ x ∈ records, x.data.length ≤ 254 ∧ ¬ is_name_record x) →
        (tail = [] ∨ ∃ t, tail = 0 :: t) →
        (records_bytes records ++ tail).length ≤ 255 →
        extract_device_name (records_bytes records ++ tail)
            (records_bytes records ++ tail).length = some "" ∧
          ∃ reads, extract_device_name_reads (records_bytes records ++ tail)
              (records_bytes records ++ tail).length = some reads ∧
            ∀ k ∈ reads, k < (records_bytes records ++ tail).length) := by
  constructor
  · intro pre r rest hpre hr _
    have hlen : (records_bytes pre ++ (record_bytes r ++ rest)).length =
        (records_bytes pre).length + ((r.data.length + 2) + rest.length) := by
      simp only [List.length_append, record_bytes_length]
    have hge := records_bytes_length_ge pre
    obtain ⟨reads, hrun, hreads⟩ := extract_loop_found rest r
      (records_bytes pre ++ (record_bytes r ++ rest)).length hr pre
      (records_bytes pre ++ (record_bytes r ++ rest)) []
      ((records_bytes pre ++ (record_bytes r ++ rest)).length + 1) (by simp)
      hpre (by rw [hlen]; simp only [List.length_nil]; omega) (by rw [hlen]; omega)
    simp only [List.length_nil, Nat.zero_add] at hrun hreads
    refine ⟨?_, cstring_no_nul r.data, reads, ?_, ?_⟩
    · unfold extract_device_name extract_device_name_run
      rw [hrun]
      rfl
    · unfold extract_device_name_reads extract_device_name_run
      rw [hrun]
      rfl
    · intro k hk
      rw [List.length_append]
      exact hreads k hk
  · intro records tail hrec htail _
    have hge := records_bytes_length_ge records
    obtain ⟨reads, hrun, hreads⟩ := extract_loop_no_name tail htail records
      (records_bytes records ++ tail) []
      ((records_bytes records ++ tail).length + 1) (by simp) hrec
      (by rw [List.length_append]; omega)
    simp only [List.length_nil] at hrun
    refine ⟨?_, reads, ?_, hreads⟩
    · unfold extract_device_name extract_device_name_run
      rw [hrun]
      rfl
    · unfold extract_device_name_reads extract_device_name_run
      rw [hrun]
      rfl

theorem sample_flags_not_name : ¬ is_name_record sample_flags := by
  intro h
  rcases h.1 with h1 | h1 <;> exact absurd h1 (by decide)

theorem extract_first_name_witness :
    is_name_record sample_name ∧
      records_bytes [sample_flags] ++ (record_bytes sample_name ++ record_bytes sample_name2) =
        [0x02, 0x01, 0x06, 0x03, 0x09, 0x42, 0x52, 0x03, 0x08, 0x43, 0x44] ∧
      cstring sample_name.data = "BR" ∧
      extract_device_name
        (records_bytes [sample_flags] ++ (record_bytes sample_name ++ record_bytes sample_name2))
        (records_bytes [sample_flags] ++
          (record_bytes sample_name ++ record_bytes sample_name2)).length =
        some (cstring sample_name.data) :=
  ⟨⟨Or.inr rfl, by decide, by decide⟩, by decide, by decide,
    (extract_first_name.1 [sample_flags] sample_name (record_bytes sample_name2)
      (fun x hx => by
        rw [List.mem_singleton] at hx
        subst hx
        exact ⟨by decide, sample_flags_not_name⟩)
      ⟨Or.inr rfl, by decide, by decide⟩ (by decide)).1⟩

/-! ### Formatting of addresses, topics and hexadecimal data -/

theorem hex_value_hex_digit (n : Nat) (h : n < 16) : hex_value (hex_digit n) = n := by
  interval_cases n <;> rfl

theorem fmt_02X_hex_pair (b : Nat) (h : b < 256) : is_hex_pair (fmt_02X b) b := by
  have h1 : b / 16 < 16 := by omega
  have h0 : b % 16 < 16 := by omega
  refine ⟨hex_digit (b / 16), hex_digit (b % 16), rfl, ?_, ?_, ?_⟩
  · rw [hex_value_hex_digit _ h1]; exact h1
  · rw [hex_value_hex_digit _ h0]; exact h0
  · rw [hex_value_hex_digit _ h1, hex_value_hex_digit _ h0]
    omega

theorem format_mac_address_data (mac : List (Fin 256)) :
    (format_mac_address mac).data =
      [hex_digit (rd mac 5 / 16), hex_digit (rd mac 5 % 16), ':',
        hex_digit (rd mac 4 / 16), hex_digit (rd mac 4 % 16), ':',
        hex_digit (rd mac 3 / 16), hex_digit (rd mac 3 % 16), ':',
        hex_digit (rd mac 2 / 16), hex_digit (rd mac 2 % 16), ':',
        hex_digit (rd mac 1 / 16), hex_digit (rd mac 1 % 16), ':',
        hex_digit (rd mac 0 / 16), hex_digit (rd mac 0 % 16)] := rfl

theorem format_mac_address_length (mac : List (Fin 256)) :
    (format_mac_address mac).length = 17 := by
  show (format_mac_address mac).data.length = 17
  rw [format_mac_address_data]
  rfl

theorem live_topic_eq (mac_str : String) (h : mac_str.length ≤ 17) :
    live_topic mac_str = "ble/scanner/data/" ++ mac_str := by
  unfold live_topic
  apply strn_of_le
  rw [String.length_append]
  have h1 : ("ble/scanner/data/" : String).length = 17 := by decide
  omega

/-- C16: for a 6-byte address `b0..b5`, `format_mac_address` gives the 17-character string made
of the two-digit uppercase hexadecimal groups of `b5, b4, b3, b2, b1, b0`, in this order,
separated by colons (for instance `AA BB 0C DD EE FF` gives `FF:EE:DD:0C:BB:AA`); the live topic
is `ble/scanner/data/` followed by that string and the flush topic is the live topic followed
by `/debug`. -/
theorem format_mac_address_shape :
    (∀ (mac : List (Fin 256)), mac.length = 6 →
        format_mac_address mac =
          fmt_02X (rd mac 5) ++ ":" ++ fmt_02X (rd mac 4) ++ ":" ++ fmt_02X (rd mac 3) ++ ":" ++
            fmt_02X (rd mac 2) ++ ":" ++ fmt_02X (rd mac 1) ++ ":" ++ fmt_02X (rd mac 0) ∧
        (format_mac_address mac).length = 17 ∧
        (∀ i, i < 6 → is_hex_pair (fmt_02X (rd mac i)) (rd mac i)) ∧
        live_topic (format_mac_address mac) = "ble/scanner/data/" ++ format_mac_address mac ∧
        debug_topic (format_mac_address mac) =
          live_topic (format_mac_address mac) ++ "/debug") ∧
      format_mac_address sample_addr = "FF:EE:DD:0C:BB:AA" := by
  refine ⟨?_, by decide⟩
  intro mac _
  have hlen := format_mac_address_length mac
  refine ⟨rfl, hlen, fun i _ => fmt_02X_hex_pair _ (rd_lt mac i), ?_, ?_⟩
  · exact live_topic_eq _ (by omega)
  · rw [debug_topic_eq _ (by omega), live_topic_eq _ (by omega)]

theorem format_mac_address_shape_witness :
    sample_addr.length = 6 ∧ (format_mac_address sample_addr).length = 17 ∧
      live_topic (format_mac_address sample_addr) =
        "ble/scanner/data/" ++ format_mac_address sample_addr :=
  ⟨rfl, (format_mac_address_shape.1 sample_addr rfl).2.1,
    (format_mac_address_shape.1 sample_addr rfl).2.2.2.1⟩

theorem hex_of_bytes_length (bs : List (Fin 256)) :
    (hex_of_bytes bs).length = 2 * bs.length := by
  induction bs with
  | nil => rfl
  | cons b bs ih =>
    simp only [hex_of_bytes, String.length_append, ih, List.length_cons]
    have : (fmt_02X b.val).length = 2 := rfl
    omega

theorem hex_loop_eq (data : List (Fin 256)) (n : Nat) :
    ∀ i, i + n ≤ data.length → hex_loop data i n = hex_of_bytes ((data.drop i).take n) := by
  induction n with
  | zero => intro i _; rfl
  | succ n ih =>
    intro i hi
    have hlt : i < data.length := by omega
    have hrd : rd data i = (data[i]).val := by
      unfold rd
      rw [List.getD_eq_getElem _ _ hlt]
    rw [List.drop_eq_getElem_cons hlt, List.take_succ_cons]
    simp only [hex_loop, hex_of_bytes]
    rw [ih (i + 1) (by omega), hrd]

theorem bin_to_hex_string_eq (data : List (Fin 256)) (len : Nat) (hlen : data.length = len) :
    bin_to_hex_string data len = hex_of_bytes (data.take (min len 31)) := by
  unfold bin_to_hex_string MAX_ADV_DATA_LEN
  simp only []
  split
  · next h =>
    rw [hex_loop_eq data 31 0 (by omega), List.drop_zero, Nat.min_eq_right (by omega)]
  · next h =>
    rw [hex_loop_eq data len 0 (by omega), List.drop_zero, Nat.min_eq_left (by omega)]

theorem bin_to_hex_string_length (data : List (Fin 256)) (len : Nat) (hlen : data.length = len) :
    (bin_to_hex_string data len).length = 2 * min len 31 := by
  rw [bin_to_hex_string_eq data len hlen, hex_of_bytes_length, List.length_take, hlen]
  omega

/-- C17: for a byte sequence of length `len`, `bin_to_hex_string` gives the two-digit uppercase
hexadecimal renderings of the first `min len 31` bytes, in order, and nothing else: exactly
`2 * min len 31` characters, at most 62. -/
theorem bin_to_hex_string_spec (data : List (Fin 256)) (len : Nat) (hlen : data.length = len) :
    bin_to_hex_string data len = hex_of_bytes (data.take (min len 31)) ∧
      (bin_to_hex_string data len).length = 2 * min len 31 ∧
      (bin_to_hex_string data len).length ≤ 62 ∧
      (∀ b ∈ data.take (min len 31), is_hex_pair (fmt_02X b.val) b.val) := by
  have heq := bin_to_hex_string_eq data len hlen
  have hl := bin_to_hex_string_length data len hlen
  refine ⟨heq, hl, by rw [hl]; omega, fun b _ => fmt_02X_hex_pair _ b.isLt⟩

theorem bin_to_hex_string_spec_witness :
    sample_payload.length = 11 ∧
      bin_to_hex_string sample_payload 11 = "0308425200000032210098" ∧
      (bin_to_hex_string sample_payload 11).length = 2 * min 11 31 :=
  ⟨rfl, by decide, (bin_to_hex_string_spec sample_payload 11 rfl).2.1⟩

theorem hex_pair_inj (x y : Nat) (hx : x < 256) (hy : y < 256)
    (h1 : hex_digit (x / 16) = hex_digit (y / 16))
    (h0 : hex_digit (x % 16) = hex_digit (y % 16)) : x = y := by
  have e1 := congrArg hex_value h1
  have e0 := congrArg hex_value h0
  rw [hex_value_hex_digit _ (by omega), hex_value_hex_digit _ (by omega)] at e1 e0
  omega

theorem format_mac_address_rd (a b : List (Fin 256))
    (h : format_mac_address a = format_mac_address b) : ∀ i, i < 6 → rd a i = rd b i := by
  have hd := congrArg String.data h
  rw [format_mac_address_data, format_mac_address_data] at hd
  simp only [List.cons.injEq, and_true, true_and] at hd
  obtain ⟨h5a, h5b, h4a, h4b, h3a, h3b, h2a, h2b, h1a, h1b, h0a, h0b⟩ := hd
  intro i hi
  interval_cases i
  · exact hex_pair_inj _ _ (rd_lt a 0) (rd_lt b 0) h0a h0b
  · exact hex_pair_inj _ _ (rd_lt a 1) (rd_lt b 1) h1a h1b
  · exact hex_pair_inj _ _ (rd_lt a 2) (rd_lt b 2) h2a h2b
  · exact hex_pair_inj _ _ (rd_lt a 3) (rd_lt b 3) h3a h3b
  · exact hex_pair_inj _ _ (rd_lt a 4) (rd_lt b 4) h4a h4b
  · exact hex_pair_inj _ _ (rd_lt a 5) (rd_lt b 5) h5a h5b

theorem eq_of_rd_eq (a b : List (Fin 256)) (ha : a.length = 6) (hb : b.length = 6)
    (h : ∀ i, i < 6 → rd a i = rd b i) : a = b := by
  apply List.ext_getElem (by rw [ha, hb])
  intro n h1 h2
  have hn := h n (by omega)
  unfold rd at hn
  rw [List.getD_eq_getElem _ _ h1, List.getD_eq_getElem _ _ h2] at hn
  exact Fin.ext hn

theorem string_append_left_cancel (p s t : String) (h : p ++ s = p ++ t) : s = t := by
  have hd := congrArg String.data h
  rw [String.data_append, String.data_append] at hd
  exact String.ext (List.append_cancel_left hd)

theorem string_append_right_cancel (p s t : String) (h : s ++ p = t ++ p) : s = t := by
  have hd := congrArg String.data h
  rw [String.data_append, String.data_append] at hd
  exact String.ext (List.append_cancel_right hd)

/-- C20: `format_mac_address` is injective on 6-byte addresses: the formatted strings of two
addresses are equal exactly when the addresses are equal byte for byte; so are their live
topics, and so are their flush topics: two distinct devices never share a cache key or a
topic. -/
theorem format_mac_address_injective (a b : List (Fin 256))
    (ha : a.length = 6) (hb : b.length = 6) :
    (format_mac_address a = format_mac_address b ↔ a = b) ∧
      (live_topic (format_mac_address a) = live_topic (format_mac_address b) ↔ a = b) ∧
      (debug_topic (format_mac_address a) = debug_topic (format_mac_address b) ↔ a = b) := by
  have hinj : format_mac_address a = format_mac_address b → a = b :=
    fun h => eq_of_rd_eq a b ha hb (format_mac_address_rd a b h)
  have hla := format_mac_address_length_le a
  have hlb := format_mac_address_length_le b
  refine ⟨⟨hinj, fun h => by rw [h]⟩, ⟨?_, fun h => by rw [h]⟩, ⟨?_, fun h => by rw [h]⟩⟩
  · intro h
    rw [live_topic_eq _ hla, live_topic_eq _ hlb] at h
    exact hinj (string_append_left_cancel _ _ _ h)
  · intro h
    rw [debug_topic_eq _ hla, debug_topic_eq _ hlb] at h
    exact hinj (string_append_left_cancel _ _ _ (string_append_right_cancel _ _ _ h))

theorem format_mac_address_injective_witness :
    sample_addr.length = 6 ∧ sample_addr2.length = 6 ∧ sample_addr ≠ sample_addr2 ∧
      format_mac_address sample_addr ≠ format_mac_address sample_addr2 :=
  ⟨rfl, rfl, by decide,
    fun h => absurd ((format_mac_address_injective sample_addr sample_addr2 rfl rfl).1.mp h)
      (by decide)⟩

/-! ### send_advertisement_to_mqtt: invalid readings and the link up -/

/-- C14: when the decode result of the advertisement has `valid = false`,
`send_advertisement_to_mqtt` makes no publish call and leaves the globals, the cache among
them, unchanged, for every connectivity state, cache state and display name. -/
theorem invalid_reading_ignored (st : State) (mac_address adv_data : List (Fin 256))
    (adv_data_len : Nat) (device_name : String)
    (hinvalid : (parse_sensor_payload_app adv_data adv_data_len).valid = false) :
    (send_advertisement_to_mqtt st mac_address device_name adv_data adv_data_len).2 = [] ∧
      (send_advertisement_to_mqtt st mac_address device_name adv_data adv_data_len).1 = st ∧
      (send_advertisement_to_mqtt st mac_address device_name adv_data
        adv_data_len).1.device_cache = st.device_cache := by
  unfold send_advertisement_to_mqtt
  simp only [hinvalid, if_true, and_self]

theorem invalid_reading_ignored_witness :
    (parse_sensor_payload_app sample_no_marker 11).valid = false ∧
      (send_advertisement_to_mqtt sample_state_up sample_addr "BR" sample_no_marker 11).2 = [] ∧
      (send_advertisement_to_mqtt sample_state sample_addr "BR" sample_no_marker
        11).1.device_cache = sample_state.device_cache :=
  ⟨by decide, (invalid_reading_ignored sample_state_up sample_addr sample_no_marker 11 "BR"
      (by decide)).1,
    (invalid_reading_ignored sample_state sample_addr sample_no_marker 11 "BR"
      (by decide)).2.2⟩

/-! ### The size of the rendered document -/

theorem dec_digits_length_le_fuel (fuel : Nat) : ∀ n, (dec_digits fuel n).length ≤ fuel := by
  induction fuel with
  | zero => intro n; simp [dec_digits]
  | succ fuel ih =>
    intro n
    simp only [dec_digits]
    split
    · simp
    · have := ih (n / 10)
      simp only [List.length_append, List.length_singleton]
      omega

theorem dec_digits_length_le (fuel : Nat) :
    ∀ (n k : Nat), 1 ≤ k → n < 10 ^ k → (dec_digits fuel n).length ≤ k := by
  induction fuel with
  | zero => intro n k _ _; simp [dec_digits]
  | succ fuel ih =>
    intro n k hk hn
    simp only [dec_digits]
    split
    · simpa using hk
    · next h10 =>
      obtain ⟨j, rfl⟩ : ∃ j, k = j + 1 := ⟨k - 1, by omega⟩
      have hj : 1 ≤ j := by
        by_contra hc
        have : j = 0 := by omega
        subst this
        simp at hn
        omega
      have hdiv : n / 10 < 10 ^ j := by
        rw [Nat.div_lt_iff_lt_mul (by decide)]
        rw [pow_succ] at hn
        exact hn
      have := ih (n / 10) j hj hdiv
      simp only [List.length_append, List.length_singleton]
      omega

theorem round_half_even_le (y : ℚ) (N : Nat) (h0 : 0 ≤ y) (hN : y ≤ N) :
    round_half_even y ≤ N := by
  have hfl : (0 : Int) ≤ Rat.floor y := Rat.le_floor.mpr (by exact_mod_cast h0)
  have hf : (((Rat.floor y).toNat : Nat) : ℚ) ≤ y := by
    have h1 : (((Rat.floor y).toNat : Nat) : Int) = Rat.floor y := Int.toNat_of_nonneg hfl
    have h2 : ((Rat.floor y : Int) : ℚ) ≤ y := Rat.le_floor.mp (le_refl _)
    have h3 : (((Rat.floor y).toNat : Nat) : ℚ) = ((Rat.floor y : Int) : ℚ) := by
      rw [← h1]
      push_cast
      rfl
    rw [h3]
    exact h2
  unfold round_half_even
  simp only []
  generalize (Rat.floor y).toNat = f at hf
  have hfN : f ≤ N := by
    have : (f : ℚ) ≤ N := le_trans hf hN
    exact_mod_cast this
  split
  · exact hfN
  · next hr =>
    have hlt : (f : ℚ) < N := by
      have : (1 : ℚ) / 2 ≤ y - f := not_lt.mp hr
      linarith
    have hlt2 : f < N := by exact_mod_cast hlt
    split
    · omega
    · split <;> omega

/-- The output of `%.<prec>f` for a value between 0 and `M`, with `M` below `10 ^ k`, has at
most `k` digits before the point, the point and `prec` decimals. -/
theorem fmt_f_length_le (prec : Nat) (x : ℚ) (M k : Nat) (h0 : 0 ≤ x) (hM : x ≤ M)
    (hk : 1 ≤ k) (hMk : M < 10 ^ k) : (fmt_f prec x).length ≤ k + 1 + prec := by
  have hscaled : round_half_even (|x| * (10 : ℚ) ^ prec) ≤ M * 10 ^ prec := by
    apply round_half_even_le
    · exact mul_nonneg (abs_nonneg x) (by positivity)
    · rw [abs_of_nonneg h0]
      push_cast
      exact mul_le_mul_of_nonneg_right hM (by positivity)
  have hip : round_half_even (|x| * (10 : ℚ) ^ prec) / 10 ^ prec < 10 ^ k := by
    have hpos : 0 < 10 ^ prec := by positivity
    have : round_half_even (|x| * (10 : ℚ) ^ prec) / 10 ^ prec ≤ M :=
      Nat.div_le_of_le_mul (by rw [Nat.mul_comm]; exact hscaled)
    omega
  have hsign : ¬ x < 0 := not_lt.mpr h0
  unfold fmt_f
  simp only [hsign, if_false, String.length, List.nil_append, List.length_append,
    List.length_singleton, List.length_replicate]
  have h1 := dec_digits_length_le
    (round_half_even (|x| * (10 : ℚ) ^ prec) / 10 ^ prec + 1)
    (round_half_even (|x| * (10 : ℚ) ^ prec) / 10 ^ prec) k hk hip
  have h2 := dec_digits_length_le_fuel prec
    (round_half_even (|x| * (10 : ℚ) ^ prec) % 10 ^ prec)
  omega

theorem pr_raw_clamped_bounds (hi lo : Nat) :
    146 ≤ pr_raw_clamped hi lo ∧ pr_raw_clamped hi lo ≤ 65535 := by
  unfold pr_raw_clamped
  simp only []
  have hmod : ((hi <<< 8) ||| lo) % 65536 < 65536 := Nat.mod_lt _ (by decide)
  split <;> omega

/-- The fields of a valid reading are non-negative and bounded: voltage at most 26,
temperature at most 255, pressure at most 9999. -/
theorem parse_valid_bounds (payload : List (Fin 256)) (len : Nat)
    (h : (parse_sensor_payload_app payload len).valid = true) :
    (0 ≤ (parse_sensor_payload_app payload len).voltage ∧
        (parse_sensor_payload_app payload len).voltage ≤ (26 : Nat)) ∧
      (0 ≤ (parse_sensor_payload_app payload len).temperature_c ∧
        (parse_sensor_payload_app payload len).temperature_c ≤ (255 : Nat)) ∧
      (0 ≤ (parse_sensor_payload_app payload len).pressure_psi ∧
        (parse_sensor_payload_app payload len).pressure_psi ≤ (9999 : Nat)) := by
  obtain ⟨p, hf, hp, _⟩ := parse_valid_first payload len h
  rw [parse_at_first payload len p hf hp]
  simp only []
  have h7 : ((rd payload (p + 7) : Nat) : ℚ) ≤ 255 := by
    exact_mod_cast Nat.le_of_lt_succ (rd_lt payload (p + 7))
  have h8 : ((rd payload (p + 8) : Nat) : ℚ) ≤ 255 := by
    exact_mod_cast Nat.le_of_lt_succ (rd_lt payload (p + 8))
  have h70 : (0 : ℚ) ≤ ((rd payload (p + 7) : Nat) : ℚ) := Nat.cast_nonneg _
  have h80 : (0 : ℚ) ≤ ((rd payload (p + 8) : Nat) : ℚ) := Nat.cast_nonneg _
  obtain ⟨hc1, hc2⟩ := pr_raw_clamped_bounds (rd payload (p + 9)) (rd payload (p + 10))
  generalize pr_raw_clamped (rd payload (p + 9)) (rd payload (p + 10)) = c at hc1 hc2
  have hc1q : (146 : ℚ) ≤ (c : ℚ) := by exact_mod_cast hc1
  have hc2q : (c : ℚ) ≤ 65535 := by exact_mod_cast hc2
  refine ⟨⟨?_, ?_⟩, ⟨h80, by push_cast; exact h8⟩, ⟨?_, ?_⟩⟩
  · positivity
  · push_cast
    linarith
  · push_cast
    have : (0 : ℚ) ≤ (c : ℚ) - 145 := by linarith
    positivity
  · push_cast
    have heq : ((c : ℚ) - 145) / 145 * 14.5038 = ((c : ℚ) - 145) * (14.5038 / 145) := by ring
    rw [heq]
    norm_num
    linarith

theorem cstring_length_le (bytes : List (Fin 256)) : (cstring bytes).length ≤ bytes.length := by
  unfold cstring
  simp only [String.length, List.length_map]
  exact (List.takeWhile_sublist _).length_le

theorem extract_loop_name_length (adv_data : List (Fin 256)) (data_len : Nat) :
    ∀ (fuel i : Nat) (r : String × List Nat),
      extract_loop adv_data data_len fuel i = some r → r.1.length ≤ 31 := by
  intro fuel
  induction fuel with
  | zero => intro i r h; simp [extract_loop] at h
  | succ fuel ih =>
    intro i r h
    simp only [extract_loop] at h
    split at h
    · split at h
      · cases h
        show ("" : String).length ≤ 31
        decide
      · split at h
        · next hc =>
          cases h
          have hl := cstring_length_le
            (memcpy_bytes adv_data (i + 2) ((rd adv_data i - 1) % 256))
          have hm : (memcpy_bytes adv_data (i + 2) ((rd adv_data i - 1) % 256)).length =
              (rd adv_data i - 1) % 256 := by simp [memcpy_bytes]
          have := hc.2.2
          unfold MAX_DEVICE_NAME_LEN at this
          simp only []
          omega
        · cases hx : extract_loop adv_data data_len fuel (i + rd adv_data i + 1) with
          | none => rw [hx] at h; cases h
          | some v =>
            rw [hx] at h
            cases h
            exact ih _ v hx
    · cases h
      show ("" : String).length ≤ 31
      decide

theorem extract_device_name_length (adv_data : List (Fin 256)) (data_len : Nat) (name : String)
    (h : extract_device_name adv_data data_len = some name) : name.length ≤ 31 := by
  unfold extract_device_name extract_device_name_run at h
  cases hx : extract_loop adv_data data_len (data_len + 1) 0 with
  | none => rw [hx] at h; cases h
  | some v =>
    rw [hx] at h
    cases h
    exact extract_loop_name_length adv_data data_len _ _ v hx

theorem json_document_length (mac_str device_name adv_data_str : String)
    (sensor : sensor_data_t) :
    (json_document mac_str device_name adv_data_str sensor).length =
      75 + mac_str.length + device_name.length + adv_data_str.length +
        (fmt_f 1 sensor.voltage).length + (fmt_f 1 sensor.temperature_c).length +
        (fmt_f 2 sensor.pressure_psi).length := by
  unfold json_document
  simp only [String.length_append]
  have h1 : ("\x7b\"mac\":\"" : String).length = 8 := by decide
  have h2 : ("\",\"name\":\"" : String).length = 10 := by decide
  have h3 : ("\",\"data\":\"" : String).length = 10 := by decide
  have h4 : ("\",\"voltage\":" : String).length = 12 := by decide
  have h5 : (",\"temperature_c\":" : String).length = 17 := by decide
  have h6 : (",\"pressure_psi\":" : String).length = 16 := by decide
  have h7 : ("\x7d\n" : String).length = 2 := by decide
  rw [h1, h2, h3, h4, h5, h6, h7]
  omega

/-- The document of a valid reading with a name of at most 31 characters has at most 201
characters. -/
theorem json_document_length_le (mac_address adv_data : List (Fin 256)) (adv_data_len : Nat)
    (device_name : String) (hname : device_name.length ≤ 31)
    (hlen : adv_data.length = adv_data_len)
    (hvalid : (parse_sensor_payload_app adv_data adv_data_len).valid = true) :
    (json_document (format_mac_address mac_address) device_name
      (bin_to_hex_string adv_data adv_data_len)
      (parse_sensor_payload_app adv_data adv_data_len)).length ≤ 201 := by
  obtain ⟨⟨hv0, hv1⟩, ⟨ht0, ht1⟩, ⟨hp0, hp1⟩⟩ :=
    parse_valid_bounds adv_data adv_data_len hvalid
  have hv := fmt_f_length_le 1 _ 26 2 hv0 hv1 (by decide) (by decide)
  have ht := fmt_f_length_le 1 _ 255 3 ht0 ht1 (by decide) (by decide)
  have hp := fmt_f_length_le 2 _ 9999 4 hp0 hp1 (by decide) (by decide)
  have hm := format_mac_address_length mac_address
  have hh := bin_to_hex_string_length adv_data adv_data_len hlen
  rw [json_document_length]
  omega

theorem round_half_even_eq (y : ℚ) (n : Nat) (h1 : (n : ℚ) - 1 / 2 < y)
    (h2 : y < (n : ℚ) + 1 / 2) : round_half_even y = n := by
  have hle : ((Rat.floor y : Int) : ℚ) ≤ y := Rat.le_floor.mp (le_refl _)
  have hlt : y < ((Rat.floor y : Int) : ℚ) + 1 := by
    by_contra hc
    have h3 : ((Rat.floor y + 1 : Int) : ℚ) ≤ y := by
      push_cast
      exact not_lt.mp hc
    have := Rat.le_floor.mpr h3
    omega
  unfold round_half_even
  simp only []
  generalize Rat.floor y = F at hle hlt
  by_cases hyn : y < n
  · have hF : F < n := by
      have : (F : ℚ) < (n : ℚ) := lt_of_le_of_lt hle hyn
      exact_mod_cast this
    by_cases hn : n = 0
    · subst hn
      have hF0 : F.toNat = 0 := by omega
      rw [hF0]
      have : y - ((0 : Nat) : ℚ) < 1 / 2 := by push_cast at hyn ⊢; linarith
      simp only [this, if_true]
    · have hF2 : (n : Int) - 1 ≤ F := by
        have : ((n : Int) - 1 : Int) < F + 1 := by
          have : (((n : Int) - 1 : Int) : ℚ) < ((F + 1 : Int) : ℚ) := by
            push_cast
            linarith
          exact_mod_cast this
        omega
      have hFn : F.toNat = n - 1 := by omega
      rw [hFn]
      have hcast : ((n - 1 : Nat) : ℚ) = (n : ℚ) - 1 := by
        rw [Nat.cast_sub (by omega)]
        simp
      have hr1 : ¬ (y - ((n - 1 : Nat) : ℚ) < 1 / 2) := by
        rw [hcast]; intro h; linarith
      have hr2 : 1 / 2 < y - ((n - 1 : Nat) : ℚ) := by
        rw [hcast]; linarith
      simp only [hr1, if_false, hr2, if_true]
      omega
  · have hyn2 : (n : ℚ) ≤ y := not_lt.mp hyn
    have hF1 : (n : Int) ≤ F := by
      have : (n : Int) < F + 1 := by
        have : ((n : Int) : ℚ) < ((F + 1 : Int) : ℚ) := by
          push_cast
          linarith
        exact_mod_cast this
      omega
    have hF2 : F < (n : Int) + 1 := by
      have : (F : ℚ) < ((n + 1 : Int) : ℚ) := by
        push_cast
        linarith
      exact_mod_cast this
    have hFn : F.toNat = n := by omega
    rw [hFn]
    have : y - (n : ℚ) < 1 / 2 := by linarith
    simp only [this, if_true]

theorem parse_sample_eq :
    parse_sensor_payload_app sample_payload 11 = ⟨5, 33, 7 / 145 * 14.5038, true⟩ := by
  rw [parse_at_first sample_payload 11 0 sample_first_marker (by decide)]
  have h7 : rd sample_payload (0 + 7) = 50 := by decide
  have h8 : rd sample_payload (0 + 8) = 33 := by decide
  have h9 : pr_raw_clamped (rd sample_payload (0 + 9)) (rd sample_payload (0 + 10)) = 152 := by
    decide
  rw [h7, h8, h9]
  norm_num

theorem fmt_f_sample_voltage : fmt_f 1 5 = "5.0" := by
  have h : round_half_even (|(5 : ℚ)| * (10 : ℚ) ^ 1) = 50 := by
    apply round_half_even_eq <;> norm_num
  unfold fmt_f
  simp only [h]
  decide

theorem fmt_f_sample_temperature : fmt_f 1 33 = "33.0" := by
  have h : round_half_even (|(33 : ℚ)| * (10 : ℚ) ^ 1) = 330 := by
    apply round_half_even_eq <;> norm_num
  unfold fmt_f
  simp only [h]
  decide

theorem fmt_f_sample_pressure : fmt_f 2 (7 / 145 * 14.5038) = "0.70" := by
  have h : round_half_even (|(7 / 145 * 14.5038 : ℚ)| * (10 : ℚ) ^ 2) = 70 := by
    apply round_half_even_eq <;> norm_num [abs_of_nonneg]
  unfold fmt_f
  simp only [h]
  norm_num
  decide

theorem sample_json_buffer :
    json_buffer sample_addr "BR" sample_payload 11 = sample_document := by
  unfold json_buffer json_document
  rw [parse_sample_eq]
  simp only [fmt_f_sample_voltage, fmt_f_sample_temperature, fmt_f_sample_pressure]
  decide

theorem json_buffer_eq (mac_address adv_data : List (Fin 256)) (adv_data_len : Nat)
    (device_name : String) (hname : device_name.length ≤ 31)
    (hlen : adv_data.length = adv_data_len)
    (hvalid : (parse_sensor_payload_app adv_data adv_data_len).valid = true) :
    json_buffer mac_address device_name adv_data adv_data_len =
      json_document (format_mac_address mac_address) device_name
        (bin_to_hex_string adv_data adv_data_len)
        (parse_sensor_payload_app adv_data adv_data_len) := by
  unfold json_buffer
  apply strn_of_le
  have := json_document_length_le mac_address adv_data adv_data_len device_name hname hlen hvalid
  omega

/-- C19: the names returned by `extract_device_name` have at most 31 characters; and for a
6-byte address, a display name of at most 31 characters, an advertisement of length 0..255 and a
valid decoded reading, the rendered document has at most 511 characters (at most 201, in fact),
so `json_buffer` holds it whole, the copy made by `cache_update` into the 512-byte payload field
holds it whole, and the cache slot written by `cache_update` holds the address and exactly the
rendered document. -/
theorem document_fits :
    (∀ (adv_data : List (Fin 256)) (data_len : Nat) (name : String),
        extract_device_name adv_data data_len = some name → name.length ≤ 31) ∧
      (∀ (mac_address adv_data : List (Fin 256)) (adv_data_len : Nat) (device_name : String),
        mac_address.length = 6 → device_name.length ≤ 31 → adv_data.length = adv_data_len →
        adv_data_len ≤ 255 → (parse_sensor_payload_app adv_data adv_data_len).valid = true →
        (json_document (format_mac_address mac_address) device_name
            (bin_to_hex_string adv_data adv_data_len)
            (parse_sensor_payload_app adv_data adv_data_len)).length ≤ 511 ∧
          json_buffer mac_address device_name adv_data adv_data_len =
            json_document (format_mac_address mac_address) device_name
              (bin_to_hex_string adv_data adv_data_len)
              (parse_sensor_payload_app adv_data adv_data_len) ∧
          strn 511 (json_buffer mac_address device_name adv_data adv_data_len) =
            json_document (format_mac_address mac_address) device_name
              (bin_to_hex_string adv_data adv_data_len)
              (parse_sensor_payload_app adv_data adv_data_len) ∧
          ∀ cache : List device_cache_t, cache.length = MAX_DEVICES →
            ∃ i, i < MAX_DEVICES ∧
              (cache_update cache (format_mac_address mac_address)
                (json_buffer mac_address device_name adv_data adv_data_len)).getD i default =
                ⟨format_mac_address mac_address,
                  json_document (format_mac_address mac_address) device_name
                    (bin_to_hex_string adv_data adv_data_len)
                    (parse_sensor_payload_app adv_data adv_data_len), true⟩) := by
  refine ⟨extract_device_name_length, ?_⟩
  intro mac_address adv_data adv_data_len device_name _ hname hlen _ hvalid
  have hle := json_document_length_le mac_address adv_data adv_data_len device_name hname hlen
    hvalid
  have heq := json_buffer_eq mac_address adv_data adv_data_len device_name hname hlen hvalid
  refine ⟨by omega, heq, ?_, ?_⟩
  · rw [heq]
    exact strn_of_le _ _ (by omega)
  · intro cache hcache
    have h := cache_update_holds cache (format_mac_address mac_address)
      (json_buffer mac_address device_name adv_data adv_data_len) hcache
      (format_mac_address_length_le mac_address) (json_buffer_length_le _ _ _ _)
    rw [heq] at h ⊢
    exact h

theorem document_fits_witness :
    sample_addr.length = 6 ∧ ("BR" : String).length ≤ 31 ∧
      (parse_sensor_payload_app sample_payload 11).valid = true ∧
      (json_document (format_mac_address sample_addr) "BR"
        (bin_to_hex_string sample_payload 11)
        (parse_sensor_payload_app sample_payload 11)).length ≤ 511 :=
  ⟨rfl, by decide, by decide,
    (document_fits.2 sample_addr sample_payload 11 "BR" rfl (by decide) rfl (by decide)
      (by decide)).1⟩

/-- C13: with the link up (client present and `mqtt_connected = true`), for an advertisement
that decodes to a valid reading and for every display name, `send_advertisement_to_mqtt` makes
exactly one publish call, to the topic `ble/scanner/data/<mac>`, with the contents of
`json_buffer` as payload (the whole rendered document, of the announced length, when the name
has at most 31 characters), and leaves the globals, the cache among them, unchanged; the value
returned by the publish call is not used. -/
theorem link_up_publishes (st : State) (mac_address adv_data : List (Fin 256))
    (adv_data_len : Nat) (device_name : String)
    (hclient : st.mqtt_client = true) (hup : st.mqtt_connected = true)
    (_hmac : mac_address.length = 6) (hlen : adv_data.length = adv_data_len)
    (_h255 : adv_data_len ≤ 255)
    (hvalid : (parse_sensor_payload_app adv_data adv_data_len).valid = true) :
    send_advertisement_to_mqtt st mac_address device_name adv_data adv_data_len =
        (st, [⟨"ble/scanner/data/" ++ format_mac_address mac_address,
          json_buffer mac_address device_name adv_data adv_data_len,
          (json_document (format_mac_address mac_address) device_name
            (bin_to_hex_string adv_data adv_data_len)
            (parse_sensor_payload_app adv_data adv_data_len)).length, 1, 0⟩]) ∧
      (send_advertisement_to_mqtt st mac_address device_name adv_data adv_data_len).2.length
        = 1 ∧
      (send_advertisement_to_mqtt st mac_address device_name adv_data
        adv_data_len).1.device_cache = st.device_cache ∧
      (device_name.length ≤ 31 →
        json_buffer mac_address device_name adv_data adv_data_len =
          json_document (format_mac_address mac_address) device_name
            (bin_to_hex_string adv_data adv_data_len)
            (parse_sensor_payload_app adv_data adv_data_len)) := by
  have hrun : send_advertisement_to_mqtt st mac_address device_name adv_data adv_data_len =
      (st, [⟨"ble/scanner/data/" ++ format_mac_address mac_address,
        json_buffer mac_address device_name adv_data adv_data_len,
        (json_document (format_mac_address mac_address) device_name
          (bin_to_hex_string adv_data adv_data_len)
          (parse_sensor_payload_app adv_data adv_data_len)).length, 1, 0⟩]) := by
    unfold send_advertisement_to_mqtt
    simp only [hvalid, hclient, hup, Bool.true_eq_false, or_self, if_false]
    rw [live_topic_eq _ (format_mac_address_length_le mac_address)]
  rw [hrun]
  exact ⟨rfl, rfl, rfl,
    fun hname => json_buffer_eq mac_address adv_data adv_data_len device_name hname hlen hvalid⟩

theorem link_up_publishes_witness :
    sample_state_up.mqtt_client = true ∧ sample_state_up.mqtt_connected = true ∧
      (parse_sensor_payload_app sample_payload 11).valid = true ∧
      (send_advertisement_to_mqtt sample_state_up sample_addr "" sample_payload 11).2.length
        = 1 ∧
      (send_advertisement_to_mqtt sample_state_up sample_addr "BR" sample_payload
        11).1.device_cache = sample_state_up.device_cache :=
  ⟨rfl, rfl, by decide,
    (link_up_publishes sample_state_up sample_addr sample_payload 11 "" rfl rfl rfl rfl
      (by decide) (by decide)).2.1,
    (link_up_publishes sample_state_up sample_addr sample_payload 11 "BR" rfl rfl rfl rfl
      (by decide) (by decide)).2.2.1⟩

/-! ### The shape of the rendered document -/

theorem json_document_eq_object (mac_str device_name adv_data_str : String)
    (sensor : sensor_data_t) :
    json_document mac_str device_name adv_data_str sensor =
      json_object mac_str device_name adv_data_str (fmt_f 1 sensor.voltage)
        (fmt_f 1 sensor.temperature_c) (fmt_f 2 sensor.pressure_psi) ++ "\n" := by
  unfold json_document json_object
  have h : ("\x7d\n" : String) = "\x7d" ++ "\n" := by decide
  rw [h]
  simp only [String.append_assoc]

theorem json_object_head (mac name hex v t p : String) :
    (json_object mac name hex v t p).data.head? = some '\x7b' := by
  unfold json_object
  simp only [String.data_append, List.append_assoc]
  rfl

theorem json_object_last (mac name hex v t p : String) :
    (json_object mac name hex v t p).data.getLast? = some '\x7d' := by
  unfold json_object
  rw [String.data_append]
  have h : ("\x7d" : String).data = [] ++ ['\x7d'] := rfl
  rw [h, ← List.append_assoc, List.getLast?_concat]

theorem send_advertisement_calls (st : State) (mac_address : List (Fin 256))
    (device_name : String) (adv_data : List (Fin 256)) (adv_data_len : Nat) :
    ∀ c ∈ (send_advertisement_to_mqtt st mac_address device_name adv_data adv_data_len).2,
      c.data = json_buffer mac_address device_name adv_data adv_data_len := by
  unfold send_advertisement_to_mqtt
  simp only []
  split
  · intro c hc; cases hc
  · split
    · split <;> (intro c hc; cases hc)
    · intro c hc
      rw [List.mem_singleton] at hc
      rw [hc]

theorem json_object_no_newline (mac name hex v t p : String)
    (hmac : '\n' ∉ mac.data) (hname : '\n' ∉ name.data) (hhex : '\n' ∉ hex.data)
    (hv : '\n' ∉ v.data) (ht : '\n' ∉ t.data) (hp : '\n' ∉ p.data) :
    '\n' ∉ (json_object mac name hex v t p).data := by
  unfold json_object
  simp only [String.data_append, List.mem_append, not_or]
  exact ⟨⟨⟨⟨⟨⟨⟨⟨⟨⟨⟨⟨by decide, hmac⟩, by decide⟩, hname⟩, by decide⟩, hhex⟩, by decide⟩, hv⟩,
    by decide⟩, ht⟩, by decide⟩, hp⟩, by decide⟩

theorem hex_digit_plain (n : Nat) : json_plain_char (hex_digit n) := by
  unfold json_plain_char
  by_cases h : n < 16
  · interval_cases n <;> decide
  · unfold hex_digit
    rw [List.getD_eq_default _ _ (by simp; omega)]
    decide

theorem hex_digit_is_digit (n : Nat) (h : n < 10) : is_digit (hex_digit n) := by
  unfold is_digit
  interval_cases n <;> decide

theorem hex_digit_ne_zero (n : Nat) (h1 : 1 ≤ n) (h : n < 10) : hex_digit n ≠ '0' := by
  interval_cases n <;> decide

theorem fmt_02X_plain (b : Nat) : json_plain_string (fmt_02X b) := by
  intro c hc
  unfold fmt_02X at hc
  simp only [List.mem_cons, List.mem_singleton, List.not_mem_nil, or_false] at hc
  rcases hc with h | h <;> (rw [h]; exact hex_digit_plain _)

theorem format_mac_address_plain (mac : List (Fin 256)) :
    json_plain_string (format_mac_address mac) := by
  intro c hc
  rw [format_mac_address_data] at hc
  have hcolon : json_plain_char ':' := by unfold json_plain_char; decide
  simp only [List.mem_cons, List.mem_singleton, List.not_mem_nil, or_false] at hc
  rcases hc with h | h | h | h | h | h | h | h | h | h | h | h | h | h | h | h | h <;>
    rw [h] <;> first | exact hex_digit_plain _ | exact hcolon

theorem hex_loop_plain (data : List (Fin 256)) (n : Nat) :
    ∀ i, json_plain_string (hex_loop data i n) := by
  induction n with
  | zero => intro i c hc; cases hc
  | succ n ih =>
    intro i c hc
    simp only [hex_loop, String.data_append, List.mem_append] at hc
    rcases hc with h | h
    · exact fmt_02X_plain _ c h
    · exact ih (i + 1) c h

theorem bin_to_hex_string_plain (data : List (Fin 256)) (len : Nat) :
    json_plain_string (bin_to_hex_string data len) := by
  unfold bin_to_hex_string
  exact hex_loop_plain data _ 0

theorem dec_digits_is_digit (fuel : Nat) : ∀ n, ∀ c ∈ dec_digits fuel n, is_digit c := by
  induction fuel with
  | zero => intro n c hc; cases hc
  | succ fuel ih =>
    intro n c hc
    simp only [dec_digits] at hc
    split at hc
    · next h =>
      rw [List.mem_singleton] at hc
      rw [hc]
      exact hex_digit_is_digit n h
    · rw [List.mem_append, List.mem_singleton] at hc
      rcases hc with h | h
      · exact ih _ c h
      · rw [h]
        exact hex_digit_is_digit _ (Nat.mod_lt _ (by decide))

/-- With enough fuel the digits of a positive number start with a digit other than 0. -/
theorem dec_digits_head (fuel : Nat) :
    ∀ n, n < fuel → 1 ≤ n → ∃ c rest, dec_digits fuel n = c :: rest ∧ c ≠ '0' := by
  induction fuel with
  | zero => intro n h _; omega
  | succ fuel ih =>
    intro n hn h1
    simp only [dec_digits]
    split
    · next h => exact ⟨hex_digit n, [], rfl, hex_digit_ne_zero n h1 h⟩
    · next h =>
      obtain ⟨c, rest, heq, hc⟩ := ih (n / 10) (by omega) (by omega)
      exact ⟨c, rest ++ [hex_digit (n % 10)], by rw [heq]; rfl, hc⟩

/-- The output of `%.<prec>f`, with `prec` at least 1, is a JSON number. -/
theorem fmt_f_json_number (prec : Nat) (x : ℚ) (hprec : 1 ≤ prec) : json_number (fmt_f prec x) := by
  unfold fmt_f
  simp only []
  generalize round_half_even (|x| * (10 : ℚ) ^ prec) = scaled
  have hfl := dec_digits_length_le_fuel prec (scaled % 10 ^ prec)
  refine ⟨if x < 0 then ['-'] else [], dec_digits (scaled / 10 ^ prec + 1) (scaled / 10 ^ prec),
    List.replicate (prec - (dec_digits prec (scaled % 10 ^ prec)).length) '0' ++
      dec_digits prec (scaled % 10 ^ prec), ?_, ?_, ?_, ?_, ?_, ?_, ?_⟩
  · simp only [List.append_assoc]
  · split
    · exact Or.inr rfl
    · exact Or.inl rfl
  · by_cases h0 : scaled / 10 ^ prec = 0
    · rw [h0]
      simp [dec_digits]
    · obtain ⟨c, rest, heq, _⟩ := dec_digits_head (scaled / 10 ^ prec + 1) (scaled / 10 ^ prec)
        (Nat.lt_succ_self _) (Nat.pos_of_ne_zero h0)
      rw [heq]
      exact List.cons_ne_nil _ _
  · exact dec_digits_is_digit _ _
  · by_cases h0 : scaled / 10 ^ prec = 0
    · rw [h0]
      exact Or.inl rfl
    · obtain ⟨c, rest, heq, hc⟩ := dec_digits_head (scaled / 10 ^ prec + 1)
        (scaled / 10 ^ prec) (Nat.lt_succ_self _) (Nat.pos_of_ne_zero h0)
      rw [heq]
      refine Or.inr ?_
      simp only [List.head?_cons, ne_eq, Option.some.injEq]
      exact hc
  · intro h
    have hlen := congrArg List.length h
    simp only [List.length_append, List.length_replicate, List.length_nil] at hlen
    omega
  · intro c hc
    rw [List.mem_append] at hc
    rcases hc with h | h
    · rw [List.eq_of_mem_replicate h]
      unfold is_digit
      decide
    · exact dec_digits_is_digit _ _ c h

theorem json_plain_no_newline (s : String) (h : json_plain_string s) : '\n' ∉ s.data := by
  intro hmem
  have := (h '\n' hmem).1
  revert this
  decide

theorem json_number_no_newline (s : String) (h : json_number s) : '\n' ∉ s.data := by
  obtain ⟨sign, ip, fp, heq, hsign, _, hip, _, _, hfp⟩ := h
  rw [heq]
  simp only [List.mem_append, List.mem_singleton, not_or]
  refine ⟨⟨⟨?_, ?_⟩, by decide⟩, ?_⟩
  · rcases hsign with h | h <;> rw [h] <;> decide
  · intro hmem
    have := (hip _ hmem).1
    revert this
    decide
  · intro hmem
    have := (hfp _ hmem).1
    revert this
    decide

theorem split_at_quote (a : List Char) :
    ∀ (b x y : List Char), '\x22' ∉ a → '\x22' ∉ b → a ++ '\x22' :: x = b ++ '\x22' :: y →
      a = b ∧ x = y := by
  induction a with
  | nil =>
    intro b x y _ hb h
    cases b with
    | nil =>
      simp only [List.nil_append, List.cons.injEq, true_and] at h
      exact ⟨rfl, h⟩
    | cons d b =>
      simp only [List.nil_append, List.cons_append, List.cons.injEq] at h
      exact absurd (List.mem_cons.mpr (Or.inl h.1)) hb
  | cons c a ih =>
    intro b x y ha hb h
    cases b with
    | nil =>
      simp only [List.nil_append, List.cons_append, List.cons.injEq] at h
      exact absurd (List.mem_cons.mpr (Or.inl h.1.symm)) ha
    | cons d b =>
      simp only [List.cons_append, List.cons.injEq] at h
      obtain ⟨hab, hxy⟩ := ih b x y (fun hm => ha (List.mem_cons_of_mem _ hm))
        (fun hm => hb (List.mem_cons_of_mem _ hm)) h.2
      exact ⟨by rw [h.1, hab], hxy⟩

theorem json_plain_no_quote (s : String) (h : json_plain_string s) : '\x22' ∉ s.data :=
  fun hmem => (h _ hmem).2.2.1 rfl

/-- The characters of the object text, cut at the quotation marks that close the address and
the name. -/
theorem json_object_data (mac name hex v t p : String) :
    (json_object mac name hex v t p).data =
      ("\x7b\"mac\":\"" : String).data ++ (mac.data ++ '\x22' :: ((",\"name\":\"" : String).data ++
        (name.data ++ '\x22' :: ((",\"data\":\"" : String).data ++
          (hex ++ "\",\"voltage\":" ++ v ++ ",\"temperature_c\":" ++ t ++ ",\"pressure_psi\":" ++
            p ++ "\x7d").data)))) := by
  have h2 : ("\",\"name\":\"" : String).data = '\x22' :: (",\"name\":\"" : String).data := rfl
  have h3 : ("\",\"data\":\"" : String).data = '\x22' :: (",\"data\":\"" : String).data := rfl
  unfold json_object
  simp only [String.data_append, h2, h3, List.append_assoc, List.cons_append]

theorem quote_first_marker : first_marker quote_payload 5 :=
  ⟨by decide, fun q hq => by interval_cases q <;> decide⟩

theorem parse_quote_eq :
    parse_sensor_payload_app quote_payload 16 = ⟨5, 33, 7 / 145 * 14.5038, true⟩ := by
  rw [parse_at_first quote_payload 16 5 quote_first_marker (by decide)]
  have h7 : rd quote_payload (5 + 7) = 50 := by decide
  have h8 : rd quote_payload (5 + 8) = 33 := by decide
  have h9 : pr_raw_clamped (rd quote_payload (5 + 9)) (rd quote_payload (5 + 10)) = 152 := by
    decide
  rw [h7, h8, h9]
  norm_num

theorem quote_json_buffer :
    json_buffer sample_addr "A\"B" quote_payload 16 =
      "\x7b\"mac\":\"FF:EE:DD:0C:BB:AA\",\"name\":\"A\"B\"," ++
        "\"data\":\"04094122420308425200000032210098\"," ++
        "\"voltage\":5.0,\"temperature_c\":33.0,\"pressure_psi\":0.70\x7d\n" := by
  unfold json_buffer json_document
  rw [parse_quote_eq]
  simp only [fmt_f_sample_voltage, fmt_f_sample_temperature, fmt_f_sample_pressure]
  decide

/-- The document rendered for the name `A"B` is not a JSON object of the shape followed by a
line break: the quotation mark of the name closes the string after `A`. -/
theorem quote_name_not_json (obj : String)
    (h : json_buffer sample_addr "A\"B" quote_payload 16 = obj ++ "\n")
    (hobj : is_json_reading_object obj) : False := by
  obtain ⟨mac, name, hex, v, t, p, hshape, hmac, hname, _, _, _, _⟩ := hobj
  rw [json_buffer_eq sample_addr quote_payload 16 "A\"B" (by decide) rfl (by decide),
    json_document_eq_object, hshape] at h
  have hd := congrArg String.data (string_append_right_cancel _ _ _ h)
  rw [json_object_data, json_object_data] at hd
  have h1 := List.append_cancel_left hd
  have hq1 := (split_at_quote _ _ _ _
    (json_plain_no_quote _ (format_mac_address_plain sample_addr))
    (json_plain_no_quote _ hmac) h1).2
  have h2 := List.append_cancel_left hq1
  have h3 : ['A'] ++ '\x22' :: ('B' :: '\x22' :: ((",\"data\":\"" : String).data ++
      (bin_to_hex_string quote_payload 16 ++ "\",\"voltage\":" ++
        fmt_f 1 (parse_sensor_payload_app quote_payload 16).voltage ++ ",\"temperature_c\":" ++
        fmt_f 1 (parse_sensor_payload_app quote_payload 16).temperature_c ++
        ",\"pressure_psi\":" ++
        fmt_f 2 (parse_sensor_payload_app quote_payload 16).pressure_psi ++ "\x7d").data)) =
      name.data ++ '\x22' :: ((",\"data\":\"" : String).data ++
        (hex ++ "\",\"voltage\":" ++ v ++ ",\"temperature_c\":" ++ t ++ ",\"pressure_psi\":" ++
          p ++ "\x7d").data) := h2
  have hq2 := (split_at_quote _ _ _ _ (by decide) (json_plain_no_quote _ hname) h3).2
  have hcomma : (",\"data\":\"" : String).data = ',' :: ("\"data\":\"" : String).data := rfl
  rw [hcomma, List.cons_append] at hq2
  exact absurd (List.cons.inj hq2).1 (by decide)

/-- C18, as stated, fails, on two inputs. (1) For the valid sample reading (address
`AA BB 0C DD EE FF`, name "BR") the rendered document ends with a line break, not with the
closing brace: one character follows the object, and the document is not the JSON object.
(2) For the valid advertisement `04 09 41 22 42 03 08 42 52 00 00 00 32 21 00 98`, whose
display name is `A"B`, the document is `{"mac":"FF:EE:DD:0C:BB:AA","name":"A"B","data":...}`
then a line break: the name is copied as it stands, and the text before the line break is not
a JSON object of the shape. -/
theorem document_newline_counterexample :
    ((parse_sensor_payload_app sample_payload 11).valid = true ∧
        extract_device_name sample_payload 11 = some "BR" ∧
        json_buffer sample_addr "BR" sample_payload 11 = sample_document ∧
        (json_buffer sample_addr "BR" sample_payload 11).data.getLast? = some '\n' ∧
        (json_buffer sample_addr "BR" sample_payload 11).data.getLast? ≠ some '\x7d' ∧
        ¬ is_json_reading_object (json_buffer sample_addr "BR" sample_payload 11)) ∧
      ((parse_sensor_payload_app quote_payload 16).valid = true ∧
        extract_device_name quote_payload 16 = some "A\"B" ∧
        json_buffer sample_addr "A\"B" quote_payload 16 =
          "\x7b\"mac\":\"FF:EE:DD:0C:BB:AA\",\"name\":\"A\"B\"," ++
            "\"data\":\"04094122420308425200000032210098\"," ++
            "\"voltage\":5.0,\"temperature_c\":33.0,\"pressure_psi\":0.70\x7d\n" ∧
        ¬ ∃ obj : String, json_buffer sample_addr "A\"B" quote_payload 16 = obj ++ "\n" ∧
          is_json_reading_object obj) := by
  refine ⟨⟨by decide, by decide, sample_json_buffer, ?_, ?_, ?_⟩,
    ⟨by decide, by decide, quote_json_buffer, ?_⟩⟩
  · rw [sample_json_buffer]; decide
  · rw [sample_json_buffer]; decide
  · rintro ⟨mac, name, hex, v, t, p, hshape, _⟩
    have hlast := json_object_last mac name hex v t p
    rw [← hshape, sample_json_buffer] at hlast
    revert hlast
    decide
  · rintro ⟨obj, h, hobj⟩
    exact quote_name_not_json obj h hobj

/-- C18, amended: for a valid reading whose display name, the string returned by
`extract_device_name`, needs no JSON escaping (printable ASCII characters other than the
quotation mark and the backslash), the document rendered by `send_advertisement_to_mqtt` (the
contents of `json_buffer`, which is the payload of every publish call it makes and the payload
it hands to `cache_update`) is a single-line JSON object of exactly the shape
`{"mac":"<mac>","name":"<name>","data":"<hex>","voltage":<v>,"temperature_c":<t>,
"pressure_psi":<p>}`, the six keys in this fixed order with three JSON strings and three JSON
numbers as values, beginning with the opening brace and ending with the closing brace, with no
character before the object and exactly one character after it, a line break. -/
theorem document_shape :
    (∀ (mac_address adv_data : List (Fin 256)) (adv_data_len : Nat) (device_name : String),
        mac_address.length = 6 → adv_data.length = adv_data_len → adv_data_len ≤ 255 →
        (parse_sensor_payload_app adv_data adv_data_len).valid = true →
        extract_device_name adv_data adv_data_len = some device_name →
        json_plain_string device_name →
        (∃ obj : String,
          json_buffer mac_address device_name adv_data adv_data_len = obj ++ "\n" ∧
            obj = json_object (format_mac_address mac_address) device_name
              (bin_to_hex_string adv_data adv_data_len)
              (fmt_f 1 (parse_sensor_payload_app adv_data adv_data_len).voltage)
              (fmt_f 1 (parse_sensor_payload_app adv_data adv_data_len).temperature_c)
              (fmt_f 2 (parse_sensor_payload_app adv_data adv_data_len).pressure_psi) ∧
            is_json_reading_object obj ∧
            obj.data.head? = some '\x7b' ∧ obj.data.getLast? = some '\x7d' ∧
            '\n' ∉ obj.data) ∧
          (∀ st : State,
            (∀ c ∈ (send_advertisement_to_mqtt st mac_address device_name adv_data
                adv_data_len).2,
              c.data = json_buffer mac_address device_name adv_data adv_data_len) ∧
            ((send_advertisement_to_mqtt st mac_address device_name adv_data
                adv_data_len).1.device_cache = st.device_cache ∨
              (send_advertisement_to_mqtt st mac_address device_name adv_data
                adv_data_len).1.device_cache =
                cache_update st.device_cache (format_mac_address mac_address)
                  (json_buffer mac_address device_name adv_data adv_data_len)))) ∧
      (∀ (adv_data : List (Fin 256)) (adv_data_len : Nat),
        ∃ device_name, extract_device_name adv_data adv_data_len = some device_name) ∧
      (extract_device_name sample_payload 11 = some "BR" ∧ json_plain_string "BR" ∧
        json_buffer sample_addr "BR" sample_payload 11 =
          "\x7b\"mac\":\"FF:EE:DD:0C:BB:AA\",\"name\":\"BR\"," ++
            "\"data\":\"0308425200000032210098\"," ++
            "\"voltage\":5.0,\"temperature_c\":33.0,\"pressure_psi\":0.70\x7d" ++ "\n") := by
  refine ⟨?_, extract_device_name_total, by decide, ?_, ?_⟩
  · intro mac_address adv_data adv_data_len device_name _ hlen _ hvalid hname hplain
    have hname31 := extract_device_name_length adv_data adv_data_len device_name hname
    have hmacp := format_mac_address_plain mac_address
    have hhexp := bin_to_hex_string_plain adv_data adv_data_len
    have hv := fmt_f_json_number 1 (parse_sensor_payload_app adv_data adv_data_len).voltage
      (le_refl _)
    have ht := fmt_f_json_number 1
      (parse_sensor_payload_app adv_data adv_data_len).temperature_c (le_refl _)
    have hp := fmt_f_json_number 2
      (parse_sensor_payload_app adv_data adv_data_len).pressure_psi (by decide)
    refine ⟨⟨_, ?_, rfl, ⟨_, _, _, _, _, _, rfl, hmacp, hplain, hhexp, hv, ht, hp⟩,
      json_object_head _ _ _ _ _ _, json_object_last _ _ _ _ _ _, ?_⟩,
      fun st => ⟨send_advertisement_calls st mac_address device_name adv_data
        adv_data_len, send_advertisement_cache st mac_address device_name adv_data
        adv_data_len⟩⟩
    · rw [json_buffer_eq mac_address adv_data adv_data_len device_name hname31 hlen hvalid,
        json_document_eq_object]
    · exact json_object_no_newline _ _ _ _ _ _ (json_plain_no_newline _ hmacp)
        (json_plain_no_newline _ hplain) (json_plain_no_newline _ hhexp)
        (json_number_no_newline _ hv) (json_number_no_newline _ ht)
        (json_number_no_newline _ hp)
  · unfold json_plain_string json_plain_char
    decide
  · rw [sample_json_buffer]
    decide

theorem document_shape_witness :
    sample_addr.length = 6 ∧ (parse_sensor_payload_app sample_payload 11).valid = true ∧
      extract_device_name sample_payload 11 = some "BR" ∧ json_plain_string "BR" ∧
      ∃ obj : String, json_buffer sample_addr "BR" sample_payload 11 = obj ++ "\n" ∧
        is_json_reading_object obj :=
  ⟨rfl, by decide, by decide, document_shape.2.2.2.1,
    (document_shape.1 sample_addr sample_payload 11 "BR" rfl rfl (by decide) (by decide)
      (by decide) document_shape.2.2.2.1).1.elim
      (fun obj h => ⟨obj, h.1, h.2.2.1⟩)⟩

/-! ### Connectivity events -/

theorem sample_payload_name : extract_device_name sample_payload 11 = some "BR" := by decide

theorem sample_advertisement_step :
    ble_gap_event_disc (init_mqtt init_state) sample_addr sample_payload 11 0 =
      some (cached_state, []) := by
  unfold ble_gap_event_disc
  rw [sample_payload_name]
  simp only []
  rw [send_advertisement_down (init_mqtt init_state) sample_addr "BR" sample_payload 11 rfl
    (by decide)]
  simp only [if_true]
  rw [sample_json_buffer]
  decide

theorem cached_state_reachable : Reachable cached_state :=
  Reachable.advertisement (init_mqtt init_state) cached_state [] sample_addr sample_payload 11 0
    (Reachable.mqtt_init init_state Reachable.init) rfl rfl (by decide)
    sample_advertisement_step

theorem rejected_flush_step :
    (mqtt_event_handler (fun _ => -1) cached_state mqtt_event_id.MQTT_EVENT_CONNECTED).1 =
      up_state_occupied := by decide

theorem up_state_occupied_reachable : Reachable up_state_occupied := by
  rw [← rejected_flush_step]
  exact Reachable.mqtt_event cached_state (fun _ => -1) mqtt_event_id.MQTT_EVENT_CONNECTED
    cached_state_reachable

theorem wifi_event_handler_cache (st : State) (ev : wifi_event) :
    (wifi_event_handler st ev).device_cache = st.device_cache := by
  cases ev <;> (unfold wifi_event_handler; simp only [update_led_state_cache])

theorem mqtt_event_handler_other (msg_id : Nat → Int) (st : State) (ev : mqtt_event_id)
    (hev : ev ≠ mqtt_event_id.MQTT_EVENT_CONNECTED) :
    (mqtt_event_handler msg_id st ev).2 = [] ∧
      (mqtt_event_handler msg_id st ev).1.device_cache = st.device_cache := by
  cases ev
  case MQTT_EVENT_CONNECTED => exact absurd rfl hev
  all_goals
    unfold mqtt_event_handler
    refine ⟨rfl, ?_⟩
    simp only [update_led_state_cache]

/-- C15, as stated, fails: in the reachable state `up_state_occupied` the link is already up
and slot 0 is occupied; an `MQTT_EVENT_CONNECTED` handled there, with the publish call accepted,
makes one publish call to the debug topic and clears slot 0. -/
theorem repeated_connected_counterexample :
    Reachable up_state_occupied ∧ up_state_occupied.mqtt_client = true ∧
      up_state_occupied.mqtt_connected = true ∧
      (mqtt_event_handler (fun _ => 0) up_state_occupied
        mqtt_event_id.MQTT_EVENT_CONNECTED).1.mqtt_connected = true ∧
      (mqtt_event_handler (fun _ => 0) up_state_occupied
        mqtt_event_id.MQTT_EVENT_CONNECTED).2 =
        [⟨"ble/scanner/data/FF:EE:DD:0C:BB:AA/debug", sample_document, sample_document.length,
          1, 0⟩] ∧
      (mqtt_event_handler (fun _ => 0) up_state_occupied
        mqtt_event_id.MQTT_EVENT_CONNECTED).2 ≠ [] ∧
      occupied_count up_state_occupied.device_cache = 1 ∧
      occupied_count (mqtt_event_handler (fun _ => 0) up_state_occupied
        mqtt_event_id.MQTT_EVENT_CONNECTED).1.device_cache = 0 ∧
      (mqtt_event_handler (fun _ => 0) up_state_occupied
        mqtt_event_id.MQTT_EVENT_CONNECTED).1.device_cache ≠ up_state_occupied.device_cache :=
  ⟨up_state_occupied_reachable, rfl, rfl, by decide, rfl, by decide, by decide, by decide,
    by decide⟩

/-- C15, amended: the cache is flushed by every `MQTT_EVENT_CONNECTED` handled with a non-null
client, whatever the connectivity flag was before: the result of the handler does not depend
on the previous value of the flag, the flag is true afterwards, and the publish calls are the
debug-topic calls of the occupied entries, so a repeated `MQTT_EVENT_CONNECTED` publishes again
the entries that are still occupied; every other MQTT event, `MQTT_EVENT_DISCONNECTED` while
already down included, and every WiFi event makes no publish call and leaves the cache
unchanged. -/
theorem flush_on_every_connected :
    (∀ (msg_id : Nat → Int) (st : State) (b : Bool),
        mqtt_event_handler msg_id { st with mqtt_connected := b }
            mqtt_event_id.MQTT_EVENT_CONNECTED =
          mqtt_event_handler msg_id st mqtt_event_id.MQTT_EVENT_CONNECTED) ∧
      (∀ (msg_id : Nat → Int) (st : State), st.mqtt_client = true →
        st.device_cache.length = MAX_DEVICES →
        (mqtt_event_handler msg_id st mqtt_event_id.MQTT_EVENT_CONNECTED).1.mqtt_connected
            = true ∧
          (mqtt_event_handler msg_id st mqtt_event_id.MQTT_EVENT_CONNECTED).2 =
            (st.device_cache.filter (fun e => e.valid)).map debug_call ∧
          (mqtt_event_handler msg_id st mqtt_event_id.MQTT_EVENT_CONNECTED).1.device_cache =
            (flush_loop msg_id 0 MAX_DEVICES 0 st.device_cache).1) ∧
      (∀ (msg_id : Nat → Int) (st : State) (ev : mqtt_event_id),
        ev ≠ mqtt_event_id.MQTT_EVENT_CONNECTED →
        (mqtt_event_handler msg_id st ev).2 = [] ∧
          (mqtt_event_handler msg_id st ev).1.device_cache = st.device_cache) ∧
      (∀ (msg_id : Nat → Int) (st : State), st.mqtt_connected = false →
        (mqtt_event_handler msg_id st mqtt_event_id.MQTT_EVENT_DISCONNECTED).2 = [] ∧
          (mqtt_event_handler msg_id st mqtt_event_id.MQTT_EVENT_DISCONNECTED).1.device_cache =
            st.device_cache ∧
          (mqtt_event_handler msg_id st
            mqtt_event_id.MQTT_EVENT_DISCONNECTED).1.mqtt_connected = false) ∧
      (∀ (st : State) (ev : wifi_event),
        (wifi_event_handler st ev).device_cache = st.device_cache) := by
  refine ⟨fun msg_id st b => rfl, ?_, mqtt_event_handler_other, ?_, wifi_event_handler_cache⟩
  · intro msg_id st hclient hlen
    have hrun : mqtt_event_handler msg_id st mqtt_event_id.MQTT_EVENT_CONNECTED =
        (update_led_state { ({ st with mqtt_connected := true } : State) with
            device_cache := (flush_loop msg_id 0 MAX_DEVICES 0 st.device_cache).1 },
          (flush_loop msg_id 0 MAX_DEVICES 0 st.device_cache).2) := by
      unfold mqtt_event_handler
      simp only []
      rw [send_all_connected msg_id { st with mqtt_connected := true } hclient rfl]
    obtain ⟨_, _, _, _, he⟩ := flush_loop_spec msg_id MAX_DEVICES 0 0 st.device_cache
    rw [hrun]
    refine ⟨?_, ?_, ?_⟩
    · unfold update_led_state
      split <;> rfl
    · show (flush_loop msg_id 0 MAX_DEVICES 0 st.device_cache).2 = _
      rw [he, ← hlen, calls_range_all]
    · simp only [update_led_state_cache]
  · intro msg_id st _
    refine ⟨rfl, ?_, ?_⟩
    · unfold mqtt_event_handler
      simp only [update_led_state_cache]
    · unfold mqtt_event_handler update_led_state
      simp only []
      split <;> rfl

theorem flush_on_every_connected_witness :
    up_state_occupied.mqtt_client = true ∧
      up_state_occupied.device_cache.length = MAX_DEVICES ∧
      (mqtt_event_handler (fun _ => 0) up_state_occupied
        mqtt_event_id.MQTT_EVENT_CONNECTED).2 =
        (up_state_occupied.device_cache.filter (fun e => e.valid)).map debug_call :=
  ⟨rfl, by decide,
    (flush_on_every_connected.2.1 (fun _ => 0) up_state_occupied rfl (by decide)).2.1⟩

/-! ### Filling the cache -/

theorem getD_append_stored_left (done : List (String × String)) (rest : List device_cache_t)
    (q : Nat) (hq : q < done.length) :
    (done.map stored_entry ++ rest).getD q default = stored_entry (done.getD q ("", "")) := by
  rw [List.getD_eq_getElem?_getD, List.getElem?_append_left (by simpa using hq),
    List.getElem?_map, List.getElem?_eq_getElem hq, List.getD_eq_getElem _ _ hq]
  rfl

theorem getD_append_stored_right (done : List (String × String)) (rest : List device_cache_t)
    (q : Nat) (hq : done.length ≤ q) :
    (done.map stored_entry ++ rest).getD q default = rest.getD (q - done.length) default := by
  rw [List.getD_eq_getElem?_getD, List.getElem?_append_right (by simpa using hq),
    List.length_map, ← List.getD_eq_getElem?_getD]

theorem getD_all_free (rest : List device_cache_t) (h : ∀ e ∈ rest, e.valid = false) (k : Nat) :
    (rest.getD k default).valid = false := by
  by_cases hk : k < rest.length
  · rw [List.getD_eq_getElem _ _ hk]
    exact h _ (List.getElem_mem hk)
  · rw [List.getD_eq_default _ _ (by omega)]
    rfl

/-- One `cache_update` with a new address on a cache whose occupied slots are the first ones:
the entry goes into the first unoccupied slot. -/
theorem cache_update_fill (done : List (String × String)) (r0 : device_cache_t)
    (rest : List device_cache_t) (p : String × String)
    (hfree : ∀ e ∈ r0 :: rest, e.valid = false) (hnew : p.1 ∉ done.map Prod.fst)
    (hmac : p.1.length ≤ 17) (hlen : done.length + (rest.length + 1) = MAX_DEVICES) :
    cache_update (done.map stored_entry ++ r0 :: rest) p.1 p.2 =
      (done ++ [p]).map stored_entry ++ rest := by
  have hno : ∀ q, q < MAX_DEVICES →
      ¬ slot_matches (done.map stored_entry ++ r0 :: rest) p.1 q := by
    intro q _ hm
    by_cases hq : q < done.length
    · have hget := getD_append_stored_left done (r0 :: rest) q hq
      have hmac2 := hm.2
      rw [hget] at hmac2
      apply hnew
      rw [List.mem_map]
      exact ⟨done.getD q ("", ""), by rw [List.getD_eq_getElem _ _ hq]; exact List.getElem_mem hq,
        hmac2⟩
    · have hget := getD_append_stored_right done (r0 :: rest) q (by omega)
      have hv := hm.1
      rw [hget, getD_all_free (r0 :: rest) hfree] at hv
      cases hv
  have hslot : slot_free (done.map stored_entry ++ r0 :: rest) done.length := by
    unfold slot_free
    rw [getD_append_stored_right done (r0 :: rest) done.length (le_refl _)]
    exact getD_all_free (r0 :: rest) hfree _
  have hlow : ∀ q, q < done.length → ¬ slot_free (done.map stored_entry ++ r0 :: rest) q := by
    intro q hq hf
    unfold slot_free at hf
    rw [getD_append_stored_left done (r0 :: rest) q hq] at hf
    cases hf
  rw [(cache_update_eq _ p.1 p.2).2.1 hno done.length (by omega) hslot hlow,
    List.set_append_right _ _ (by simp), strn_of_le 17 p.1 hmac]
  simp only [List.length_map, Nat.sub_self, List.set_cons_zero, List.map_append, List.map_cons,
    List.map_nil, List.append_assoc, List.singleton_append]
  rfl

theorem apply_updates_fill (l : List (String × String)) :
    ∀ (done : List (String × String)) (rest : List device_cache_t),
      (∀ e ∈ rest, e.valid = false) → ((done ++ l).map Prod.fst).Nodup →
      (∀ p ∈ l, p.1.length ≤ 17) → done.length + rest.length = MAX_DEVICES →
      l.length ≤ rest.length →
      apply_updates (done.map stored_entry ++ rest) l =
        (done ++ l).map stored_entry ++ rest.drop l.length := by
  induction l with
  | nil =>
    intro done rest _ _ _ _ _
    simp [apply_updates]
  | cons p l ih =>
    intro done rest hfree hnd hmac hlen hl
    cases rest with
    | nil => simp at hl
    | cons r0 rest =>
      have hnew : p.1 ∉ done.map Prod.fst := by
        rw [List.map_append, List.map_cons] at hnd
        have h := (List.nodup_append.mp hnd).2.2
        intro hmem
        exact h hmem (List.mem_cons_self _ _)
      have hstep := cache_update_fill done r0 rest p hfree hnew
        (hmac p (List.mem_cons_self _ _)) (by simpa using hlen)
      simp only [apply_updates]
      rw [hstep]
      have hnd2 : (((done ++ [p]) ++ l).map Prod.fst).Nodup := by
        rw [List.append_assoc]
        exact hnd
      rw [ih (done ++ [p]) rest (fun e he => hfree e (List.mem_cons_of_mem _ he)) hnd2
        (fun q hq => hmac q (List.mem_cons_of_mem _ hq))
        (by simp only [List.length_append, List.length_cons, List.length_nil] at hlen ⊢
            omega)
        (by simpa using hl)]
      simp only [List.append_assoc, List.singleton_append, List.length_cons, List.drop_succ_cons]

theorem apply_updates_append (a b : List (String × String)) :
    ∀ cache, apply_updates cache (a ++ b) = apply_updates (apply_updates cache a) b := by
  induction a with
  | nil => intro cache; rfl
  | cons p a ih =>
    intro cache
    show apply_updates (cache_update cache p.1 p.2) (a ++ b) = _
    exact ih _

/-- The cache after 17 updates with pairwise distinct addresses, from 16 unoccupied slots: the
entries of the first 16 pairs in slot order, with slot 0 overwritten by the entry of the 17th
pair. -/
theorem apply_updates_seventeen (cache : List device_cache_t) (l : List (String × String))
    (hlen : cache.length = MAX_DEVICES) (hempty : ∀ e ∈ cache, e.valid = false)
    (hl : l.length = 17) (hnd : (l.map Prod.fst).Nodup) (hmac : ∀ p ∈ l, p.1.length ≤ 17) :
    apply_updates cache l =
      ((l.take 16).map stored_entry).set 0 (stored_entry (l.getD 16 ("", ""))) := by
  have hsplit : l = l.take 16 ++ [l.getD 16 ("", "")] := by
    have h16 : 16 < l.length := by omega
    have hd : l.drop 16 = [l.getD 16 ("", "")] := by
      rw [List.drop_eq_getElem_cons h16, List.getD_eq_getElem _ _ h16]
      rw [List.drop_eq_nil_of_le (by omega)]
    conv_lhs => rw [← List.take_append_drop 16 l, hd]
  have htake : (l.take 16).length = 16 := by rw [List.length_take]; omega
  have hnd16 : ((l.take 16).map Prod.fst).Nodup := by
    rw [hsplit, List.map_append] at hnd
    exact (List.nodup_append.mp hnd).1
  have hnew : (l.getD 16 ("", "")).1 ∉ (l.take 16).map Prod.fst := by
    rw [hsplit, List.map_append] at hnd
    intro hmem
    exact (List.nodup_append.mp hnd).2.2 hmem (by simp)
  have hfill := apply_updates_fill (l.take 16) [] cache hempty (by simpa using hnd16)
    (fun p hp => hmac p (List.mem_of_mem_take hp)) (by simpa using hlen)
    (by rw [htake, hlen]; decide)
  simp only [List.map_nil, List.nil_append] at hfill
  rw [List.drop_eq_nil_of_le (by rw [htake, hlen]; decide), List.append_nil] at hfill
  rw [hsplit, apply_updates_append, hfill]
  simp only [apply_updates]
  rw [← hsplit]
  have hget : ∀ q, q < 16 → ((l.take 16).map stored_entry).getD q default =
      stored_entry ((l.take 16).getD q ("", "")) := by
    intro q hq
    have := getD_append_stored_left (l.take 16) [] q (by omega)
    rw [List.append_nil] at this
    exact this
  have hnomatch : ∀ q, q < MAX_DEVICES →
      ¬ slot_matches ((l.take 16).map stored_entry) (l.getD 16 ("", "")).1 q := by
    intro q hq hm
    have hq16 : q < 16 := hq
    have hm2 := hm.2
    rw [hget q hq16] at hm2
    apply hnew
    rw [List.mem_map]
    exact ⟨(l.take 16).getD q ("", ""),
      by rw [List.getD_eq_getElem _ _ (by omega)]; exact List.getElem_mem _, hm2⟩
  have hnofree : ∀ q, q < MAX_DEVICES → ¬ slot_free ((l.take 16).map stored_entry) q := by
    intro q hq hf
    have hq16 : q < 16 := hq
    unfold slot_free at hf
    rw [hget q hq16] at hf
    cases hf
  rw [(cache_update_eq _ _ _).2.2 hnomatch hnofree,
    strn_of_le 17 _ (hmac _ (by
      rw [List.getD_eq_getElem _ _ (by omega)]
      exact List.getElem_mem _))]
  rfl

theorem occupied_count_set (cache : List device_cache_t) :
    ∀ (p : Nat) (e : device_cache_t), e.valid = (cache.getD p default).valid →
      p < cache.length → occupied_count (cache.set p e) = occupied_count cache := by
  induction cache with
  | nil => intro p e _ hp; simp at hp
  | cons c cs ih =>
    intro p e he hp
    cases p with
    | zero =>
      rw [List.getD_cons_zero] at he
      unfold occupied_count
      rw [List.set_cons_zero, List.filter_cons, List.filter_cons, he]
      split <;> simp only [List.length_cons]
    | succ k =>
      rw [List.getD_cons_succ] at he
      have := ih k e he (by simpa using hp)
      unfold occupied_count at this ⊢
      rw [List.set_cons_succ, List.filter_cons, List.filter_cons]
      split
      · simp only [List.length_cons, this]
      · exact this

theorem occupied_count_all (cache : List device_cache_t) (h : ∀ e ∈ cache, e.valid = true) :
    occupied_count cache = cache.length := by
  unfold occupied_count
  rw [List.filter_eq_self.mpr (fun e he => h e he)]

theorem cache_update_existing_count (cache : List device_cache_t) (mac json : String)
    (h : ∃ q, q < MAX_DEVICES ∧ slot_matches cache mac q) :
    occupied_count (cache_update cache mac json) = occupied_count cache := by
  rcases cache_update_shape cache mac json with ⟨p, _, hm, heq⟩ | ⟨hno, _⟩
  · rw [heq]
    exact occupied_count_set cache p _ rfl (getD_valid_lt cache p hm.1)
  · obtain ⟨q, hq, hmq⟩ := h
    exact absurd hmq (hno q hq)

theorem seventeen_slots (cache : List device_cache_t) (l : List (String × String))
    (hlen : cache.length = MAX_DEVICES) (hempty : ∀ e ∈ cache, e.valid = false)
    (hl : l.length = 17) (hnd : (l.map Prod.fst).Nodup) (hmac : ∀ p ∈ l, p.1.length ≤ 17) :
    (apply_updates cache l).length = 16 ∧ occupied_count (apply_updates cache l) = 16 ∧
      (apply_updates cache l).getD 0 default = stored_entry (l.getD 16 ("", "")) ∧
      ∀ i, 1 ≤ i → i ≤ 15 →
        (apply_updates cache l).getD i default = stored_entry (l.getD i ("", "")) := by
  have htake : (l.take 16).length = 16 := by rw [List.length_take]; omega
  have hlen2 : (((l.take 16).map stored_entry).set 0
      (stored_entry (l.getD 16 ("", "")))).length = 16 := by
    rw [List.length_set, List.length_map, htake]
  rw [apply_updates_seventeen cache l hlen hempty hl hnd hmac]
  refine ⟨hlen2, ?_, ?_, ?_⟩
  · rw [occupied_count_all _ ?_, hlen2]
    intro e he
    rcases List.mem_or_eq_of_mem_set he with h | h
    · obtain ⟨p, _, hp⟩ := List.mem_map.mp h
      rw [← hp]
      rfl
    · rw [h]
      rfl
  · exact getD_set_self _ 0 _ (by rw [List.length_map, htake]; decide)
  · intro i h1 h15
    rw [getD_set_other _ 0 i _ (by omega)]
    have := getD_append_stored_left (l.take 16) [] i (by omega)
    rw [List.append_nil] at this
    rw [this, List.getD_eq_getElem?_getD, List.getElem?_take_of_lt (by omega),
      ← List.getD_eq_getElem?_getD]

/-- C11, as stated, fails: starting from the empty cache, the 17 distinct one-letter addresses
`a` to `q`, the last one with a payload of 512 characters, leave slot 0 with the address `q` and
a payload of 511 characters, which is not the payload of the 17th address. -/
theorem long_payload_counterexample :
    init_state.device_cache.length = MAX_DEVICES ∧
      (∀ e ∈ init_state.device_cache, e.valid = false) ∧
      sample_updates.length = 17 ∧ (sample_updates.map Prod.fst).Nodup ∧
      (∀ p ∈ sample_updates, p.1.length ≤ 17) ∧
      sample_updates.getD 16 ("", "") = ("q", long_payload) ∧ long_payload.length = 512 ∧
      ((apply_updates init_state.device_cache sample_updates).getD 0 default).mac = "q" ∧
      ((apply_updates init_state.device_cache sample_updates).getD 0 default).json.length
        = 511 ∧
      ((apply_updates init_state.device_cache sample_updates).getD 0 default).json ≠
        long_payload := by
  have h1 : init_state.device_cache.length = MAX_DEVICES := by decide
  have h2 : ∀ e ∈ init_state.device_cache, e.valid = false := by decide
  have h3 : sample_updates.length = 17 := by decide
  have h4 : (sample_updates.map Prod.fst).Nodup := by decide
  have h5 : ∀ p ∈ sample_updates, p.1.length ≤ 17 := by decide
  have h6 : sample_updates.getD 16 ("", "") = ("q", long_payload) := rfl
  have h7 : long_payload.length = 512 := by
    show (List.replicate 512 'x').length = 512
    exact List.length_replicate _ _
  have hslot := (seventeen_slots init_state.device_cache sample_updates h1 h2 h3 h4 h5).2.2.1
  have h8 : (strn 511 long_payload).length = 511 := by
    show ((List.replicate 512 'x').take 511).length = 511
    rw [List.length_take, List.length_replicate]
    decide
  refine ⟨h1, h2, h3, h4, h5, h6, h7, ?_, ?_, ?_⟩
  · rw [hslot, h6]; rfl
  · rw [hslot, h6]; exact h8
  · rw [hslot, h6]
    intro h
    have : (strn 511 long_payload).length = long_payload.length := congrArg String.length h
    rw [h7, h8] at this
    omega

/-- C11, amended: starting from a cache of 16 unoccupied slots, for every list of 17 pairwise
distinct addresses (each at most 17 characters) with arbitrary payloads, applying `cache_update`
to them in order leaves exactly 16 occupied slots, with slot 0 holding the 17th address and the
first 511 characters of its payload and slot `i` (1 ≤ i ≤ 15) holding the (i+1)-th address and
the first 511 characters of its payload, that is the payloads themselves when they have at most
511 characters; and a `cache_update` for an address already present in an occupied slot never
changes the number of occupied slots. -/
theorem seventeen_updates (cache : List device_cache_t) (l : List (String × String))
    (hlen : cache.length = MAX_DEVICES) (hempty : ∀ e ∈ cache, e.valid = false)
    (hl : l.length = 17) (hnd : (l.map Prod.fst).Nodup) (hmac : ∀ p ∈ l, p.1.length ≤ 17) :
    (apply_updates cache l).length = 16 ∧ occupied_count (apply_updates cache l) = 16 ∧
      (apply_updates cache l).getD 0 default =
        ⟨(l.getD 16 ("", "")).1, strn 511 (l.getD 16 ("", "")).2, true⟩ ∧
      (∀ i, 1 ≤ i → i ≤ 15 →
        (apply_updates cache l).getD i default =
          ⟨(l.getD i ("", "")).1, strn 511 (l.getD i ("", "")).2, true⟩) ∧
      ((∀ p ∈ l, p.2.length ≤ 511) →
        (apply_updates cache l).getD 0 default =
            ⟨(l.getD 16 ("", "")).1, (l.getD 16 ("", "")).2, true⟩ ∧
          ∀ i, 1 ≤ i → i ≤ 15 →
            (apply_updates cache l).getD i default =
              ⟨(l.getD i ("", "")).1, (l.getD i ("", "")).2, true⟩) ∧
      (∀ (c : List device_cache_t) (mac json : String),
        (∃ q, q < MAX_DEVICES ∧ slot_matches c mac q) →
        occupied_count (cache_update c mac json) = occupied_count c) := by
  obtain ⟨h1, h2, h3, h4⟩ := seventeen_slots cache l hlen hempty hl hnd hmac
  refine ⟨h1, h2, h3, h4, ?_, cache_update_existing_count⟩
  intro hjson
  have hst : ∀ i, i < 17 → stored_entry (l.getD i ("", "")) =
      ⟨(l.getD i ("", "")).1, (l.getD i ("", "")).2, true⟩ := by
    intro i hi
    unfold stored_entry
    rw [strn_of_le 511 _ (hjson _ (by
      rw [List.getD_eq_getElem _ _ (by omega)]
      exact List.getElem_mem _))]
  refine ⟨by rw [h3, hst 16 (by omega)], fun i hi1 hi15 => ?_⟩
  rw [h4 i hi1 hi15, hst i (by omega)]

theorem seventeen_updates_witness :
    init_state.device_cache.length = MAX_DEVICES ∧ sample_updates.length = 17 ∧
      (sample_updates.map Prod.fst).Nodup ∧
      occupied_count (apply_updates init_state.device_cache sample_updates) = 16 ∧
      (apply_updates init_state.device_cache sample_updates).getD 1 default =
        ⟨(sample_updates.getD 1 ("", "")).1, strn 511 (sample_updates.getD 1 ("", "")).2, true⟩ :=
  ⟨by decide, by decide, by decide,
    (seventeen_updates init_state.device_cache sample_updates (by decide) (by decide)
      (by decide) (by decide) (by decide)).2.1,
    (seventeen_updates init_state.device_cache sample_updates (by decide) (by decide)
      (by decide) (by decide) (by decide)).2.2.2.1 1 (by decide) (by decide)⟩

/-! ### The invariant of the cache -/

/-- C12: `no two occupied slots hold the same address` is an invariant of the 16-slot cache: it
holds for the initial cache, it is preserved by every `cache_update` with an address of at most
17 characters and by every `send_all_cached_to_mqtt` whatever the publish calls return (the
number of slots staying 16), and it holds in every state reached through `init_mqtt`,
advertisement, MQTT and WiFi events. -/
theorem no_dup_mac_invariant :
    (init_state.device_cache.length = MAX_DEVICES ∧ no_dup_mac init_state.device_cache) ∧
      (∀ (cache : List device_cache_t) (mac json : String), cache.length = MAX_DEVICES →
        mac.length ≤ 17 → no_dup_mac cache →
        (cache_update cache mac json).length = MAX_DEVICES ∧
          no_dup_mac (cache_update cache mac json)) ∧
      (∀ (msg_id : Nat → Int) (st : State), st.device_cache.length = MAX_DEVICES →
        no_dup_mac st.device_cache →
        (send_all_cached_to_mqtt msg_id st).1.device_cache.length = MAX_DEVICES ∧
          no_dup_mac (send_all_cached_to_mqtt msg_id st).1.device_cache) ∧
      (∀ st : State, Reachable st →
        st.device_cache.length = MAX_DEVICES ∧ no_dup_mac st.device_cache) := by
  refine ⟨init_cache_inv, ?_, ?_, reachable_cache_inv⟩
  · intro cache mac json hlen hmac hnd
    exact cache_update_inv cache mac json hmac ⟨hlen, hnd⟩
  · intro msg_id st hlen hnd
    unfold send_all_cached_to_mqtt
    split
    · exact ⟨hlen, hnd⟩
    · exact flush_loop_inv msg_id st.device_cache ⟨hlen, hnd⟩

theorem no_dup_mac_invariant_witness :
    Reachable up_state_occupied ∧ occupied_count up_state_occupied.device_cache = 1 ∧
      no_dup_mac up_state_occupied.device_cache :=
  ⟨up_state_occupied_reachable, by decide,
    (no_dup_mac_invariant.2.2.2 up_state_occupied up_state_occupied_reachable).2⟩

end TpmsMqtt
